import Mathlib

/-!
# HAMMER2 cluster layer and synchronisation thread

A shallow embedding of the cluster operations of HAMMER2
(sys/vfs/hammer2/hammer2_cluster.c) and of the thread control functions of
sys/vfs/hammer2/hammer2_syncthr.c.  Chains live in a heap addressed by
`ChainId` (the pointer identity of a `hammer2_chain_t`); a cluster holds an
array of optional chain pointers, a focus pointer, a reference count and a
flag word.  Kernel halts (`KKASSERT`, `panic`, a NULL dereference) are the
error side of `Except`.

The chain layer (hammer2_chain.c), the inode and flush code and the headers
(hammer2.h, hammer2_disk.h) are not part of the sources at hand.  Constants
and layout facts of the headers are fields of `hammer2_h`; chain primitives
are either modelled from the specification (ref, drop, lock, unlock) or taken
as parameters (lookup, next, create, delete, rename, and the functions around
a snapshot).
-/

namespace Hammer2

/-! ## Data model -/

/-- Pointer identity of a `hammer2_chain_t`. -/
abbrev ChainId := Nat

/-- Constants and layout facts declared in hammer2.h and hammer2_disk.h. -/
structure hammer2_h where
  HAMMER2_CLUSTER_INODE : Nat
  HAMMER2_CLUSTER_LOCKED : Nat
  HAMMER2_RESOLVE_NOREF : Nat
  HAMMER2_LOOKUP_NOLOCK : Nat
  HAMMER2_CHAIN_MODIFIED : Nat
  HAMMER2_BREF_TYPE_INODE : Nat
  HAMMER2_BREF_TYPE_INDIRECT : Nat
  HAMMER2_BREF_TYPE_DATA : Nat
  HAMMER2_BREF_TYPE_FREEMAP_NODE : Nat
  HAMMER2_BREF_TYPE_FREEMAP_LEAF : Nat
  HAMMER2_BREF_TYPE_FREEMAP : Nat
  HAMMER2_BREF_TYPE_VOLUME : Nat
  HAMMER2_OPFLAG_DIRECTDATA : Nat
  /-- The mask of the radix bits of `bref.data_off`. -/
  HAMMER2_OFF_MASK_RADIX : Nat
  HAMMER2_RESOLVE_ALWAYS : Nat
  HAMMER2_SYNCTHR_STOP : Nat
  HAMMER2_SYNCTHR_FREEZE : Nat
  HAMMER2_SYNCTHR_FROZEN : Nat
  HAMMER2_SYNCTHR_REMASTER : Nat
  HAMMER2_PFSTYPE_SNAPSHOT : Nat
  HAMMER2_OPFLAG_PFSROOT : Nat
  HAMMER2_BREF_FLAG_PFSROOT : Nat
  HAMMER2_INSERT_PFSROOT : Nat
  /-- Byte offset of the one-byte field `pfs_type` inside `hammer2_inode_data_t`. -/
  offsetof_pfs_type : Nat
  /-- Byte offset of the field `pfs_fsid`, a `uuid_t`. -/
  offsetof_pfs_fsid : Nat
  /-- Byte offset of the field `pfs_clid`, a `uuid_t`. -/
  offsetof_pfs_clid : Nat
  /-- The value of `sizeof(uuid_t)`. -/
  sizeof_uuid : Nat
  /-- The value of `sizeof(hammer2_blockset_t)`, the size of `u.blockset`. -/
  sizeof_blockset : Nat
  /-- Byte offset of the one-byte field `op_flags` inside `hammer2_inode_data_t`. -/
  offsetof_op_flags : Nat
  /-- The value of `offsetof(hammer2_inode_data_t, u)`. -/
  offsetof_u : Nat
  /-- The labels of the `switch` in `hammer2_cluster_modsync` are pairwise
  distinct, as C requires of case labels. -/
  bref_types_nodup : [HAMMER2_BREF_TYPE_INODE, HAMMER2_BREF_TYPE_DATA,
    HAMMER2_BREF_TYPE_FREEMAP_NODE, HAMMER2_BREF_TYPE_FREEMAP_LEAF,
    HAMMER2_BREF_TYPE_FREEMAP, HAMMER2_BREF_TYPE_VOLUME].Nodup
  /-- INDIRECT is a type code of its own in hammer2_disk.h; the `switch` in
  `hammer2_cluster_modsync` has no label for it. -/
  indirect_unlisted : HAMMER2_BREF_TYPE_INDIRECT ∉ [HAMMER2_BREF_TYPE_INODE,
    HAMMER2_BREF_TYPE_DATA, HAMMER2_BREF_TYPE_FREEMAP_NODE, HAMMER2_BREF_TYPE_FREEMAP_LEAF,
    HAMMER2_BREF_TYPE_FREEMAP, HAMMER2_BREF_TYPE_VOLUME]
  /-- Each of the four HAMMER2_SYNCTHR flags has a bit set. -/
  syncthr_flags_nonzero : HAMMER2_SYNCTHR_STOP ≠ 0 ∧ HAMMER2_SYNCTHR_FREEZE ≠ 0 ∧
    HAMMER2_SYNCTHR_FROZEN ≠ 0 ∧ HAMMER2_SYNCTHR_REMASTER ≠ 0
  /-- The four HAMMER2_SYNCTHR flags share no bit. -/
  syncthr_flags_disjoint :
    HAMMER2_SYNCTHR_STOP &&& HAMMER2_SYNCTHR_FREEZE = 0 ∧
    HAMMER2_SYNCTHR_STOP &&& HAMMER2_SYNCTHR_FROZEN = 0 ∧
    HAMMER2_SYNCTHR_STOP &&& HAMMER2_SYNCTHR_REMASTER = 0 ∧
    HAMMER2_SYNCTHR_FREEZE &&& HAMMER2_SYNCTHR_FROZEN = 0 ∧
    HAMMER2_SYNCTHR_FREEZE &&& HAMMER2_SYNCTHR_REMASTER = 0 ∧
    HAMMER2_SYNCTHR_FROZEN &&& HAMMER2_SYNCTHR_REMASTER = 0
  /-- Layout of `hammer2_inode_data_t`: `op_flags`, `pfs_type`, `pfs_fsid` and
  `pfs_clid` are members of their own, laid out before the union `u`. -/
  inode_layout :
    offsetof_op_flags < offsetof_u ∧ offsetof_pfs_type < offsetof_u ∧
    offsetof_pfs_fsid + sizeof_uuid ≤ offsetof_u ∧
    offsetof_pfs_clid + sizeof_uuid ≤ offsetof_u ∧
    offsetof_op_flags ≠ offsetof_pfs_type ∧
    (offsetof_op_flags < offsetof_pfs_fsid ∨
      offsetof_pfs_fsid + sizeof_uuid ≤ offsetof_op_flags) ∧
    (offsetof_op_flags < offsetof_pfs_clid ∨
      offsetof_pfs_clid + sizeof_uuid ≤ offsetof_op_flags) ∧
    (offsetof_pfs_type < offsetof_pfs_fsid ∨
      offsetof_pfs_fsid + sizeof_uuid ≤ offsetof_pfs_type) ∧
    (offsetof_pfs_type < offsetof_pfs_clid ∨
      offsetof_pfs_clid + sizeof_uuid ≤ offsetof_pfs_type) ∧
    (offsetof_pfs_fsid + sizeof_uuid ≤ offsetof_pfs_clid ∨
      offsetof_pfs_clid + sizeof_uuid ≤ offsetof_pfs_fsid)

/-- The fields of `hammer2_blockref_t` the cluster code reads. -/
structure hammer2_blockref where
  type : Nat
  key : Nat
  keybits : Nat
  data_off : Nat
  methods : Nat
  flags : Nat
deriving DecidableEq, Repr

/-- The fields of `hammer2_chain_t` the cluster code reads or that the chain
primitives change.  `data` is the chain's resolved media buffer, one list
element per byte. -/
structure hammer2_chain where
  bref : hammer2_blockref
  bytes : Nat
  flags : Nat
  refs : Int
  lockcnt : Int
  parent : Option ChainId
  data : List Nat
deriving DecidableEq, Repr

/-- The chains in kernel memory. -/
abbrev Heap := ChainId → hammer2_chain

/-- A call made into the chain layer.  For `lookup` and `next` the last two
fields are what the call answered: the chain returned and the value it left
in its `key_nextp` argument.  For `create`, `slot` is the index `i` of the
two addresses `&cparent->array[i].chain` and `&cluster->array[i].chain`
handed over, `parent` and `chain` are what they held, and the last two
fields are the chain left in `*chainp` and the error returned.  For `rename`,
`slot` is the index `i` of the address `&cparent->array[i].chain` handed
over, `bref` the blockref handed over (`none` for NULL) and `parent` what the
parent slot held. -/
inductive ChainCall where
  | ref (chain : ChainId)
  | drop (chain : ChainId)
  | lock (chain : ChainId) (how : Nat) (error : Nat)
  | unlock (chain : ChainId)
  | lookup (parent : ChainId) (result : Option ChainId) (key_next : Nat)
  | next (parent : ChainId) (chain : ChainId) (result : Option ChainId) (key_next : Nat)
  | create (slot : Nat) (parent chain : Option ChainId) (result : Option ChainId) (error : Nat)
  | delete (parent : Option ChainId) (chain : ChainId)
  | rename (slot : Nat) (bref : Option hammer2_blockref) (parent : Option ChainId)
      (chain : ChainId)
  | modify (chain : ChainId) (flags : Nat)
  | flush (chain : ChainId)
deriving DecidableEq, Repr

/-- Kernel memory as the cluster code sees it: the chains, and the log of the
calls made into the chain layer so far. -/
structure World where
  chain : Heap
  trace : List ChainCall

/-- The fields of `hammer2_cluster_t`.  `array i` is `array[i].chain`.  The
reference count is a C `int`: `atomic_add_int` adds to it modulo 2^32; the
decrements by `atomic_fetchadd_int` in `hammer2_cluster_drop` and
`hammer2_cluster_unlock` come after `KKASSERT(refs > 0)` and cannot carry. -/
structure hammer2_cluster where
  refs : Int
  ddflag : Nat
  flags : Nat
  nchains : Nat
  focus : Option ChainId
  array : Nat → Option ChainId
  pmp : Option Nat

/-- Ways the kernel stops instead of returning. -/
inductive Halt where
  | kkassert
  | fatal
  | nullptr
deriving DecidableEq, Repr

/-- A cluster as left behind by an operation that may `kfree` it. -/
structure Dropped where
  cluster : hammer2_cluster
  freed : Bool
  world : World

/-! ## Chain primitives -/

/-- Modelled from the spec: `hammer2_chain_ref` of the chain layer (§6,
"ref/drop/lock/unlock"), which is not in the sources; it adds one to the
chain's reference count. -/
def hammer2_chain_ref (w : World) (c : ChainId) : World :=
  { chain := Function.update w.chain c { w.chain c with refs := (w.chain c).refs + 1 },
    trace := w.trace ++ [ChainCall.ref c] }

/-- Modelled from the spec: `hammer2_chain_drop` of the chain layer, which is
not in the sources; it takes one from the chain's reference count. -/
def hammer2_chain_drop (w : World) (c : ChainId) : World :=
  { chain := Function.update w.chain c { w.chain c with refs := (w.chain c).refs - 1 },
    trace := w.trace ++ [ChainCall.drop c] }

/-! ## Reference counting -/

/-- The largest value of a C `int` (32 bits). -/
def INT_MAX : Int := 2147483647

/-- The machine operation `atomic_add_int(&x, v)` on an `int`, read back as
a signed value: addition modulo 2^32 in two's complement, so that
`INT_MAX + 1` is `-INT_MAX - 1`. -/
def atomic_add_int (x v : Int) : Int := (x + v + 2147483648) % 4294967296 - 2147483648

/-- The `for` loop of `hammer2_cluster_ref`, `n` iterations from index `i`. -/
def hammer2_cluster_ref_loop (cluster : hammer2_cluster) : Nat → Nat → World → World
  | 0, _, w => w
  | n + 1, i, w =>
    match cluster.array i with
    | some chain => hammer2_cluster_ref_loop cluster n (i + 1) (hammer2_chain_ref w chain)
    | none => hammer2_cluster_ref_loop cluster n (i + 1) w

/-- Embedding of `hammer2_cluster_ref`. -/
def hammer2_cluster_ref (cluster : hammer2_cluster) (w : World) : hammer2_cluster × World :=
  let cluster1 := { cluster with refs := atomic_add_int cluster.refs 1 }
  (cluster1, hammer2_cluster_ref_loop cluster1 cluster1.nchains 0 w)

/-- The `for` loop of `hammer2_cluster_drop`, `n` iterations from index `i`. -/
def hammer2_cluster_drop_loop : Nat → Nat → hammer2_cluster → World → hammer2_cluster × World
  | 0, _, cluster, w => (cluster, w)
  | n + 1, i, cluster, w =>
    match cluster.array i with
    | some chain =>
      let w1 := hammer2_chain_drop w chain
      let cluster1 := if cluster.refs = 1
        then { cluster with array := Function.update cluster.array i none }
        else cluster
      hammer2_cluster_drop_loop n (i + 1) cluster1 w1
    | none => hammer2_cluster_drop_loop n (i + 1) cluster w

/-- Embedding of `hammer2_cluster_drop`. -/
def hammer2_cluster_drop (cluster : hammer2_cluster) (w : World) : Except Halt Dropped :=
  if 0 < cluster.refs then
    let r := hammer2_cluster_drop_loop cluster.nchains 0 cluster w
    let old := r.1.refs
    let cluster1 := { r.1 with refs := r.1.refs - 1 }
    if old = 1 then
      .ok { cluster := { cluster1 with focus := none }, freed := true, world := r.2 }
    else
      .ok { cluster := cluster1, freed := false, world := r.2 }
  else .error Halt.kkassert

/-- The sequence `hammer2_cluster_ref(C); hammer2_cluster_drop(C)`. -/
def ref_then_drop (cluster : hammer2_cluster) (w : World) : Except Halt Dropped :=
  let r := hammer2_cluster_ref cluster w
  hammer2_cluster_drop r.1 r.2


/-! ## Locking -/

/-- Modelled from the spec: `hammer2_chain_lock` of the chain layer, which is
not in the sources.  `lockerr` is the error code the chain layer answers for
this chain in the current state; on success (code 0) the chain's lock count
grows by one, on failure the chain is left as it was. -/
def hammer2_chain_lock (lockerr : World → ChainId → Nat → Nat) (w : World) (c : ChainId)
    (how : Nat) : Nat × World :=
  let error := lockerr w c how
  if error = 0 then
    (0, { chain := Function.update w.chain c { w.chain c with lockcnt := (w.chain c).lockcnt + 1 },
          trace := w.trace ++ [ChainCall.lock c how 0] })
  else
    (error, { w with trace := w.trace ++ [ChainCall.lock c how error] })

/-- Modelled from the spec: `hammer2_chain_unlock` of the chain layer, which
is not in the sources; it releases one lock on the chain. -/
def hammer2_chain_unlock (w : World) (c : ChainId) : World :=
  { chain := Function.update w.chain c { w.chain c with lockcnt := (w.chain c).lockcnt - 1 },
    trace := w.trace ++ [ChainCall.unlock c] }

/-- The unwinding loop `while (--i >= 0)` of `hammer2_cluster_lock`, entered
with the index `i` of the slot whose lock failed.  Every slot below `i` is
handed to `hammer2_chain_unlock` without a NULL test; handing it a NULL
pointer is a null dereference. -/
def hammer2_cluster_lock_unwind (cluster : hammer2_cluster) : Nat → World → Except Halt World
  | 0, w => .ok w
  | i + 1, w =>
    match cluster.array i with
    | none => .error Halt.nullptr
    | some tmp => hammer2_cluster_lock_unwind cluster i (hammer2_chain_unlock w tmp)

/-- The `for` loop of `hammer2_cluster_lock`, `n` iterations from index `i`;
the first component of the result is the local `error`. -/
def hammer2_cluster_lock_loop (lockerr : World → ChainId → Nat → Nat) (how : Nat) :
    Nat → Nat → hammer2_cluster → World → Except Halt (Nat × hammer2_cluster × World)
  | 0, _, cluster, w => .ok (0, cluster, w)
  | n + 1, i, cluster, w =>
    match cluster.array i with
    | none => hammer2_cluster_lock_loop lockerr how n (i + 1) cluster w
    | some chain =>
      let r := hammer2_chain_lock lockerr w chain how
      if r.1 ≠ 0 then
        match hammer2_cluster_lock_unwind cluster i r.2 with
        | .error e => .error e
        | .ok w2 => .ok (r.1, { cluster with refs := atomic_add_int cluster.refs (-1) }, w2)
      else
        let cluster1 := if cluster.focus = none then { cluster with focus := some chain }
          else cluster
        hammer2_cluster_lock_loop lockerr how n (i + 1) cluster1 r.2

/-- Embedding of `hammer2_cluster_lock`; the result is the returned error
code, the cluster and the world.  The `kprintf` for an already locked
cluster changes no state. -/
def hammer2_cluster_lock (K : hammer2_h) (lockerr : World → ChainId → Nat → Nat)
    (cluster : hammer2_cluster) (how : Nat) (w : World) :
    Except Halt (Nat × hammer2_cluster × World) :=
  if cluster.flags &&& K.HAMMER2_CLUSTER_INODE = 0 then
    let cluster1 := { cluster with flags := cluster.flags ||| K.HAMMER2_CLUSTER_LOCKED }
    let cluster2 := if how &&& K.HAMMER2_RESOLVE_NOREF = 0
      then { cluster1 with refs := atomic_add_int cluster1.refs 1 } else cluster1
    hammer2_cluster_lock_loop lockerr how cluster2.nchains 0 cluster2 w
  else .error Halt.kkassert

/-! ## Lookup and iteration -/

/-- What a per-chain lookup or iteration call of the chain layer answers: the
chain returned, the parent pointer and the key it leaves in its in-out
arguments `*parentp` and `*key_nextp`, and the chains afterwards.  The
`cache_index` hint, which the cluster code only passes through, is left out. -/
structure ChainFound where
  chain : Option ChainId
  parent : Option ChainId
  key_next : Nat
  heap : Heap

/-- The type of `hammer2_chain_lookup`: chains, `*parentp`, `*key_nextp`,
`key_beg`, `key_end`, `flags`. -/
abbrev chain_lookup_fn := Heap → ChainId → Nat → Nat → Nat → Nat → ChainFound

/-- The type of `hammer2_chain_next`: chains, `*parentp`, `chain`,
`*key_nextp`, `key_beg`, `key_end`, `flags`. -/
abbrev chain_next_fn := Heap → ChainId → ChainId → Nat → Nat → Nat → Nat → ChainFound

/-- The locals of `hammer2_cluster_lookup` and `hammer2_cluster_next`
together with the two clusters and the world. -/
structure ScanLocals where
  cparent : hammer2_cluster
  cluster : hammer2_cluster
  world : World
  key_accum : Nat
  null_count : Nat
  bref_type : Nat
  bref_key : Nat
  bref_keybits : Nat
  bytes : Nat

/-- The locals as initialised at the top of `hammer2_cluster_lookup` and
`hammer2_cluster_next`: `key_accum = *key_nextp`, the other locals zero. -/
def scan_locals (cparent cluster : hammer2_cluster) (key_nextp : Nat) (w : World) :
    ScanLocals :=
  { cparent := cparent, cluster := cluster, world := w, key_accum := key_nextp,
    null_count := 0, bref_type := 0, bref_key := 0, bref_keybits := 0, bytes := 0 }

/-- The statement `if (key_accum > key_next) key_accum = key_next;`. -/
def scan_accum (s : ScanLocals) (key_next : Nat) : ScanLocals :=
  if s.key_accum > key_next then { s with key_accum := key_next } else s

/-- The focus selection of the loop bodies of `hammer2_cluster_lookup` and
`hammer2_cluster_next` for a non-NULL per-chain result `c` of slot `i`: "Set
default focus", which also seeds the expected bref fields and `ddflag`, then
"Override default focus to follow the parent". -/
def scan_focus (K : hammer2_h) (s : ScanLocals) (i : Nat) (c : ChainId) : ScanLocals :=
  let ch := s.world.chain c
  let ddflag := if ch.bref.type = K.HAMMER2_BREF_TYPE_INODE then 1 else 0
  let s2 := if s.cluster.focus = none then
      { s with
        bref_type := ch.bref.type, bref_key := ch.bref.key,
        bref_keybits := ch.bref.keybits, bytes := ch.bytes,
        cluster := { s.cluster with ddflag := ddflag, focus := some c } }
    else s
  if s2.cparent.focus = s2.cparent.array i
  then { s2 with cluster := { s2.cluster with focus := some c } } else s2

/-- The five `KKASSERT`s of the loop bodies of `hammer2_cluster_lookup` and
`hammer2_cluster_next` on the per-chain result `c`. -/
def scan_agrees (K : hammer2_h) (s : ScanLocals) (c : ChainId) : Prop :=
  s.bref_type = (s.world.chain c).bref.type ∧ s.bref_key = (s.world.chain c).bref.key ∧
  s.bref_keybits = (s.world.chain c).bref.keybits ∧ s.bytes = (s.world.chain c).bytes ∧
  s.cluster.ddflag = (if (s.world.chain c).bref.type = K.HAMMER2_BREF_TYPE_INODE then 1 else 0)

instance (K : hammer2_h) (s : ScanLocals) (c : ChainId) : Decidable (scan_agrees K s c) := by
  unfold scan_agrees
  infer_instance

/-- The part of the loop body that `hammer2_cluster_lookup` (lines 828-860)
and `hammer2_cluster_next` (lines 921-949) have in common, from the store of
the per-chain result into `cluster->array[i].chain` to the update of
`key_accum`. -/
def cluster_scan_result (K : hammer2_h) (s : ScanLocals) (i : Nat) (chain : Option ChainId)
    (key_next : Nat) : Except Halt ScanLocals :=
  let s1 := { s with cluster := { s.cluster with array := Function.update s.cluster.array i chain } }
  match chain with
  | none => .ok (scan_accum { s1 with null_count := s1.null_count + 1 } key_next)
  | some c =>
    let s3 := scan_focus K s1 i c
    if scan_agrees K s3 c then .ok (scan_accum s3 key_next) else .error Halt.kkassert

/-- The `for` loop of `hammer2_cluster_lookup`, `n` iterations from index
`i`; `key_nextp` is the value of `*key_nextp`, which the loop only reads. -/
def hammer2_cluster_lookup_loop (K : hammer2_h) (chain_lookup : chain_lookup_fn)
    (key_nextp key_beg key_end flags : Nat) : Nat → Nat → ScanLocals → Except Halt ScanLocals
  | 0, _, s => .ok s
  | n + 1, i, s =>
    match s.cparent.array i with
    | none =>
      hammer2_cluster_lookup_loop K chain_lookup key_nextp key_beg key_end flags n (i + 1)
        { s with null_count := s.null_count + 1 }
    | some parent =>
      let r := chain_lookup s.world.chain parent key_nextp key_beg key_end flags
      let s1 := { s with
        cparent := { s.cparent with array := Function.update s.cparent.array i r.parent },
        world := { chain := r.heap,
                   trace := s.world.trace ++ [ChainCall.lookup parent r.chain r.key_next] } }
      match cluster_scan_result K s1 i r.chain r.key_next with
      | .error e => .error e
      | .ok s2 =>
        hammer2_cluster_lookup_loop K chain_lookup key_nextp key_beg key_end flags n (i + 1) s2

/-- What `hammer2_cluster_lookup` and `hammer2_cluster_next` leave behind:
the returned cluster (`none` for NULL), the parent cluster, the value of
`*key_nextp`, and the world. -/
structure ScanResult where
  cluster : Option hammer2_cluster
  cparent : hammer2_cluster
  key_next : Nat
  world : World

/-- The end of `hammer2_cluster_lookup` and `hammer2_cluster_next`:
`cluster->nchains = i` and the drop of a cluster all of whose slots came out
null. -/
def cluster_scan_finish (s : ScanLocals) (i : Nat) (key_next : Nat) : Except Halt ScanResult :=
  let cluster1 := { s.cluster with nchains := i }
  if s.null_count = i then
    match hammer2_cluster_drop cluster1 s.world with
    | .error e => .error e
    | .ok d => .ok { cluster := none, cparent := s.cparent, key_next := key_next, world := d.world }
  else
    .ok { cluster := some cluster1, cparent := s.cparent, key_next := key_next, world := s.world }

/-- Embedding of `hammer2_cluster_lookup`.  The new cluster comes zeroed from
`kmalloc(M_ZERO)`; `*key_nextp = key_accum` is stored after the loop. -/
def hammer2_cluster_lookup (K : hammer2_h) (chain_lookup : chain_lookup_fn)
    (cparent : hammer2_cluster) (key_nextp key_beg key_end flags : Nat) (w : World) :
    Except Halt ScanResult :=
  let cluster : hammer2_cluster :=
    { refs := 1, ddflag := 0, nchains := 0, focus := none, array := fun _ => none,
      pmp := cparent.pmp,
      flags := if flags &&& K.HAMMER2_LOOKUP_NOLOCK = 0
        then 0 ||| K.HAMMER2_CLUSTER_LOCKED else 0 }
  match hammer2_cluster_lookup_loop K chain_lookup key_nextp key_beg key_end flags
      cparent.nchains 0 (scan_locals cparent cluster key_nextp w) with
  | .error e => .error e
  | .ok s => cluster_scan_finish s s.cparent.nchains s.key_accum

/-- The `for` loop of `hammer2_cluster_next`, `n` iterations from index `i`. -/
def hammer2_cluster_next_loop (K : hammer2_h) (chain_next : chain_next_fn)
    (key_nextp key_beg key_end flags : Nat) : Nat → Nat → ScanLocals → Except Halt ScanLocals
  | 0, _, s => .ok s
  | n + 1, i, s =>
    match s.cluster.array i with
    | none =>
      hammer2_cluster_next_loop K chain_next key_nextp key_beg key_end flags n (i + 1)
        { s with null_count := s.null_count + 1 }
    | some chain =>
      match s.cparent.array i with
      | none =>
        let w1 := if flags &&& K.HAMMER2_LOOKUP_NOLOCK ≠ 0
          then hammer2_chain_drop s.world chain else hammer2_chain_unlock s.world chain
        hammer2_cluster_next_loop K chain_next key_nextp key_beg key_end flags n (i + 1)
          { s with world := w1, null_count := s.null_count + 1 }
      | some parent =>
        let r := chain_next s.world.chain parent chain key_nextp key_beg key_end flags
        let s1 := { s with
          cparent := { s.cparent with array := Function.update s.cparent.array i r.parent },
          world := { chain := r.heap,
                     trace := s.world.trace ++ [ChainCall.next parent chain r.chain r.key_next] } }
        match cluster_scan_result K s1 i r.chain r.key_next with
        | .error e => .error e
        | .ok s2 =>
          hammer2_cluster_next_loop K chain_next key_nextp key_beg key_end flags n (i + 1) s2

/-- Embedding of `hammer2_cluster_next`.  The function computes `key_accum`
but has no store to `*key_nextp`, so the value on return is the one on
entry. -/
def hammer2_cluster_next (K : hammer2_h) (chain_next : chain_next_fn)
    (cparent cluster : hammer2_cluster) (key_nextp key_beg key_end flags : Nat) (w : World) :
    Except Halt ScanResult :=
  match hammer2_cluster_next_loop K chain_next key_nextp key_beg key_end flags
      cparent.nchains 0
      (scan_locals { cparent with focus := none } { cluster with focus := none, ddflag := 0 }
        key_nextp w) with
  | .error e => .error e
  | .ok s => cluster_scan_finish s s.cparent.nchains key_nextp

/-! ## Synchronising the focus to the other chains -/

/-- The libc `bcopy(src, dst, len)` on buffers that both hold at least `len`
bytes: the first `len` bytes of `dst` are replaced by those of `src`. -/
def bcopy (src dst : List Nat) (len : Nat) : List Nat :=
  src.take len ++ dst.drop len

/-- A store into the media buffer of chain `c`. -/
def store_data (w : World) (c : ChainId) (data : List Nat) : World :=
  { w with chain := Function.update w.chain c { w.chain c with data := data } }

/-- The `for` loop of `hammer2_cluster_modsync`, `n` iterations from index
`i`, for a non-NULL `focus`.  The `switch` is read in source order; the two
`panic` calls are the halt `fatal`. -/
def hammer2_cluster_modsync_loop (K : hammer2_h) (cluster : hammer2_cluster) (focus : ChainId) :
    Nat → Nat → World → Except Halt World
  | 0, _, w => .ok w
  | n + 1, i, w =>
    match cluster.array i with
    | none => hammer2_cluster_modsync_loop K cluster focus n (i + 1) w
    | some scan =>
      if scan = focus then hammer2_cluster_modsync_loop K cluster focus n (i + 1) w
      else if (w.chain scan).flags &&& K.HAMMER2_CHAIN_MODIFIED = 0 then .error Halt.kkassert
      else if ¬ ((w.chain focus).bytes = (w.chain scan).bytes ∧
          (w.chain focus).bref.type = (w.chain scan).bref.type) then .error Halt.kkassert
      else if (w.chain focus).bref.type = K.HAMMER2_BREF_TYPE_INODE then
        if (w.chain focus).data.getD K.offsetof_op_flags 0 &&& K.HAMMER2_OPFLAG_DIRECTDATA = 0 then
          hammer2_cluster_modsync_loop K cluster focus n (i + 1)
            (store_data w scan (bcopy (w.chain focus).data (w.chain scan).data K.offsetof_u))
        else
          hammer2_cluster_modsync_loop K cluster focus n (i + 1)
            (store_data w scan (bcopy (w.chain focus).data (w.chain scan).data (w.chain focus).bytes))
      else if (w.chain focus).bref.type = K.HAMMER2_BREF_TYPE_DATA then
        hammer2_cluster_modsync_loop K cluster focus n (i + 1)
          (store_data w scan (bcopy (w.chain focus).data (w.chain scan).data (w.chain focus).bytes))
      else if (w.chain focus).bref.type = K.HAMMER2_BREF_TYPE_FREEMAP_NODE ∨
          (w.chain focus).bref.type = K.HAMMER2_BREF_TYPE_FREEMAP_LEAF ∨
          (w.chain focus).bref.type = K.HAMMER2_BREF_TYPE_FREEMAP ∨
          (w.chain focus).bref.type = K.HAMMER2_BREF_TYPE_VOLUME then .error Halt.fatal
      else .error Halt.fatal

/-- Embedding of `hammer2_cluster_modsync`.  Reading `focus->flags` through a
NULL focus is a null dereference. -/
def hammer2_cluster_modsync (K : hammer2_h) (cluster : hammer2_cluster) (w : World) :
    Except Halt World :=
  match cluster.focus with
  | none => .error Halt.nullptr
  | some focus =>
    if (w.chain focus).flags &&& K.HAMMER2_CHAIN_MODIFIED = 0 then .error Halt.kkassert
    else hammer2_cluster_modsync_loop K cluster focus cluster.nchains 0 w

/-! ## Unlocking -/

/-- The machine operation `a & ~m`, as `atomic_clear_int(&a, m)` performs
it: the bits of `a` that are set in `m` are cleared. -/
def clear_bits (a m : Nat) : Nat := a ^^^ (a &&& m)

/-- The `for` loop of `hammer2_cluster_unlock`, `n` iterations from index
`i`. -/
def hammer2_cluster_unlock_loop :
    Nat → Nat → hammer2_cluster → World → hammer2_cluster × World
  | 0, _, cluster, w => (cluster, w)
  | n + 1, i, cluster, w =>
    match cluster.array i with
    | some chain =>
      let w1 := hammer2_chain_unlock w chain
      let cluster1 := if cluster.refs = 1
        then { cluster with array := Function.update cluster.array i none }
        else cluster
      hammer2_cluster_unlock_loop n (i + 1) cluster1 w1
    | none => hammer2_cluster_unlock_loop n (i + 1) cluster w

/-- Embedding of `hammer2_cluster_unlock`.  The `kprintf` for a cluster that
is not locked changes no state. -/
def hammer2_cluster_unlock (K : hammer2_h) (cluster : hammer2_cluster) (w : World) :
    Except Halt Dropped :=
  if 0 < cluster.refs then
    let cluster0 := { cluster with flags := clear_bits cluster.flags K.HAMMER2_CLUSTER_LOCKED }
    let r := hammer2_cluster_unlock_loop cluster0.nchains 0 cluster0 w
    let old := r.1.refs
    let cluster1 := { r.1 with refs := r.1.refs - 1 }
    if old = 1 then
      .ok { cluster := { cluster1 with focus := none }, freed := true, world := r.2 }
    else
      .ok { cluster := cluster1, freed := false, world := r.2 }
  else .error Halt.kkassert

/-! ## Creating and deleting -/

/-- What a call of `hammer2_chain_create` answers: the error code, the
pointers it leaves in its in-out arguments `*parentp` and `*chainp`, and the
chains afterwards. -/
structure ChainCreated where
  error : Nat
  parent : Option ChainId
  chain : Option ChainId
  heap : Heap

/-- The type of `hammer2_chain_create`: chains, `*parentp`, `*chainp`, `key`,
`keybits`, `type`, `bytes`, `flags`. -/
abbrev chain_create_fn :=
  Heap → Option ChainId → Option ChainId → Nat → Nat → Nat → Nat → Nat → ChainCreated

/-- The type of `hammer2_chain_delete`: chains, `parent`, `chain`, `flags`;
the result is the chains afterwards. -/
abbrev chain_delete_fn := Heap → Option ChainId → ChainId → Nat → Heap

/-- The locals of `hammer2_cluster_create` together with the two clusters
and the world.  `error` is `none` while the local has not been assigned. -/
structure CreateLocals where
  error : Option Nat
  cparent : hammer2_cluster
  cluster : hammer2_cluster
  world : World

/-- The two focus statements at the end of the loop body of
`hammer2_cluster_create` for slot `i`: the slot's chain becomes the focus
when there is no focus yet, and when the parent cluster's focus is the chain
in the parent slot. -/
def create_focus (cparent cluster : hammer2_cluster) (i : Nat) : hammer2_cluster :=
  let cluster2 : hammer2_cluster := if cluster.focus = none
    then { cluster with focus := cluster.array i } else cluster
  if cparent.focus = cparent.array i
  then { cluster2 with focus := cluster2.array i } else cluster2

/-- The `for` loop of `hammer2_cluster_create`, `n` iterations from index
`i`; `supplied` says whether `*clusterp` was non-NULL on entry.  The call of
slot `i` is handed `&cparent->array[i].chain` and `&cluster->array[i].chain`
whatever they hold. -/
def hammer2_cluster_create_loop (chain_create : chain_create_fn) (supplied : Bool)
    (key keybits type bytes flags : Nat) : Nat → Nat → CreateLocals → Except Halt CreateLocals
  | 0, _, s => .ok s
  | n + 1, i, s =>
    if supplied = true ∧ s.cluster.array i = none then
      hammer2_cluster_create_loop chain_create supplied key keybits type bytes flags n (i + 1) s
    else
      let r := chain_create s.world.chain (s.cparent.array i) (s.cluster.array i)
        key keybits type bytes flags
      let w1 : World :=
        { chain := r.heap,
          trace := s.world.trace ++
            [ChainCall.create i (s.cparent.array i) (s.cluster.array i) r.chain r.error] }
      let cparent1 : hammer2_cluster :=
        { s.cparent with array := Function.update s.cparent.array i r.parent }
      let cluster1 : hammer2_cluster :=
        { s.cluster with array := Function.update s.cluster.array i r.chain }
      if r.error = 0 then
        hammer2_cluster_create_loop chain_create supplied key keybits type bytes flags n (i + 1)
          { error := some r.error, cparent := cparent1,
            cluster := create_focus cparent1 cluster1 i, world := w1 }
      else .error Halt.kkassert

/-- Embedding of `hammer2_cluster_create`.  `pmp` is `trans->pmp` and
`clusterp` is `*clusterp` on entry; in the result `cluster` is `*clusterp` on
return and `error` the value returned. -/
def hammer2_cluster_create (K : hammer2_h) (chain_create : chain_create_fn) (pmp : Option Nat)
    (cparent : hammer2_cluster) (clusterp : Option hammer2_cluster)
    (key keybits type bytes flags : Nat) (w : World) : Except Halt CreateLocals :=
  let cluster : hammer2_cluster :=
    match clusterp with
    | none =>
      { refs := 1, ddflag := 0, flags := K.HAMMER2_CLUSTER_LOCKED, nchains := 0, focus := none,
        array := fun _ => none, pmp := pmp }
    | some cluster => cluster
  match hammer2_cluster_create_loop chain_create clusterp.isSome key keybits type bytes flags
      cparent.nchains 0
      { error := none, cparent := cparent, cluster := { cluster with focus := none },
        world := w } with
  | .error e => .error e
  | .ok s => .ok { s with cluster := { s.cluster with nchains := s.cparent.nchains } }

/-- The `for` loop of `hammer2_cluster_delete`, `n` iterations from index
`i`.  The `kprintf` for a parent mismatch changes no state. -/
def hammer2_cluster_delete_loop (chain_delete : chain_delete_fn)
    (cparent cluster : hammer2_cluster) (flags : Nat) : Nat → Nat → World → World
  | 0, _, w => w
  | n + 1, i, w =>
    let parent := if i < cparent.nchains then cparent.array i else none
    match cluster.array i with
    | none => hammer2_cluster_delete_loop chain_delete cparent cluster flags n (i + 1) w
    | some chain =>
      if (w.chain chain).parent ≠ parent then
        hammer2_cluster_delete_loop chain_delete cparent cluster flags n (i + 1) w
      else
        hammer2_cluster_delete_loop chain_delete cparent cluster flags n (i + 1)
          { chain := chain_delete w.chain parent chain flags,
            trace := w.trace ++ [ChainCall.delete parent chain] }

/-- Embedding of `hammer2_cluster_delete`; `cparent` is `none` for a NULL
parent cluster.  The function writes to neither cluster, which the result
hands back as they are. -/
def hammer2_cluster_delete (chain_delete : chain_delete_fn) (cparent : Option hammer2_cluster)
    (cluster : hammer2_cluster) (flags : Nat) (w : World) :
    Option hammer2_cluster × hammer2_cluster × World :=
  match cparent with
  | none => (none, cluster, w)
  | some cp =>
    (some cp, cluster,
      hammer2_cluster_delete_loop chain_delete cp cluster flags cluster.nchains 0 w)

/-! ## Accessors -/

/-- Embedding of `hammer2_cluster_bref`: the value left in `*bref`.  The
function reads through `cluster->focus`; a NULL focus is a null
dereference.  Its only stores go to `*bref`. -/
def hammer2_cluster_bref (K : hammer2_h) (cluster : hammer2_cluster) (w : World) :
    Except Halt hammer2_blockref :=
  match cluster.focus with
  | none => .error Halt.nullptr
  | some focus =>
    let bref := (w.chain focus).bref
    .ok { bref with data_off := bref.data_off &&& K.HAMMER2_OFF_MASK_RADIX }

/-! ## Synchronisation thread (hammer2_syncthr.c) -/

/-- The fields of `hammer2_syncthr_t`.  `td` is the thread handle, NULL
(`none`) when no thread is running.  The lock `lk` is not a field: every
function below is one section of code that runs with `lk` held. -/
structure hammer2_syncthr where
  flags : Nat
  td : Option Nat
  pmp : Option Nat
deriving DecidableEq, Repr

/-- How one pass through the body of the `while` loop of
`hammer2_syncthr_primary` ends: the thread has left the loop and cleared its
handle, it sleeps in the "Force idle if frozen" branch, or it sleeps at the
bottom of the loop after the normal path. -/
inductive IterEnd where
  | exited
  | frozen
  | idle
deriving DecidableEq, Repr

/-- One iteration of `hammer2_syncthr_primary`: from the `while` test to the
next `lksleep` (which releases `lk`), or, when STOP is set, the exit path
`thr->td = NULL`.  When no thread is running (`td` is NULL) nothing
happens. -/
def hammer2_syncthr_primary_iter (K : hammer2_h) (thr : hammer2_syncthr) :
    hammer2_syncthr × IterEnd :=
  if thr.td = none then (thr, IterEnd.exited)
  else if thr.flags &&& K.HAMMER2_SYNCTHR_STOP ≠ 0 then ({ thr with td := none }, IterEnd.exited)
  else
    let thr1 := if thr.flags &&& K.HAMMER2_SYNCTHR_FREEZE ≠ 0
      then { thr with flags :=
        (clear_bits (thr.flags ||| K.HAMMER2_SYNCTHR_FROZEN) K.HAMMER2_SYNCTHR_FREEZE) }
      else thr
    if thr1.flags &&& K.HAMMER2_SYNCTHR_FROZEN ≠ 0 then (thr1, IterEnd.frozen)
    else
      let thr2 := if thr1.flags &&& K.HAMMER2_SYNCTHR_REMASTER ≠ 0
        then { thr1 with flags := clear_bits thr1.flags K.HAMMER2_SYNCTHR_REMASTER }
        else thr1
      (thr2, IterEnd.idle)

/-- Embedding of `hammer2_syncthr_remaster`. -/
def hammer2_syncthr_remaster (K : hammer2_h) (thr : hammer2_syncthr) : hammer2_syncthr :=
  if thr.td = none then thr
  else { thr with flags := thr.flags ||| K.HAMMER2_SYNCTHR_REMASTER }

/-- Embedding of `hammer2_syncthr_unfreeze`. -/
def hammer2_syncthr_unfreeze (K : hammer2_h) (thr : hammer2_syncthr) : hammer2_syncthr :=
  if thr.td = none then thr
  else { thr with flags := clear_bits thr.flags K.HAMMER2_SYNCTHR_FROZEN }

/-- The first part of `hammer2_syncthr_freeze`, up to its `while` test: the
FREEZE request. -/
def hammer2_syncthr_freeze_request (K : hammer2_h) (thr : hammer2_syncthr) : hammer2_syncthr :=
  if thr.td = none then thr
  else { thr with flags := thr.flags ||| K.HAMMER2_SYNCTHR_FREEZE }

/-- The first part of `hammer2_syncthr_delete`, up to its `while` test: the
STOP request. -/
def hammer2_syncthr_stop_request (K : hammer2_h) (thr : hammer2_syncthr) : hammer2_syncthr :=
  if thr.td = none then thr
  else { thr with flags := thr.flags ||| K.HAMMER2_SYNCTHR_STOP }

/-- What can run while a caller sleeps in `lksleep` with `lk` released: an
iteration of the thread, or a section of another caller. -/
inductive SyncEvent where
  | iterate
  | remaster
  | unfreeze
  | freeze_request
  | stop_request
deriving DecidableEq, Repr

/-- The step relation of the thread structure, as a function of the event. -/
def sync_step (K : hammer2_h) (thr : hammer2_syncthr) : SyncEvent → hammer2_syncthr
  | SyncEvent.iterate => (hammer2_syncthr_primary_iter K thr).1
  | SyncEvent.remaster => hammer2_syncthr_remaster K thr
  | SyncEvent.unfreeze => hammer2_syncthr_unfreeze K thr
  | SyncEvent.freeze_request => hammer2_syncthr_freeze_request K thr
  | SyncEvent.stop_request => hammer2_syncthr_stop_request K thr

/-- The events of one sleep, in order. -/
def sync_run (K : hammer2_h) (thr : hammer2_syncthr) (events : List SyncEvent) :
    hammer2_syncthr :=
  events.foldl (sync_step K) thr

/-- The loop `while ((thr->flags & FROZEN) == 0) lksleep(...)` of
`hammer2_syncthr_freeze`.  The list holds, for each `lksleep` the caller may
go through, the events that run meanwhile; `none` is a caller that is still
waiting when the list is used up. -/
def hammer2_syncthr_freeze_wait (K : hammer2_h) :
    List (List SyncEvent) → hammer2_syncthr → Option hammer2_syncthr
  | [], thr => if thr.flags &&& K.HAMMER2_SYNCTHR_FROZEN ≠ 0 then some thr else none
  | events :: rest, thr =>
    if thr.flags &&& K.HAMMER2_SYNCTHR_FROZEN ≠ 0 then some thr
    else hammer2_syncthr_freeze_wait K rest (sync_run K thr events)

/-- Embedding of `hammer2_syncthr_freeze`. -/
def hammer2_syncthr_freeze (K : hammer2_h) (sleeps : List (List SyncEvent))
    (thr : hammer2_syncthr) : Option hammer2_syncthr :=
  if thr.td = none then some thr
  else hammer2_syncthr_freeze_wait K sleeps (hammer2_syncthr_freeze_request K thr)

/-- The loop `while (thr->td) lksleep(...)` of `hammer2_syncthr_delete`, with
the list of sleeps as in `hammer2_syncthr_freeze_wait`. -/
def hammer2_syncthr_delete_wait (K : hammer2_h) :
    List (List SyncEvent) → hammer2_syncthr → Option hammer2_syncthr
  | [], thr => if thr.td = none then some thr else none
  | events :: rest, thr =>
    if thr.td = none then some thr
    else hammer2_syncthr_delete_wait K rest (sync_run K thr events)

/-- Embedding of `hammer2_syncthr_delete`; after the wait it clears `pmp`. -/
def hammer2_syncthr_delete (K : hammer2_h) (sleeps : List (List SyncEvent))
    (thr : hammer2_syncthr) : Option hammer2_syncthr :=
  if thr.td = none then some thr
  else (hammer2_syncthr_delete_wait K sleeps (hammer2_syncthr_stop_request K thr)).map
    (fun thr1 => { thr1 with pmp := none })

/-! ## Renaming -/

/-- What `hammer2_chain_rename` leaves behind: the chain in its in-out
argument `*parentp`, and the chains. -/
structure ChainRenamed where
  parent : Option ChainId
  heap : Heap

/-- The type of `hammer2_chain_rename`: chains, `bref` (`none` for NULL),
`*parentp`, `chain`, `flags`. -/
abbrev chain_rename_fn :=
  Heap → Option hammer2_blockref → Option ChainId → ChainId → Nat → ChainRenamed

/-- The two clusters of `hammer2_cluster_rename` and the world. -/
structure RenameLocals where
  cparent : hammer2_cluster
  cluster : hammer2_cluster
  world : World

/-- The body of the `for` loop of `hammer2_cluster_rename` for index `i`.
With a `bref`, the blockref handed on is the local `xbref`: a copy of the
chain's bref with `key` and `keybits` overwritten. -/
def hammer2_cluster_rename_body (chain_rename : chain_rename_fn)
    (bref : Option hammer2_blockref) (flags : Nat) (i : Nat) (s : RenameLocals) :
    RenameLocals :=
  match s.cluster.array i with
  | some chain =>
    let xbref : Option hammer2_blockref := bref.map (fun b =>
      { (s.world.chain chain).bref with key := b.key, keybits := b.keybits })
    let r := chain_rename s.world.chain xbref (s.cparent.array i) chain flags
    let world1 : World :=
      { chain := r.heap,
        trace := s.world.trace ++ [ChainCall.rename i xbref (s.cparent.array i) chain] }
    let cparent1 : hammer2_cluster :=
      { s.cparent with array := Function.update s.cparent.array i r.parent }
    let cluster1 : hammer2_cluster :=
      { s.cluster with array := Function.update s.cluster.array i (some chain) }
    let cluster2 : hammer2_cluster :=
      if cluster1.focus = none then { cluster1 with focus := some chain } else cluster1
    let cparent2 : hammer2_cluster :=
      if cparent1.focus = none then { cparent1 with focus := cparent1.array i } else cparent1
    { cparent := cparent2, cluster := cluster2, world := world1 }
  | none =>
    let cparent1 : hammer2_cluster :=
      if s.cparent.focus = none then { s.cparent with focus := s.cparent.array i }
      else s.cparent
    { s with cparent := cparent1 }

/-- The `for` loop of `hammer2_cluster_rename`, `n` iterations from index
`i`. -/
def hammer2_cluster_rename_loop (chain_rename : chain_rename_fn)
    (bref : Option hammer2_blockref) (flags : Nat) : Nat → Nat → RenameLocals → RenameLocals
  | 0, _, s => s
  | n + 1, i, s =>
    hammer2_cluster_rename_loop chain_rename bref flags n (i + 1)
      (hammer2_cluster_rename_body chain_rename bref flags i s)

/-- Embedding of `hammer2_cluster_rename`; `bref` is `none` for NULL. -/
def hammer2_cluster_rename (chain_rename : chain_rename_fn) (bref : Option hammer2_blockref)
    (cparent cluster : hammer2_cluster) (flags : Nat) (w : World) : RenameLocals :=
  hammer2_cluster_rename_loop chain_rename bref flags cluster.nchains 0
    { cparent := { cparent with focus := none }, cluster := { cluster with focus := none },
      world := w }

/-! ## Copying, and the parent cluster -/

/-- The `for` loop of `hammer2_cluster_copy`, `n` iterations from index `i`. -/
def hammer2_cluster_copy_loop (ocluster : hammer2_cluster) :
    Nat → Nat → hammer2_cluster → World → hammer2_cluster × World
  | 0, _, ncluster, w => (ncluster, w)
  | n + 1, i, ncluster, w =>
    let ncluster1 : hammer2_cluster :=
      { ncluster with array := Function.update ncluster.array i (ocluster.array i) }
    match ocluster.array i with
    | some chain =>
      hammer2_cluster_copy_loop ocluster n (i + 1) ncluster1 (hammer2_chain_ref w chain)
    | none => hammer2_cluster_copy_loop ocluster n (i + 1) ncluster1 w

/-- Embedding of `hammer2_cluster_copy`; the new cluster comes zeroed from
`kmalloc(M_ZERO)`. -/
def hammer2_cluster_copy (ocluster : hammer2_cluster) (w : World) : hammer2_cluster × World :=
  let ncluster : hammer2_cluster :=
    { refs := 1, ddflag := 0, flags := 0, nchains := ocluster.nchains, focus := none,
      array := fun _ => none, pmp := ocluster.pmp }
  hammer2_cluster_copy_loop ocluster ocluster.nchains 0 ncluster w

/-- The loop `while ((rchain = chain->parent) != NULL)` of
`hammer2_cluster_parent` for one chain.  The first argument bounds the number
of times the loop test is evaluated; `none` is a loop that has not ended
within the bound.  The result is the final `rchain` and the world.  The
results of the two `hammer2_chain_lock` calls are not looked at, as in the
source. -/
def hammer2_cluster_parent_retry (lockerr : World → ChainId → Nat → Nat) (how : Nat)
    (chain : ChainId) : Nat → World → Option (Option ChainId × World)
  | 0, _ => none
  | fuel + 1, w =>
    match (w.chain chain).parent with
    | none => some (none, w)
    | some rchain =>
      let w1 := hammer2_chain_ref w rchain
      let w2 := hammer2_chain_unlock w1 chain
      let w3 := (hammer2_chain_lock lockerr w2 rchain how).2
      let w4 := (hammer2_chain_lock lockerr w3 chain how).2
      let w5 := hammer2_chain_drop w4 rchain
      if (w5.chain chain).parent = some rchain then some (some rchain, w5)
      else hammer2_cluster_parent_retry lockerr how chain fuel (hammer2_chain_unlock w5 rchain)

/-- The body of the `for` loop of `hammer2_cluster_parent` for index `i`;
`cluster` is the child, which the loop only reads. -/
def hammer2_cluster_parent_body (lockerr : World → ChainId → Nat → Nat) (how fuel : Nat)
    (cluster : hammer2_cluster) (i : Nat) (cparent : hammer2_cluster) (w : World) :
    Option (hammer2_cluster × World) :=
  match cparent.array i with
  | none => some (cparent, w)
  | some chain =>
    match hammer2_cluster_parent_retry lockerr how chain fuel w with
    | none => none
    | some r =>
      let cparent1 : hammer2_cluster :=
        if cluster.focus = some chain then { cparent with focus := r.1 } else cparent
      let cparent2 : hammer2_cluster :=
        { cparent1 with array := Function.update cparent1.array i r.1 }
      some (cparent2, hammer2_chain_drop r.2 chain)

/-- The `for` loop of `hammer2_cluster_parent`, `n` iterations from index
`i`. -/
def hammer2_cluster_parent_loop (lockerr : World → ChainId → Nat → Nat) (how fuel : Nat)
    (cluster : hammer2_cluster) :
    Nat → Nat → hammer2_cluster → World → Option (hammer2_cluster × World)
  | 0, _, cparent, w => some (cparent, w)
  | n + 1, i, cparent, w =>
    match hammer2_cluster_parent_body lockerr how fuel cluster i cparent w with
    | none => none
    | some r => hammer2_cluster_parent_loop lockerr how fuel cluster n (i + 1) r.1 r.2

/-- Embedding of `hammer2_cluster_parent`: the new parent cluster and the
world, or `none` when a retry loop has not ended within `fuel` tests.  The
child cluster is only read. -/
def hammer2_cluster_parent (K : hammer2_h) (lockerr : World → ChainId → Nat → Nat)
    (fuel : Nat) (cluster : hammer2_cluster) (w : World) : Option (hammer2_cluster × World) :=
  let r := hammer2_cluster_copy cluster w
  match hammer2_cluster_parent_loop lockerr K.HAMMER2_RESOLVE_ALWAYS fuel cluster
      r.1.nchains 0 r.1 r.2 with
  | none => none
  | some r1 =>
    some ({ r1.1 with flags := r1.1.flags ||| K.HAMMER2_CLUSTER_LOCKED }, r1.2)

/-! ## Modifying, and snapshots -/

/-- Whether the block of chain `ch`, the keys `[key, key + 2^keybits)`,
overlaps the key range `[lo, hi]`. -/
def chain_overlaps (ch : hammer2_chain) (lo hi : Nat) : Bool :=
  decide (ch.bref.key ≤ hi) && decide (lo < ch.bref.key + 2 ^ ch.bref.keybits)

/-- Modelled from the spec: the chain layer hands out a found chain locked,
or only referenced under NOLOCK (§4.3, "A NOLOCK mode variant produces
results without taking per-chain locks"). -/
def chain_acquire (K : hammer2_h) (heap : Heap) (c : ChainId) (flags : Nat) : Heap :=
  if flags &&& K.HAMMER2_LOOKUP_NOLOCK = 0
  then Function.update heap c { heap c with lockcnt := (heap c).lockcnt + 1 }
  else Function.update heap c { heap c with refs := (heap c).refs + 1 }

/-- Modelled from the spec: the chain layer releases the chain passed to an
iteration step, undoing `chain_acquire`. -/
def chain_release (K : hammer2_h) (heap : Heap) (c : ChainId) (flags : Nat) : Heap :=
  if flags &&& K.HAMMER2_LOOKUP_NOLOCK = 0
  then Function.update heap c { heap c with lockcnt := (heap c).lockcnt - 1 }
  else Function.update heap c { heap c with refs := (heap c).refs - 1 }

/-- Modelled from the spec: `hammer2_chain_lookup` of the chain layer, which
is not in the sources, for one replica (§4.3: "find the first (or next)
block position overlapping" the key range).  `children p` lists the chains
under parent `p` in ascending key order.  The next-key it reports is the
first key past the block found, or the caller's value when nothing is
found. -/
def dir_chain_lookup (K : hammer2_h) (children : ChainId → List ChainId) : chain_lookup_fn :=
  fun heap parent key_next key_beg key_end flags =>
    match (children parent).find? (fun c => chain_overlaps (heap c) key_beg key_end) with
    | some c =>
      { chain := some c, parent := some parent,
        key_next := (heap c).bref.key + 2 ^ (heap c).bref.keybits,
        heap := chain_acquire K heap c flags }
    | none => { chain := none, parent := some parent, key_next := key_next, heap := heap }

/-- Modelled from the spec: `hammer2_chain_next` of the chain layer, which is
not in the sources, for one replica: release the current chain and find the
first block of the range that lies past it. -/
def dir_chain_next (K : hammer2_h) (children : ChainId → List ChainId) : chain_next_fn :=
  fun heap parent chain key_next key_beg key_end flags =>
    let past := (heap chain).bref.key + 2 ^ (heap chain).bref.keybits
    let heap1 := chain_release K heap chain flags
    if past > key_end then
      { chain := none, parent := some parent, key_next := key_next, heap := heap1 }
    else
      dir_chain_lookup K children heap1 parent key_next (max key_beg past) key_end flags

/-- How a scan by lookup and repeated next ends. -/
inductive ScanEnd where
  | exhausted
  | halted (h : Halt)
  | unfinished
deriving DecidableEq, Repr

/-- The key of a result cluster, read through its focus as
`hammer2_cluster_bref` does. -/
def cluster_key (cluster : hammer2_cluster) (w : World) : Option Nat :=
  cluster.focus.map (fun f => (w.chain f).bref.key)

/-- The caller's loop `while (cluster) cluster = hammer2_cluster_next(...)`
over a fixed key range, at most `fuel` steps: the keys of the result
clusters seen, and how the scan ended. -/
def scan_next_keys (K : hammer2_h) (chain_next : chain_next_fn) (key_beg key_end flags : Nat) :
    Nat → Except Halt ScanResult → List Nat × ScanEnd
  | _, .error e => ([], ScanEnd.halted e)
  | 0, .ok _ => ([], ScanEnd.unfinished)
  | fuel + 1, .ok r =>
    match r.cluster with
    | none => ([], ScanEnd.exhausted)
    | some cluster =>
      match cluster_key cluster r.world with
      | none => ([], ScanEnd.halted Halt.nullptr)
      | some key =>
        let rest := scan_next_keys K chain_next key_beg key_end flags fuel
          (hammer2_cluster_next K chain_next r.cparent cluster r.key_next key_beg key_end flags
            r.world)
        (key :: rest.1, rest.2)

/-- A scan: `hammer2_cluster_lookup` then repeated `hammer2_cluster_next`
over the key range `[key_beg, key_end]`. -/
def scan_keys (K : hammer2_h) (chain_lookup : chain_lookup_fn) (chain_next : chain_next_fn)
    (fuel : Nat) (cparent : hammer2_cluster) (key_beg key_end flags : Nat) (w : World) :
    List Nat × ScanEnd :=
  scan_next_keys K chain_next key_beg key_end flags fuel
    (hammer2_cluster_lookup K chain_lookup cparent key_beg key_beg key_end flags w)

/-! ## Vocabulary of the statements -/

/-- Number of slots in `[i, i + n)` that hold chain `c`. -/
def slotcount (array : Nat → Option ChainId) (c : ChainId) : Nat → Nat → Int
  | 0, _ => 0
  | n + 1, i => (if array i = some c then 1 else 0) + slotcount array c n (i + 1)

/-- Number of non-null slots in `[i, i + n)`. -/
def present_slots (array : Nat → Option ChainId) : Nat → Nat → Nat
  | 0, _ => 0
  | n + 1, i => (if array i = none then 0 else 1) + present_slots array n (i + 1)

/-- One successful `hammer2_chain_lock` call for each non-null slot in
`[i, i + n)`, in ascending slot order. -/
def lock_calls (array : Nat → Option ChainId) (how : Nat) : Nat → Nat → List ChainCall
  | 0, _ => []
  | n + 1, i =>
    match array i with
    | some c => ChainCall.lock c how 0 :: lock_calls array how n (i + 1)
    | none => lock_calls array how n (i + 1)

/-- The next-keys answered by the per-chain lookup and iteration calls of a
call log, in call order. -/
def reported_keys (trace : List ChainCall) : List Nat :=
  trace.filterMap (fun call =>
    match call with
    | ChainCall.lookup _ _ key_next => some key_next
    | ChainCall.next _ _ _ key_next => some key_next
    | _ => none)

/-- The minimum of a list of keys; `none` for the empty list. -/
def min_key : List Nat → Option Nat
  | [] => none
  | k :: ks => some (ks.foldl min k)

/-- The length `len` is the number of bytes `hammer2_cluster_modsync` copies
from a focus chain `F`: `offsetof(hammer2_inode_data_t, u)` for an inode
without DIRECTDATA, `F.bytes` for an inode with DIRECTDATA and for a data
chain. -/
def modsync_copies (K : hammer2_h) (F : hammer2_chain) (len : Nat) : Prop :=
  (F.bref.type = K.HAMMER2_BREF_TYPE_INODE ∧
    F.data.getD K.offsetof_op_flags 0 &&& K.HAMMER2_OPFLAG_DIRECTDATA = 0 ∧
    len = K.offsetof_u) ∨
  (F.bref.type = K.HAMMER2_BREF_TYPE_INODE ∧
    F.data.getD K.offsetof_op_flags 0 &&& K.HAMMER2_OPFLAG_DIRECTDATA ≠ 0 ∧
    len = F.bytes) ∨
  (F.bref.type = K.HAMMER2_BREF_TYPE_DATA ∧ len = F.bytes)

/-- One `hammer2_chain_drop` call for each non-null slot in `[i, i + n)`, in
ascending slot order. -/
def drop_calls (array : Nat → Option ChainId) : Nat → Nat → List ChainCall
  | 0, _ => []
  | n + 1, i =>
    match array i with
    | some c => ChainCall.drop c :: drop_calls array n (i + 1)
    | none => drop_calls array n (i + 1)

/-- One `hammer2_chain_unlock` call for each non-null slot in `[i, i + n)`,
in ascending slot order. -/
def unlock_calls (array : Nat → Option ChainId) : Nat → Nat → List ChainCall
  | 0, _ => []
  | n + 1, i =>
    match array i with
    | some c => ChainCall.unlock c :: unlock_calls array n (i + 1)
    | none => unlock_calls array n (i + 1)

/-- The chains answered by the per-chain lookup calls of a call log, in call
order. -/
def lookup_results (trace : List ChainCall) : List (Option ChainId) :=
  trace.filterMap (fun call =>
    match call with
    | ChainCall.lookup _ result _ => some result
    | _ => none)

/-- The slot indices of the per-chain create calls of a call log, in call
order. -/
def created_slots (trace : List ChainCall) : List Nat :=
  trace.filterMap (fun call =>
    match call with
    | ChainCall.create slot _ _ _ _ => some slot
    | _ => none)

/-- The parent chain `hammer2_cluster_delete` computes for slot `i`: the
parent cluster's slot `i`, or NULL when `i` is not below its `nchains`. -/
def parent_slot (cparent : hammer2_cluster) (i : Nat) : Option ChainId :=
  if i < cparent.nchains then cparent.array i else none

/-- One `hammer2_chain_delete` call for each slot in `[i, i + n)` whose chain
is non-null and has, in the chains `heap`, a parent link equal to the parent
cluster's slot, in ascending slot order. -/
def delete_calls (cparent cluster : hammer2_cluster) (heap : Heap) : Nat → Nat → List ChainCall
  | 0, _ => []
  | n + 1, i =>
    match cluster.array i with
    | some c =>
      if (heap c).parent = parent_slot cparent i
      then ChainCall.delete (parent_slot cparent i) c :: delete_calls cparent cluster heap n (i + 1)
      else delete_calls cparent cluster heap n (i + 1)
    | none => delete_calls cparent cluster heap n (i + 1)

/-- The indices in `[i, i + n)` at which `array` is non-null, ascending. -/
def present_indices (array : Nat → Option ChainId) : Nat → Nat → List Nat
  | 0, _ => []
  | n + 1, i =>
    if array i = none then present_indices array n (i + 1)
    else i :: present_indices array n (i + 1)

/-- The focus after one slot of a lookup or iteration, by the source's two
rules: a null result leaves the focus; a non-null result becomes the focus
when the parent cluster's focus is the chain in the parent slot, or when
there is no focus yet. -/
def follow_focus (pfocus pslot result focus : Option ChainId) : Option ChainId :=
  match result with
  | none => focus
  | some c => if pfocus = pslot then some c else if focus = none then some c else focus

/-- The focus after the slots `[i, i + n)`, given the parent cluster's
focus, the parent slots `parr` as the per-chain calls left them and the
results `carr`, starting from focus `focus`. -/
def focus_after (pfocus : Option ChainId) (parr carr : Nat → Option ChainId) :
    Nat → Nat → Option ChainId → Option ChainId
  | 0, _, focus => focus
  | n + 1, i, focus =>
    focus_after pfocus parr carr n (i + 1) (follow_focus pfocus (parr i) (carr i) focus)

/-- The slots in `[i, i + n)` for which the loop of `hammer2_cluster_create`
calls the per-chain create, ascending: every slot when no cluster was
supplied, and the slots the supplied cluster holds a chain in otherwise. -/
def create_slots (supplied : Bool) (carr : Nat → Option ChainId) : Nat → Nat → List Nat
  | 0, _ => []
  | n + 1, i =>
    if supplied = true ∧ carr i = none then create_slots supplied carr n (i + 1)
    else i :: create_slots supplied carr n (i + 1)

/-- One `hammer2_chain_rename` call for each non-null slot in `[i, i + n)` of
`cluster`, in ascending slot order: with the parent cluster's slot of the
same index, and with the bref of the chain in `heap` whose `key` and
`keybits` are those of `bref`, or with no bref when `bref` is `none`. -/
def rename_calls (bref : Option hammer2_blockref) (cparent cluster : hammer2_cluster)
    (heap : Heap) : Nat → Nat → List ChainCall
  | 0, _ => []
  | n + 1, i =>
    match cluster.array i with
    | some c =>
      ChainCall.rename i
        (bref.map (fun b => { (heap c).bref with key := b.key, keybits := b.keybits }))
        (cparent.array i) c :: rename_calls bref cparent cluster heap n (i + 1)
    | none => rename_calls bref cparent cluster heap n (i + 1)

/-- Number of slots in `[i, i + n)` whose chain has, in `heap`, the parent
link `x`. -/
def parentcount (heap : Heap) (array : Nat → Option ChainId) (x : ChainId) : Nat → Nat → Int
  | 0, _ => 0
  | n + 1, i =>
    (match array i with
      | some c => if (heap c).parent = some x then 1 else 0
      | none => 0) + parentcount heap array x n (i + 1)

/-- A sample assignment of the header constants, used to run the model on
concrete inputs.  The inode layout is shrunk: `pfs_type` is byte 0,
`op_flags` byte 1, `pfs_fsid` and `pfs_clid` are uuids of one byte at bytes
2 and 3, and the union `u` starts at byte 4 with a blockset of two bytes. -/
def sample_h : hammer2_h :=
  { HAMMER2_CLUSTER_INODE := 1
    HAMMER2_CLUSTER_LOCKED := 4
    HAMMER2_RESOLVE_NOREF := 32
    HAMMER2_LOOKUP_NOLOCK := 1
    HAMMER2_CHAIN_MODIFIED := 1
    HAMMER2_BREF_TYPE_INODE := 1
    HAMMER2_BREF_TYPE_INDIRECT := 2
    HAMMER2_BREF_TYPE_DATA := 3
    HAMMER2_BREF_TYPE_FREEMAP_NODE := 4
    HAMMER2_BREF_TYPE_FREEMAP_LEAF := 5
    HAMMER2_BREF_TYPE_FREEMAP := 254
    HAMMER2_BREF_TYPE_VOLUME := 255
    HAMMER2_OPFLAG_DIRECTDATA := 1
    HAMMER2_OFF_MASK_RADIX := 63
    HAMMER2_RESOLVE_ALWAYS := 3
    HAMMER2_SYNCTHR_STOP := 1
    HAMMER2_SYNCTHR_FREEZE := 2
    HAMMER2_SYNCTHR_FROZEN := 4
    HAMMER2_SYNCTHR_REMASTER := 8
    HAMMER2_PFSTYPE_SNAPSHOT := 7
    HAMMER2_OPFLAG_PFSROOT := 2
    HAMMER2_BREF_FLAG_PFSROOT := 1
    HAMMER2_INSERT_PFSROOT := 4
    offsetof_pfs_type := 0
    offsetof_pfs_fsid := 2
    offsetof_pfs_clid := 3
    sizeof_uuid := 1
    sizeof_blockset := 2
    offsetof_op_flags := 1
    offsetof_u := 4
    bref_types_nodup := by decide
    indirect_unlisted := by decide
    syncthr_flags_nonzero := by decide
    syncthr_flags_disjoint := by decide
    inode_layout := by decide }

/-- A modified, referenced, unlocked chain with the given type, key, size and
buffer. -/
def sample_chain (type key bytes : Nat) (data : List Nat) : hammer2_chain :=
  { bref := { type := type, key := key, keybits := 0, data_off := 0, methods := 0, flags := 0 }
    bytes := bytes, flags := 1, refs := 1, lockcnt := 0, parent := none, data := data }

/-- A cluster over the first slots of an array given as a list. -/
def sample_cluster (refs : Int) (flags : Nat) (focus : Option ChainId)
    (slots : List (Option ChainId)) : hammer2_cluster :=
  { refs := refs, ddflag := 0, flags := flags, nchains := slots.length, focus := focus,
    array := fun i => slots.getD i none, pmp := none }

/-- Two replicas of one directory.  Replica A (chain 100) holds chains 1, 2,
3 with keys 1, 5, 9; replica B (chain 200) holds chains 11, 12, 13, 14 with
keys 1, 5, 7, 9; replica B2 (chain 300) holds chains 21, 22, 23, 24 with
keys 1, 5, 7, 9. -/
def sample_children : ChainId → List ChainId := fun p =>
  if p = 100 then [1, 2, 3] else if p = 200 then [11, 12, 13, 14]
  else if p = 300 then [21, 22, 23, 24] else []

/-- The chains of `sample_children`: data chains of three bytes. -/
def sample_heap : Heap := fun c =>
  if c = 1 ∨ c = 11 ∨ c = 21 then sample_chain 3 1 3 [104, 101, 108]
  else if c = 2 ∨ c = 12 ∨ c = 22 then sample_chain 3 5 3 [104, 101, 108]
  else if c = 13 ∨ c = 23 then sample_chain 3 7 3 [104, 101, 108]
  else if c = 3 ∨ c = 14 ∨ c = 24 then sample_chain 3 9 3 [104, 101, 108]
  else sample_chain 1 0 3 [0, 0, 0, 0, 0]

/-- A world of data chains with `bytes = 3`: chain 0 holds "hello", every
other chain holds "wor". -/
def hello_world : World :=
  { chain := fun c => if c = 0 then sample_chain 3 0 3 [104, 101, 108, 108, 111]
      else sample_chain 3 0 3 [119, 111, 114]
    trace := [] }

/-- A world of inode chains of six bytes under the layout of `sample_h`
(`op_flags` is byte 1, the union `u` starts at byte 4): chain 0 holds
9, `op_flags`, 7, 7, 1, 2 and every other chain holds 0, 0, 0, 0, 5, 6. -/
def inode_world (op_flags : Nat) : World :=
  { chain := fun c => if c = 0 then sample_chain 1 0 6 [9, op_flags, 7, 7, 1, 2]
      else sample_chain 1 0 6 [0, 0, 0, 0, 5, 6]
    trace := [] }

/-- A cluster of chains 0 and 1 with a hole between them, focused on
chain 0. -/
def sample_pair : hammer2_cluster := sample_cluster 1 4 (some 0) [some 0, none, some 1]

/-- A chain layer in which locking chain 1 fails with error 35 and every
other lock succeeds. -/
def sample_lockerr : World → ChainId → Nat → Nat := fun _ c _ => if c = 1 then 35 else 0

/-- The parent cluster of the sample replicas A (chain 100) and B (chain
200): locked, one reference, focus on A. -/
def sample_parent : hammer2_cluster := sample_cluster 1 4 (some 100) [some 100, some 200]

/-- The parent cluster of the sample replicas B (chain 200) and B2 (chain
300), which hold the same keys. -/
def sample_parent_same : hammer2_cluster := sample_cluster 1 4 (some 200) [some 200, some 300]

/-- The world of the sample replicas, with an empty call log. -/
def sample_world : World := { chain := sample_heap, trace := [] }

/-- The largest 64-bit key. -/
def HAMMER2_KEY_MAX : Nat := 18446744073709551615

/-- A world of modified chains of type INDIRECT (2) with `bytes = 3`. -/
def indirect_world : World :=
  { chain := fun _ => sample_chain 2 0 3 [1, 2, 3], trace := [] }

/-- A chain layer whose lookup leaves another chain in `*parentp` than it was
handed, as a lookup that moves on into an indirect block does: it answers as
`dir_chain_lookup` over the children of `rehome parent` and leaves
`rehome parent` in `*parentp`. -/
def rehome_chain_lookup (K : hammer2_h) (children : ChainId → List ChainId)
    (rehome : ChainId → ChainId) : chain_lookup_fn :=
  fun heap parent key_next key_beg key_end flags =>
    { dir_chain_lookup K children heap (rehome parent) key_next key_beg key_end flags with
      parent := some (rehome parent) }

/-- The sample replica B (chain 200) keeps its entries in the indirect block
201; the other chains are their own blocks. -/
def sample_rehome : ChainId → ChainId := fun p => if p = 200 then 201 else p

/-- The children of `sample_children`, with those of replica B under its
indirect block 201. -/
def sample_children_indirect : ChainId → List ChainId := fun p =>
  if p = 100 then [1, 2, 3] else if p = 201 then [11, 12, 13, 14] else []

/-- Modelled from the spec: the per-chain create primitive of the chain
layer (§4.4), which is not in the sources.  It inserts the chain passed in
`*chainp`, or a new chain when that is NULL, under the parent with the given
key, type and size, and answers error 0. -/
def sample_chain_create : chain_create_fn :=
  fun heap parent chain key keybits type bytes _ =>
    let c := chain.getD (1000 + parent.getD 0)
    { error := 0, parent := parent, chain := some c,
      heap := Function.update heap c
        { heap c with
          parent := parent, bytes := bytes,
          bref := { (heap c).bref with type := type, key := key, keybits := keybits } } }

/-- Modelled from the spec: the per-chain delete primitive of the chain
layer (§4.4), which is not in the sources; it unlinks the chain from its
parent. -/
def sample_chain_delete : chain_delete_fn :=
  fun heap _ chain _ => Function.update heap chain { heap chain with parent := none }

/-- Chains with parent links: chain 1 lies under chain 100, chain 11 under
chain 200, chain 2 under chain 999; every other chain has no parent. -/
def linked_heap : Heap := fun c =>
  if c = 1 then { sample_chain 3 1 3 [] with parent := some 100 }
  else if c = 11 then { sample_chain 3 1 3 [] with parent := some 200 }
  else if c = 2 then { sample_chain 3 5 3 [] with parent := some 999 }
  else sample_chain 1 0 3 []

/-- A world whose chains carry `data_off = 4660 = 0x1234`: physical offset
bits 0x1200 and, under the mask 63 of `sample_h`, radix bits 0x34. -/
def offset_world : World :=
  { chain := fun _ =>
      { sample_chain 3 0 3 [] with
        bref := { type := 3, key := 0, keybits := 0, data_off := 4660, methods := 0,
                  flags := 0 } }
    trace := [] }

/-- A thread structure with a running thread (handle 1) and the given
flags; under `sample_h` STOP is 1, FREEZE 2, FROZEN 4 and REMASTER 8. -/
def sample_thr ( flags : Nat) : hammer2_syncthr := { flags := flags, td := some 1, pmp := some 7 }

/-- A chain layer whose rename stores the bref it is handed (if any) and the
parent link into the chain and leaves `*parentp` as it was. -/
def sample_chain_rename : chain_rename_fn := fun heap bref parent chain _ =>
  { parent := parent,
    heap := Function.update heap chain
      { heap chain with bref := bref.getD (heap chain).bref, parent := parent } }

/-- A blockref with key 42 and keybits 3 and other fields that no chain of
the samples has. -/
def sample_bref : hammer2_blockref :=
  { type := 9, key := 42, keybits := 3, data_off := 77, methods := 5, flags := 6 }

/-- A chain layer in which every lock succeeds. -/
def sample_lock_ok : World → ChainId → Nat → Nat := fun _ _ _ => 0

/-- The world of `linked_heap` (chain 1 under chain 100, chain 11 under
chain 200, chain 2 under chain 999), every chain locked once. -/
def linked_world : World :=
  { chain := fun c => { linked_heap c with lockcnt := 1 }, trace := [] }

/-- A chain layer in which locking chain 100 fails with error 35 and every
other lock succeeds. -/
def sample_lockerr_parent : World → ChainId → Nat → Nat := fun _ c _ => if c = 100 then 35 else 0

/-! ## Lemmas and theorems -/

theorem atomic_add_int_exact (x v : Int) (h1 : -2147483648 ≤ x + v) (h2 : x + v ≤ 2147483647) :
    atomic_add_int x v = x + v := by
  unfold atomic_add_int
  omega

theorem atomic_add_int_undo (x : Int) (h1 : -2147483648 ≤ x) (h2 : x ≤ 2147483647) :
    atomic_add_int (atomic_add_int x 1) (-1) = x := by
  unfold atomic_add_int
  omega

theorem ref_loop_refs (cluster : hammer2_cluster) (c : ChainId) :
    ∀ (n i : Nat) (w : World),
      (hammer2_cluster_ref_loop cluster n i w).chain c =
        { w.chain c with refs := (w.chain c).refs + slotcount cluster.array c n i } := by
  intro n
  induction n with
  | zero => intro i w; simp [hammer2_cluster_ref_loop, slotcount]
  | succ n ih =>
    intro i w
    simp only [hammer2_cluster_ref_loop, slotcount]
    cases h : cluster.array i with
    | none => simp [ih]
    | some d =>
      simp only [ih]
      by_cases hd : d = c
      · subst hd
        simp [hammer2_chain_ref]
        ring
      · have hd' : c ≠ d := fun e => hd e.symm
        simp [hammer2_chain_ref, Function.update_noteq hd', hd]

theorem drop_loop_cluster :
    ∀ (n i : Nat) (cluster : hammer2_cluster) (w : World), cluster.refs ≠ 1 →
      (hammer2_cluster_drop_loop n i cluster w).1 = cluster := by
  intro n
  induction n with
  | zero => intro i cluster w _; rfl
  | succ n ih =>
    intro i cluster w h
    simp only [hammer2_cluster_drop_loop]
    cases hs : cluster.array i with
    | none => simpa using ih (i + 1) cluster w h
    | some d => simpa [h] using ih (i + 1) cluster (hammer2_chain_drop w d) h

theorem drop_loop_refs (c : ChainId) :
    ∀ (n i : Nat) (cluster : hammer2_cluster) (w : World), cluster.refs ≠ 1 →
      (hammer2_cluster_drop_loop n i cluster w).2.chain c =
        { w.chain c with refs := (w.chain c).refs - slotcount cluster.array c n i } := by
  intro n
  induction n with
  | zero => intro i cluster w _; simp [hammer2_cluster_drop_loop, slotcount]
  | succ n ih =>
    intro i cluster w h
    simp only [hammer2_cluster_drop_loop, slotcount]
    cases hs : cluster.array i with
    | none => simp [ih _ _ _ h]
    | some d =>
      simp only [h, if_false, ih _ _ _ h]
      by_cases hd : d = c
      · subst hd
        simp [hammer2_chain_drop]
        ring
      · have hd' : c ≠ d := fun e => hd e.symm
        simp [hammer2_chain_drop, Function.update_noteq hd', hd]

/-- C1 (amended): for a cluster with `1 <= refs < INT_MAX`,
`hammer2_cluster_ref` followed by `hammer2_cluster_drop` returns, leaves the
cluster's `refs`, every chain's reference count (indeed every chain) and
every slot of the array as they were, and does not free the cluster. -/
theorem cluster_ref_drop_roundtrip (cluster : hammer2_cluster) (w : World)
    (h : 1 ≤ cluster.refs) (hmax : cluster.refs < INT_MAX) :
    ∃ d, ref_then_drop cluster w = .ok d ∧
      d.cluster.refs = cluster.refs ∧
      (∀ c, (d.world.chain c).refs = (w.chain c).refs) ∧
      (∀ c, d.world.chain c = w.chain c) ∧
      (∀ i, d.cluster.array i = cluster.array i) ∧
      d.cluster.focus = cluster.focus ∧
      d.freed = false := by
  have hadd : atomic_add_int cluster.refs 1 = cluster.refs + 1 := by
    unfold INT_MAX at hmax
    exact atomic_add_int_exact _ _ (by omega) (by omega)
  have h1 : ({ cluster with refs := cluster.refs + 1 } : hammer2_cluster).refs ≠ 1 := by
    simp; omega
  have hc := drop_loop_cluster cluster.nchains 0 _
    (hammer2_cluster_ref_loop { cluster with refs := cluster.refs + 1 } cluster.nchains 0 w) h1
  have hchain : ∀ c, (hammer2_cluster_drop_loop cluster.nchains 0
      { cluster with refs := cluster.refs + 1 }
      (hammer2_cluster_ref_loop { cluster with refs := cluster.refs + 1 }
        cluster.nchains 0 w)).2.chain c = w.chain c := by
    intro c
    rw [drop_loop_refs c _ _ _ _ h1, ref_loop_refs]
    simp
  have hpos : (0 : Int) < cluster.refs + 1 := by omega
  have hne : ¬ (cluster.refs + 1 = 1) := by omega
  simp only [ref_then_drop, hammer2_cluster_ref, hadd, hammer2_cluster_drop, hpos, if_true, hc,
    hne, if_false]
  refine ⟨_, rfl, ?_, ?_, ?_, ?_, ?_, ?_⟩
  · simp
  · intro c; simp [hchain c]
  · intro c; simpa using hchain c
  · intro i; rfl
  · rfl
  · rfl

/-- Witness of C1 (amended): a cluster with one reference, a chain in slot 0
and a hole in slot 1. -/
theorem cluster_ref_drop_roundtrip_witness :
    (1 : Int) ≤ (sample_cluster 1 0 none [some 0, none]).refs ∧
    (sample_cluster 1 0 none [some 0, none]).refs < INT_MAX ∧
    ∃ d, ref_then_drop (sample_cluster 1 0 none [some 0, none]) hello_world = .ok d ∧
      d.cluster.refs = (sample_cluster 1 0 none [some 0, none]).refs ∧
      (∀ c, (d.world.chain c).refs = (hello_world.chain c).refs) ∧
      (∀ c, d.world.chain c = hello_world.chain c) ∧
      (∀ i, d.cluster.array i = (sample_cluster 1 0 none [some 0, none]).array i) ∧
      d.cluster.focus = (sample_cluster 1 0 none [some 0, none]).focus ∧
      d.freed = false :=
  ⟨by decide, by decide, cluster_ref_drop_roundtrip _ _ (by decide) (by decide)⟩

/-- Counterexample to C1 as stated: a cluster with `refs = INT_MAX`
(2147483647), a chain in slot 0 and a hole in slot 1.  `hammer2_cluster_ref`
carries `refs` to -2147483648 and refs chain 0, and the following
`hammer2_cluster_drop` stops on `KKASSERT(cluster->refs > 0)` before it drops
anything. -/
theorem cluster_ref_drop_int_max_halts :
    (hammer2_cluster_ref (sample_cluster 2147483647 0 none [some 0, none]) hello_world).1.refs =
      -2147483648 ∧
    ((hammer2_cluster_ref (sample_cluster 2147483647 0 none [some 0, none])
      hello_world).2.chain 0).refs = (hello_world.chain 0).refs + 1 ∧
    (match ref_then_drop (sample_cluster 2147483647 0 none [some 0, none]) hello_world with
      | .error e => some e
      | .ok _ => none) = some Halt.kkassert := by
  refine ⟨by decide, by decide, by decide⟩

theorem lock_loop_success (lockerr : World → ChainId → Nat → Nat) (how : Nat) :
    ∀ (n i : Nat) (cluster : hammer2_cluster) (w : World) (cl' : hammer2_cluster) (w' : World),
      hammer2_cluster_lock_loop lockerr how n i cluster w = .ok (0, cl', w') →
      cl'.refs = cluster.refs ∧ cl'.flags = cluster.flags ∧ cl'.array = cluster.array ∧
      cl'.nchains = cluster.nchains ∧
      (∀ c, w'.chain c =
        { w.chain c with lockcnt := (w.chain c).lockcnt + slotcount cluster.array c n i }) ∧
      w'.trace = w.trace ++ lock_calls cluster.array how n i ∧
      (cluster.focus ≠ none → cl'.focus = cluster.focus) ∧
      (0 < present_slots cluster.array n i → cl'.focus ≠ none) := by
  intro n
  induction n with
  | zero =>
    intro i cluster w cl' w' h
    simp only [hammer2_cluster_lock_loop, Except.ok.injEq, Prod.mk.injEq] at h
    obtain ⟨-, rfl, rfl⟩ := h
    simp [slotcount, lock_calls, present_slots]
  | succ n ih =>
    intro i cluster w cl' w' h
    simp only [hammer2_cluster_lock_loop] at h
    cases hs : cluster.array i with
    | none =>
      simp only [hs] at h
      have := ih (i + 1) cluster w cl' w' h
      simpa [slotcount, lock_calls, present_slots, hs] using this
    | some d =>
      simp only [hs] at h
      by_cases he : lockerr w d how = 0
      · simp only [hammer2_chain_lock, he, if_true, ne_eq, not_true_eq_false, if_false] at h
        obtain ⟨h1, h2, h3, h4, h5, h6, h7, h8⟩ := ih _ _ _ _ _ h
        have harr : (if cluster.focus = none then { cluster with focus := some d }
            else cluster).array = cluster.array := by split <;> rfl
        rw [harr] at h3 h5 h6 h8
        refine ⟨?_, ?_, h3, ?_, ?_, ?_, ?_, ?_⟩
        · rw [h1]; split <;> rfl
        · rw [h2]; split <;> rfl
        · rw [h4]; split <;> rfl
        · intro c
          rw [h5 c]
          simp only [slotcount, hs]
          by_cases hd : d = c
          · subst hd
            simp
            ring
          · have hd' : c ≠ d := fun e => hd e.symm
            simp [Function.update_noteq hd', hd]
        · rw [h6]
          simp [lock_calls, hs]
        · intro hf
          rw [h7]
          · simp [hf]
          · simp [hf]
        · intro _
          by_cases hf : cluster.focus = none
          · rw [h7]
            · simp [hf]
            · simp [hf]
          · rw [h7]
            · simp [hf]
            · simp [hf]
      · simp only [hammer2_chain_lock, he, if_false, ne_eq, not_false_eq_true, if_true] at h
        cases hu : hammer2_cluster_lock_unwind cluster i
            { w with trace := w.trace ++ [ChainCall.lock d how (lockerr w d how)] } with
        | error e => simp [hu] at h
        | ok w2 =>
          simp only [hu, Except.ok.injEq, Prod.mk.injEq] at h
          exact absurd h.1 he

theorem present_slots_pos (array : Nat → Option ChainId) :
    ∀ (n i : Nat), (∃ j, i ≤ j ∧ j < i + n ∧ array j ≠ none) → 0 < present_slots array n i := by
  intro n
  induction n with
  | zero => rintro i ⟨j, h1, h2, -⟩; omega
  | succ n ih =>
    rintro i ⟨j, h1, h2, h3⟩
    simp only [present_slots]
    by_cases hj : j = i
    · subst hj; simp [h3]
    · have := ih (i + 1) ⟨j, by omega, by omega, h3⟩
      omega

theorem lor_land_self (a m : Nat) : (a ||| m) &&& m = m := by
  apply Nat.eq_of_testBit_eq
  intro k
  simp only [Nat.testBit_land, Nat.testBit_lor]
  cases a.testBit k <;> cases m.testBit k <;> rfl

theorem lock_loop_failure (lockerr : World → ChainId → Nat → Nat) (how : Nat) :
    ∀ (n i : Nat) (cluster : hammer2_cluster) (w : World) (error : Nat)
      (cl' : hammer2_cluster) (w' : World),
      hammer2_cluster_lock_loop lockerr how n i cluster w = .ok (error, cl', w') →
      error ≠ 0 → cl'.refs = atomic_add_int cluster.refs (-1) ∧ cl'.flags = cluster.flags := by
  intro n
  induction n with
  | zero =>
    intro i cluster w error cl' w' h he
    simp only [hammer2_cluster_lock_loop, Except.ok.injEq, Prod.mk.injEq] at h
    exact absurd h.1.symm he
  | succ n ih =>
    intro i cluster w error cl' w' h he
    simp only [hammer2_cluster_lock_loop] at h
    cases hs : cluster.array i with
    | none =>
      simp only [hs] at h
      exact ih (i + 1) cluster w error cl' w' h he
    | some d =>
      simp only [hs] at h
      by_cases hl : lockerr w d how = 0
      · simp only [hammer2_chain_lock, hl, if_true, ne_eq, not_true_eq_false, if_false] at h
        obtain ⟨h1, h2⟩ := ih _ _ _ _ _ _ h he
        constructor
        · rw [h1]; split <;> rfl
        · rw [h2]; split <;> rfl
      · simp only [hammer2_chain_lock, hl, if_false, ne_eq, not_false_eq_true, if_true] at h
        cases hu : hammer2_cluster_lock_unwind cluster i
            { w with trace := w.trace ++ [ChainCall.lock d how (lockerr w d how)] } with
        | error e => simp [hu] at h
        | ok w2 =>
          simp only [hu, Except.ok.injEq, Prod.mk.injEq] at h
          obtain ⟨-, rfl, -⟩ := h
          exact ⟨rfl, rfl⟩

/-- When `hammer2_cluster_lock` returns an error on a cluster whose `refs` is
in the range of an `int`, `refs` is back at its value before the call if the
call added a reference (NOREF clear), and has one taken from it if the call
added none (NOREF set); the LOCKED flag stays set. -/
theorem cluster_lock_failure (K : hammer2_h) (lockerr : World → ChainId → Nat → Nat)
    (cluster : hammer2_cluster) (how : Nat) (w : World) (error : Nat)
    (cl' : hammer2_cluster) (w' : World)
    (hlo : -2147483648 ≤ cluster.refs) (hhi : cluster.refs ≤ INT_MAX)
    (hret : hammer2_cluster_lock K lockerr cluster how w = .ok (error, cl', w'))
    (herr : error ≠ 0) :
    cl'.refs = (if how &&& K.HAMMER2_RESOLVE_NOREF = 0 then cluster.refs
      else atomic_add_int cluster.refs (-1)) ∧
    cl'.flags = cluster.flags ||| K.HAMMER2_CLUSTER_LOCKED := by
  unfold hammer2_cluster_lock at hret
  by_cases hi : cluster.flags &&& K.HAMMER2_CLUSTER_INODE = 0
  · simp only [hi, if_true] at hret
    obtain ⟨h1, h2⟩ := lock_loop_failure lockerr how _ _ _ _ _ _ _ hret herr
    constructor
    · rw [h1]
      by_cases hn : how &&& K.HAMMER2_RESOLVE_NOREF = 0
      · simp only [hn, if_true]
        exact atomic_add_int_undo _ hlo hhi
      · simp [hn]
    · rw [h2]
      split <;> rfl
  · simp [hi] at hret

/-- C2 (amended): if `hammer2_cluster_lock` returns 0, every chain's lock
count has grown by the number of slots below `nchains` that hold it, the
calls made are one successful chain lock per non-null slot in slot order,
the LOCKED flag is set, and the focus is non-null provided some slot below
`nchains` is non-null or the focus was non-null before the call. -/
theorem cluster_lock_success (K : hammer2_h) (lockerr : World → ChainId → Nat → Nat)
    (cluster : hammer2_cluster) (how : Nat) (w : World) (cl' : hammer2_cluster) (w' : World)
    (hret : hammer2_cluster_lock K lockerr cluster how w = .ok (0, cl', w')) :
    (∀ c, (w'.chain c).lockcnt =
      (w.chain c).lockcnt + slotcount cluster.array c cluster.nchains 0) ∧
    w'.trace = w.trace ++ lock_calls cluster.array how cluster.nchains 0 ∧
    cl'.array = cluster.array ∧
    cl'.flags &&& K.HAMMER2_CLUSTER_LOCKED = K.HAMMER2_CLUSTER_LOCKED ∧
    (((∃ j, j < cluster.nchains ∧ cluster.array j ≠ none) ∨ cluster.focus ≠ none) →
      cl'.focus ≠ none) := by
  unfold hammer2_cluster_lock at hret
  by_cases hi : cluster.flags &&& K.HAMMER2_CLUSTER_INODE = 0
  · simp only [hi, if_true] at hret
    obtain ⟨-, h2, h3, -, h5, h6, h7, h8⟩ := lock_loop_success lockerr how _ _ _ _ _ _ hret
    have harr : (if how &&& K.HAMMER2_RESOLVE_NOREF = 0 then
        { ({ cluster with flags := cluster.flags ||| K.HAMMER2_CLUSTER_LOCKED } :
            hammer2_cluster) with
          refs := atomic_add_int cluster.refs 1 }
        else { cluster with flags := cluster.flags ||| K.HAMMER2_CLUSTER_LOCKED }) =
        { cluster with
          flags := cluster.flags ||| K.HAMMER2_CLUSTER_LOCKED,
          refs := if how &&& K.HAMMER2_RESOLVE_NOREF = 0 then atomic_add_int cluster.refs 1
            else cluster.refs } := by
      split <;> rfl
    rw [harr] at h2 h3 h5 h6 h7 h8
    refine ⟨?_, ?_, h3, ?_, ?_⟩
    · intro c; rw [h5 c]
    · exact h6
    · rw [h2]; exact lor_land_self _ _
    · rintro (⟨j, hj, hne⟩ | hf)
      · exact h8 (present_slots_pos _ _ _ ⟨j, Nat.zero_le _, by simpa using hj, hne⟩)
      · have := h7 hf
        simp only at this
        rw [this]; exact hf
  · simp [hi] at hret

/-- Witness of C2 (amended): a cluster with chains in slots 0 and 2 and a
hole in slot 1 locks with result 0. -/
theorem cluster_lock_success_witness :
    ∃ cl' w',
      hammer2_cluster_lock sample_h sample_lockerr
        (sample_cluster 1 0 none [some 0, none, some 2]) 0 hello_world = .ok (0, cl', w') ∧
      ((∀ c, (w'.chain c).lockcnt = (hello_world.chain c).lockcnt +
          slotcount (sample_cluster 1 0 none [some 0, none, some 2]).array c
            (sample_cluster 1 0 none [some 0, none, some 2]).nchains 0) ∧
        w'.trace = hello_world.trace ++
          lock_calls (sample_cluster 1 0 none [some 0, none, some 2]).array 0
            (sample_cluster 1 0 none [some 0, none, some 2]).nchains 0 ∧
        cl'.array = (sample_cluster 1 0 none [some 0, none, some 2]).array ∧
        cl'.flags &&& sample_h.HAMMER2_CLUSTER_LOCKED = sample_h.HAMMER2_CLUSTER_LOCKED ∧
        (((∃ j, j < (sample_cluster 1 0 none [some 0, none, some 2]).nchains ∧
            (sample_cluster 1 0 none [some 0, none, some 2]).array j ≠ none) ∨
            (sample_cluster 1 0 none [some 0, none, some 2]).focus ≠ none) →
          cl'.focus ≠ none)) :=
  ⟨_, _, rfl, cluster_lock_success sample_h sample_lockerr _ 0 hello_world _ _ rfl⟩

/-- Counterexample to C2 as stated: locking a cluster of two absent slots
whose focus is NULL returns 0 with the LOCKED flag set and the focus still
NULL. -/
theorem cluster_lock_empty_focus_null :
    (hammer2_cluster_lock sample_h sample_lockerr (sample_cluster 1 0 none [none, none]) 0
      hello_world).toOption.map (fun r => (r.1, r.2.1.flags, r.2.1.focus)) =
      some (0, 4, none) := by
  decide

/-- C3 (failing input): with HAMMER2_RESOLVE_NOREF (32) set, a cluster
holding one reference whose slot 1 fails to lock with error 35 comes back
with `refs = 0`: the error path takes a reference the call never added.  The
chain locked in slot 0 is unlocked again. -/
theorem cluster_lock_noref_failure_takes_ref :
    (hammer2_cluster_lock sample_h sample_lockerr (sample_cluster 1 0 none [some 0, some 1]) 32
      hello_world).toOption.map (fun r => (r.1, r.2.1.refs, (r.2.2.chain 0).lockcnt)) =
      some (35, 0, 0) := by
  decide

/-- C4 (failing input): an unlocked cluster with NULL focus whose slot 1
fails to lock with error 35 comes back with `refs` restored and chain 0
unlocked, but with the LOCKED flag (4) set and the focus pointing at
chain 0. -/
theorem cluster_lock_failure_leaves_locked_and_focus :
    (hammer2_cluster_lock sample_h sample_lockerr (sample_cluster 1 0 none [some 0, some 1]) 0
      hello_world).toOption.map
        (fun r => (r.1, r.2.1.refs, (r.2.2.chain 0).lockcnt, r.2.1.flags, r.2.1.focus)) =
      some (35, 1, 0, 4, some 0) := by
  decide

theorem reported_keys_append (xs ys : List ChainCall) :
    reported_keys (xs ++ ys) = reported_keys xs ++ reported_keys ys := by
  simp [reported_keys, List.filterMap_append]

theorem drop_loop_reported :
    ∀ (n i : Nat) (cluster : hammer2_cluster) (w : World),
      reported_keys (hammer2_cluster_drop_loop n i cluster w).2.trace = reported_keys w.trace := by
  intro n
  induction n with
  | zero => intro i cluster w; rfl
  | succ n ih =>
    intro i cluster w
    simp only [hammer2_cluster_drop_loop]
    cases hs : cluster.array i with
    | none => simpa using ih (i + 1) cluster w
    | some d =>
      simp only [ih]
      simp [hammer2_chain_drop, reported_keys_append, reported_keys]

theorem cluster_drop_reported (cluster : hammer2_cluster) (w : World) (d : Dropped)
    (h : hammer2_cluster_drop cluster w = .ok d) :
    reported_keys d.world.trace = reported_keys w.trace := by
  unfold hammer2_cluster_drop at h
  by_cases hp : 0 < cluster.refs
  · simp only [hp, if_true] at h
    split at h <;>
    · simp only [Except.ok.injEq] at h
      subst h
      exact drop_loop_reported _ _ _ _
  · simp [hp] at h

theorem scan_accum_fields (s : ScanLocals) (k : Nat) :
    (scan_accum s k).key_accum = min s.key_accum k ∧ (scan_accum s k).world = s.world ∧
    (scan_accum s k).cparent = s.cparent ∧ (scan_accum s k).cluster = s.cluster ∧
    (scan_accum s k).null_count = s.null_count := by
  unfold scan_accum
  split
  · refine ⟨?_, rfl, rfl, rfl, rfl⟩
    show k = min s.key_accum k
    rw [Nat.min_def]; split <;> omega
  · refine ⟨?_, rfl, rfl, rfl, rfl⟩
    rw [Nat.min_def]; split <;> omega

theorem scan_focus_frame (K : hammer2_h) (s : ScanLocals) (i : Nat) (c : ChainId) :
    (scan_focus K s i c).key_accum = s.key_accum ∧ (scan_focus K s i c).world = s.world ∧
    (scan_focus K s i c).cparent = s.cparent ∧
    (scan_focus K s i c).null_count = s.null_count ∧
    (scan_focus K s i c).cluster.array = s.cluster.array ∧
    (scan_focus K s i c).cluster.refs = s.cluster.refs ∧
    (scan_focus K s i c).cluster.flags = s.cluster.flags := by
  unfold scan_focus
  by_cases h1 : s.cluster.focus = none <;> by_cases h2 : s.cparent.focus = s.cparent.array i <;>
    simp [h1, h2]

theorem scan_result_frame (K : hammer2_h) (s s' : ScanLocals) (i : Nat)
    (chain : Option ChainId) (k : Nat) (h : cluster_scan_result K s i chain k = .ok s') :
    s'.key_accum = min s.key_accum k ∧ s'.world = s.world ∧ s'.cparent = s.cparent := by
  unfold cluster_scan_result at h
  cases chain with
  | none =>
    simp only [Except.ok.injEq] at h
    subst h
    obtain ⟨h1, h2, h3, -, -⟩ := scan_accum_fields
      { s with
        cluster := { s.cluster with array := Function.update s.cluster.array i none },
        null_count := s.null_count + 1 } k
    exact ⟨h1, h2, h3⟩
  | some c =>
    simp only at h
    split at h
    · simp only [Except.ok.injEq] at h
      subst h
      obtain ⟨h1, h2, h3, -, -⟩ := scan_accum_fields (scan_focus K
        { s with cluster := { s.cluster with array := Function.update s.cluster.array i (some c) } }
        i c) k
      obtain ⟨g1, g2, g3, -⟩ := scan_focus_frame K
        { s with cluster := { s.cluster with array := Function.update s.cluster.array i (some c) } }
        i c
      exact ⟨by rw [h1, g1], by rw [h2, g2], by rw [h3, g3]⟩
    · simp at h

theorem present_slots_congr (a b : Nat → Option ChainId) :
    ∀ (n i : Nat), (∀ j, i ≤ j → j < i + n → a j = b j) →
      present_slots a n i = present_slots b n i := by
  intro n
  induction n with
  | zero => intro i _; rfl
  | succ n ih =>
    intro i h
    simp only [present_slots]
    rw [h i (le_refl _) (by omega), ih (i + 1) (fun j h1 h2 => h j (by omega) (by omega))]

theorem present_slots_update (a : Nat → Option ChainId) (v : Option ChainId) (n i : Nat) :
    present_slots (Function.update a i v) n (i + 1) = present_slots a n (i + 1) := by
  apply present_slots_congr
  intro j h1 _
  exact Function.update_noteq (by omega) _ _

theorem lookup_loop_key_accum (K : hammer2_h) (chain_lookup : chain_lookup_fn)
    (key_nextp key_beg key_end flags : Nat) :
    ∀ (n i : Nat) (s s' : ScanLocals),
      hammer2_cluster_lookup_loop K chain_lookup key_nextp key_beg key_end flags n i s = .ok s' →
      s'.cparent.nchains = s.cparent.nchains ∧
      ∃ ks, reported_keys s'.world.trace = reported_keys s.world.trace ++ ks ∧
        ks.length = present_slots s.cparent.array n i ∧
        s'.key_accum = ks.foldl min s.key_accum := by
  intro n
  induction n with
  | zero =>
    intro i s s' h
    simp only [hammer2_cluster_lookup_loop, Except.ok.injEq] at h
    subst h
    exact ⟨rfl, [], by simp, rfl, rfl⟩
  | succ n ih =>
    intro i s s' h
    simp only [hammer2_cluster_lookup_loop] at h
    cases hs : s.cparent.array i with
    | none =>
      simp only [hs] at h
      obtain ⟨h0, ks, h1, h2, h3⟩ := ih _ _ _ h
      exact ⟨h0, ks, h1, by simpa [present_slots, hs] using h2, h3⟩
    | some p =>
      simp only [hs] at h
      split at h
      · simp at h
      · rename_i s2 hres
        obtain ⟨f1, f2, f3⟩ := scan_result_frame K _ _ _ _ _ hres
        obtain ⟨h0, ks, h1, h2, h3⟩ := ih _ _ _ h
        rw [f2] at h1
        rw [f3] at h0 h2
        rw [f1] at h3
        refine ⟨h0, (chain_lookup s.world.chain p key_nextp key_beg key_end flags).key_next :: ks,
          ?_, ?_, ?_⟩
        · rw [h1]
          simp [reported_keys_append, reported_keys]
        · simp only [present_slots_update] at h2
          simp [present_slots, hs, h2]
          omega
        · simpa using h3

theorem foldl_min_comm (a b : Nat) (ks : List Nat) :
    ks.foldl min (min a b) = min a (ks.foldl min b) := by
  induction ks generalizing b with
  | nil => rfl
  | cons k ks ih => simp only [List.foldl_cons]; rw [min_assoc, ih]

/-- C5 (amended): when `hammer2_cluster_lookup` returns, it has made one
per-chain lookup for each non-null parent slot, and the value it stores in
`*key_nextp` is the smaller of the value held there on entry and the minimum
of the next-keys those lookups reported. -/
theorem cluster_lookup_key_next (K : hammer2_h) (chain_lookup : chain_lookup_fn)
    (cparent : hammer2_cluster) (key_nextp key_beg key_end flags : Nat) (w : World)
    (r : ScanResult)
    (hret : hammer2_cluster_lookup K chain_lookup cparent key_nextp key_beg key_end flags w
      = .ok r) :
    ∃ ks, reported_keys r.world.trace = reported_keys w.trace ++ ks ∧
      ks.length = present_slots cparent.array cparent.nchains 0 ∧
      (ks = [] → r.key_next = key_nextp) ∧
      (∀ m, min_key ks = some m → r.key_next = min key_nextp m) := by
  unfold hammer2_cluster_lookup at hret
  simp only at hret
  split at hret
  · simp at hret
  · rename_i s hloop
    obtain ⟨-, ks, h1, h2, h3⟩ := lookup_loop_key_accum K chain_lookup key_nextp key_beg key_end
      flags _ _ _ _ hloop
    simp only [scan_locals] at h1 h2 h3
    have hfin : r.key_next = s.key_accum ∧
        reported_keys r.world.trace = reported_keys s.world.trace := by
      unfold cluster_scan_finish at hret
      simp only at hret
      split at hret
      · split at hret
        · simp at hret
        · rename_i d hd
          simp only [Except.ok.injEq] at hret
          subst hret
          exact ⟨rfl, cluster_drop_reported _ _ _ hd⟩
      · simp only [Except.ok.injEq] at hret
        subst hret
        exact ⟨rfl, rfl⟩
    refine ⟨ks, by rw [hfin.2, h1], h2, ?_, ?_⟩
    · intro hk
      rw [hfin.1, h3, hk]; rfl
    · intro m hm
      rw [hfin.1, h3]
      cases ks with
      | nil => simp [min_key] at hm
      | cons k ks =>
        simp only [min_key, Option.some.injEq] at hm
        subst hm
        simp only [List.foldl_cons]
        exact foldl_min_comm _ _ _

/-- Witness of C5 (amended): the lookup over the two sample replicas A and B
returns. -/
theorem cluster_lookup_key_next_witness :
    ∃ r, hammer2_cluster_lookup sample_h (dir_chain_lookup sample_h sample_children)
        sample_parent 0 0 HAMMER2_KEY_MAX 0 sample_world = .ok r ∧
      ∃ ks, reported_keys r.world.trace = reported_keys sample_world.trace ++ ks ∧
        ks.length = present_slots sample_parent.array sample_parent.nchains 0 ∧
        (ks = [] → r.key_next = 0) ∧
        (∀ m, min_key ks = some m → r.key_next = min 0 m) := by
  refine ⟨_, rfl, ?_⟩
  exact cluster_lookup_key_next sample_h (dir_chain_lookup sample_h sample_children)
    sample_parent 0 0 HAMMER2_KEY_MAX 0 sample_world _ rfl

/-- Counterexample to C5 as stated: with 0 in `*key_nextp` on entry, both
replicas report next-key 2 (the key past the block found at key 1), whose
minimum is 2, yet the value stored in `*key_nextp` is 0. -/
theorem cluster_lookup_key_next_keeps_entry :
    (hammer2_cluster_lookup sample_h (dir_chain_lookup sample_h sample_children)
        sample_parent 0 0 HAMMER2_KEY_MAX 0 sample_world).toOption.map
      (fun r => (r.key_next, min_key (reported_keys r.world.trace))) = some (0, some 2) := by
  decide

/-- The function `hammer2_cluster_next` never stores into `*key_nextp`:
whenever it returns, the value there is the one it held on entry. -/
theorem cluster_next_leaves_key_next (K : hammer2_h) (chain_next : chain_next_fn)
    (cparent cluster : hammer2_cluster) (key_nextp key_beg key_end flags : Nat) (w : World)
    (r : ScanResult)
    (hret : hammer2_cluster_next K chain_next cparent cluster key_nextp key_beg key_end flags w
      = .ok r) :
    r.key_next = key_nextp := by
  unfold hammer2_cluster_next at hret
  split at hret
  · simp at hret
  · unfold cluster_scan_finish at hret
    simp only at hret
    split at hret
    · split at hret
      · simp at hret
      · simp only [Except.ok.injEq] at hret
        subst hret
        rfl
    · simp only [Except.ok.injEq] at hret
      subst hret
      rfl

/-- C6 (failing input): iterating from the cluster of chains 1 and 11 (key 1)
under the sample replicas A and B with 100 in `*key_nextp`, both per-chain
iterations report next-key 6, whose minimum is 6, and the call returns a
cluster, yet `*key_nextp` still holds 100. -/
theorem cluster_next_key_next_not_stored :
    (hammer2_cluster_next sample_h (dir_chain_next sample_h sample_children)
        sample_parent (sample_cluster 1 4 (some 1) [some 1, some 11]) 100 0 HAMMER2_KEY_MAX 0
        sample_world).toOption.map
      (fun r => (r.key_next, min_key (reported_keys r.world.trace),
        r.cluster.map (fun cl => cl.focus))) = some (100, some 6, some (some 2)) := by
  decide

/-- Counterexample to C7 as stated: the scan over replicas A (keys 1, 5, 9)
and B (keys 1, 5, 7, 9) does not yield the keys 1, 5, 7, 9 and end without a
result. -/
theorem scan_diverging_replicas_not_union :
    scan_keys sample_h (dir_chain_lookup sample_h sample_children)
        (dir_chain_next sample_h sample_children) 10 sample_parent 0 HAMMER2_KEY_MAX 0
        sample_world ≠ ([1, 5, 7, 9], ScanEnd.exhausted) := by
  decide

/-- C7 (amended): over replicas A (keys 1, 5, 9) and B (keys 1, 5, 7, 9),
lookup followed by repeated next yields result clusters with keys 1 and 5
and then halts on a `KKASSERT`, when A's iteration yields key 9 and B's
yields key 7; over two replicas that both hold keys 1, 5, 7, 9 it yields
1, 5, 7, 9 in that order and then no result. -/
theorem scan_diverging_replicas_halts :
    scan_keys sample_h (dir_chain_lookup sample_h sample_children)
        (dir_chain_next sample_h sample_children) 10 sample_parent 0 HAMMER2_KEY_MAX 0
        sample_world = ([1, 5], ScanEnd.halted Halt.kkassert) ∧
    scan_keys sample_h (dir_chain_lookup sample_h sample_children)
        (dir_chain_next sample_h sample_children) 10 sample_parent_same 0 HAMMER2_KEY_MAX 0
        sample_world = ([1, 5, 7, 9], ScanEnd.exhausted) := by
  constructor <;> decide

/-- C8 (failing input): `hammer2_cluster_next` on a parent whose slot 0 is
absent and a cluster holding chain 1 (key 1) in slot 0 and chain 11 (key 1)
in slot 1 returns, without halting, a cluster whose slot 0 still holds
chain 1 (key 1) next to chain 12 (key 5) in slot 1. -/
theorem cluster_next_keeps_stale_slot :
    (hammer2_cluster_next sample_h (dir_chain_next sample_h sample_children)
        (sample_cluster 1 4 none [none, some 200])
        (sample_cluster 1 4 (some 1) [some 1, some 11]) 0 0 HAMMER2_KEY_MAX 0
        sample_world).toOption.map
      (fun r => r.cluster.map (fun cl =>
        (cl.array 0, cl.array 1, cl.focus,
          (cl.array 0).map (fun c => (r.world.chain c).bref.key),
          (cl.array 1).map (fun c => (r.world.chain c).bref.key)))) =
      some (some (some 1, some 12, some 12, some 1, some 5)) := by
  rfl

theorem data_ne_inode (K : hammer2_h) :
    K.HAMMER2_BREF_TYPE_DATA ≠ K.HAMMER2_BREF_TYPE_INODE := by
  have h := K.bref_types_nodup
  simp only [List.nodup_cons, List.mem_cons, not_or] at h
  exact fun e => h.1.1 e.symm

theorem modsync_loop_step (K : hammer2_h) (cluster : hammer2_cluster) (f c : ChainId)
    (n i len : Nat) (w : World) (harr : cluster.array i = some c) (hne : c ≠ f)
    (hsel : modsync_copies K (w.chain f) len)
    (hmod : (w.chain c).flags &&& K.HAMMER2_CHAIN_MODIFIED ≠ 0)
    (hbytes : (w.chain f).bytes = (w.chain c).bytes)
    (htype : (w.chain f).bref.type = (w.chain c).bref.type) :
    hammer2_cluster_modsync_loop K cluster f (n + 1) i w =
      hammer2_cluster_modsync_loop K cluster f n (i + 1)
        (store_data w c (bcopy (w.chain f).data (w.chain c).data len)) := by
  rw [hammer2_cluster_modsync_loop]
  simp only [harr]
  rw [if_neg hne, if_neg hmod, if_neg (not_not.mpr ⟨hbytes, htype⟩)]
  rcases hsel with ⟨h1, h2, h3⟩ | ⟨h1, h2, h3⟩ | ⟨h1, h3⟩
  · rw [if_pos h1, if_pos h2, h3]
  · rw [if_pos h1, if_neg h2, h3]
  · rw [if_neg (h1 ▸ data_ne_inode K), if_pos h1, h3]

theorem drop_append_len (xs ys : List Nat) (n : Nat) (h : xs.length = n) :
    (xs ++ ys).drop n = ys := by
  subst h; exact List.drop_left _ _

theorem take_append_len (xs ys : List Nat) (n : Nat) (h : xs.length = n) :
    (xs ++ ys).take n = xs := by
  subst h; exact List.take_left _ _

theorem bcopy_bcopy (src d : List Nat) (len : Nat) (h : len ≤ src.length) :
    bcopy src (bcopy src d len) len = bcopy src d len := by
  unfold bcopy
  rw [drop_append_len _ _ _ (by simp [h])]

theorem bcopy_take (src d : List Nat) (len : Nat) (h : len ≤ src.length) :
    (bcopy src d len).take len = src.take len := by
  unfold bcopy
  rw [take_append_len _ _ _ (by simp [h])]

theorem bcopy_drop (src d : List Nat) (len : Nat) (h : len ≤ src.length) :
    (bcopy src d len).drop len = d.drop len := by
  unfold bcopy
  rw [drop_append_len _ _ _ (by simp [h])]

theorem store_data_chain (w : World) (c : ChainId) (data : List Nat) (x : ChainId) :
    (store_data w c data).chain x =
      if x = c then { w.chain c with data := data } else w.chain x := by
  unfold store_data
  by_cases h : x = c
  · subst h; simp
  · simp [h, Function.update_noteq h]

theorem modsync_loop_copy (K : hammer2_h) (cluster : hammer2_cluster) (f : ChainId)
    (w0 : World) (len : Nat) (hsel : modsync_copies K (w0.chain f) len)
    (hlen : len ≤ (w0.chain f).data.length) :
    ∀ (n i : Nat) (w : World),
      w.chain f = w0.chain f →
      (∀ c, (w.chain c).flags = (w0.chain c).flags ∧ (w.chain c).bytes = (w0.chain c).bytes ∧
        (w.chain c).bref = (w0.chain c).bref) →
      (∀ c, (w.chain c).data = (w0.chain c).data ∨
        (w.chain c).data = bcopy (w0.chain f).data (w0.chain c).data len) →
      (∀ j c, i ≤ j → j < i + n → cluster.array j = some c → c ≠ f →
        (w0.chain c).flags &&& K.HAMMER2_CHAIN_MODIFIED ≠ 0 ∧
        (w0.chain f).bytes = (w0.chain c).bytes ∧
        (w0.chain f).bref.type = (w0.chain c).bref.type) →
      ∃ w', hammer2_cluster_modsync_loop K cluster f n i w = .ok w' ∧
        w'.chain f = w0.chain f ∧ w'.trace = w.trace ∧
        (∀ c, (w'.chain c).data = (w.chain c).data ∨
          (w'.chain c).data = bcopy (w0.chain f).data (w0.chain c).data len) ∧
        (∀ c, (w.chain c).data = bcopy (w0.chain f).data (w0.chain c).data len →
          (w'.chain c).data = bcopy (w0.chain f).data (w0.chain c).data len) ∧
        (∀ j c, i ≤ j → j < i + n → cluster.array j = some c → c ≠ f →
          (w'.chain c).data = bcopy (w0.chain f).data (w0.chain c).data len) := by
  intro n
  induction n with
  | zero =>
    intro i w hf _ _ _
    exact ⟨w, rfl, hf, rfl, fun c => Or.inl rfl, fun c h => h,
      fun j c h1 h2 => absurd h2 (by omega)⟩
  | succ n ih =>
    intro i w hf hmeta hdata hslots
    have hrest : ∀ j c, i + 1 ≤ j → j < i + 1 + n → cluster.array j = some c → c ≠ f →
        (w0.chain c).flags &&& K.HAMMER2_CHAIN_MODIFIED ≠ 0 ∧
        (w0.chain f).bytes = (w0.chain c).bytes ∧
        (w0.chain f).bref.type = (w0.chain c).bref.type :=
      fun j c h1 h2 => hslots j c (by omega) (by omega)
    have hskip : hammer2_cluster_modsync_loop K cluster f n (i + 1) w =
        hammer2_cluster_modsync_loop K cluster f (n + 1) i w →
        (∀ c, cluster.array i = some c → c = f) →
        ∃ w', hammer2_cluster_modsync_loop K cluster f (n + 1) i w = .ok w' ∧
          w'.chain f = w0.chain f ∧ w'.trace = w.trace ∧
          (∀ c, (w'.chain c).data = (w.chain c).data ∨
            (w'.chain c).data = bcopy (w0.chain f).data (w0.chain c).data len) ∧
          (∀ c, (w.chain c).data = bcopy (w0.chain f).data (w0.chain c).data len →
            (w'.chain c).data = bcopy (w0.chain f).data (w0.chain c).data len) ∧
          (∀ j c, i ≤ j → j < i + (n + 1) → cluster.array j = some c → c ≠ f →
            (w'.chain c).data = bcopy (w0.chain f).data (w0.chain c).data len) := by
      intro heq hnone
      obtain ⟨w', h1, h2, h3, h4, h5, h6⟩ := ih (i + 1) w hf hmeta hdata hrest
      refine ⟨w', heq ▸ h1, h2, h3, h4, h5, ?_⟩
      intro j c hj1 hj2 hj3 hj4
      by_cases hji : j = i
      · subst hji; exact absurd (hnone c hj3) hj4
      · exact h6 j c (by omega) (by omega) hj3 hj4
    cases harr : cluster.array i with
    | none =>
      apply hskip
      · rw [hammer2_cluster_modsync_loop.eq_2]; simp only [harr]
      · intro c hc; rw [harr] at hc; cases hc
    | some c =>
      by_cases hcf : c = f
      · apply hskip
        · rw [hammer2_cluster_modsync_loop.eq_2]; simp only [harr, hcf, if_true]
        · intro c' hc'; rw [harr] at hc'; cases hc'; exact hcf
      · obtain ⟨g1, g2, g3⟩ := hslots i c (le_refl _) (by omega) harr hcf
        obtain ⟨m1, m2, m3⟩ := hmeta c
        have hstep := modsync_loop_step K cluster f c n i len w harr hcf (hf ▸ hsel)
          (by rw [m1]; exact g1) (by rw [hf, m2]; exact g2) (by rw [hf, m3]; exact g3)
        have hnew : bcopy (w.chain f).data (w.chain c).data len =
            bcopy (w0.chain f).data (w0.chain c).data len := by
          rw [hf]
          rcases hdata c with h | h
          · rw [h]
          · rw [h, bcopy_bcopy _ _ _ hlen]
        rw [hnew] at hstep
        obtain ⟨w', h1, h2, h3, h4, h5, h6⟩ := ih (i + 1)
          (store_data w c (bcopy (w0.chain f).data (w0.chain c).data len))
          (by rw [store_data_chain, if_neg (fun e => hcf e.symm)]; exact hf)
          (by
            intro x
            rw [store_data_chain]
            by_cases hx : x = c
            · subst hx; simpa using hmeta x
            · simpa [hx] using hmeta x)
          (by
            intro x
            rw [store_data_chain]
            by_cases hx : x = c
            · subst hx; right; simp
            · simpa [hx] using hdata x)
          hrest
        have hc1 : ((store_data w c (bcopy (w0.chain f).data (w0.chain c).data len)).chain
            c).data = bcopy (w0.chain f).data (w0.chain c).data len := by
          rw [store_data_chain]; simp
        refine ⟨w', hstep ▸ h1, h2, h3, ?_, ?_, ?_⟩
        · intro x
          by_cases hx : x = c
          · subst hx; right; exact h5 x hc1
          · rcases h4 x with h | h
            · left; rw [h, store_data_chain, if_neg hx]
            · right; exact h
        · intro x hxs
          apply h5
          rw [store_data_chain]
          by_cases hx : x = c
          · subst hx; simp
          · simpa [hx] using hxs
        · intro j x hj1 hj2 hj3 hj4
          by_cases hji : j = i
          · subst hji
            rw [harr] at hj3
            cases hj3
            exact h5 c hc1
          · exact h6 j x (by omega) (by omega) hj3 hj4

/-- What `hammer2_cluster_modsync` does when the focus `f` is a modified
chain whose type selects a copy of `len` bytes and every other non-null
chain is modified and agrees with the focus in size and type: it returns,
leaves the focus chain as it was, and the buffer of every other non-null
chain is its old buffer with the first `len` bytes taken from the focus. -/
theorem cluster_modsync_copy (K : hammer2_h) (cluster : hammer2_cluster) (w : World)
    (f : ChainId) (len : Nat) (hfocus : cluster.focus = some f)
    (hfmod : (w.chain f).flags &&& K.HAMMER2_CHAIN_MODIFIED ≠ 0)
    (hsel : modsync_copies K (w.chain f) len) (hlen : len ≤ (w.chain f).data.length)
    (hslots : ∀ j c, j < cluster.nchains → cluster.array j = some c → c ≠ f →
      (w.chain c).flags &&& K.HAMMER2_CHAIN_MODIFIED ≠ 0 ∧
      (w.chain f).bytes = (w.chain c).bytes ∧
      (w.chain f).bref.type = (w.chain c).bref.type) :
    ∃ w', hammer2_cluster_modsync K cluster w = .ok w' ∧ w'.chain f = w.chain f ∧
      ∀ j c, j < cluster.nchains → cluster.array j = some c → c ≠ f →
        (w'.chain c).data = bcopy (w.chain f).data (w.chain c).data len := by
  obtain ⟨w', h1, h2, -, -, -, h6⟩ := modsync_loop_copy K cluster f w len hsel hlen
    cluster.nchains 0 w rfl (fun c => ⟨rfl, rfl, rfl⟩) (fun c => Or.inl rfl)
    (fun j c _ hj => hslots j c (by omega))
  refine ⟨w', ?_, h2, fun j c hj => h6 j c (Nat.zero_le _) (by omega)⟩
  unfold hammer2_cluster_modsync
  simp only [hfocus]
  rw [if_neg hfmod]
  exact h1

/-- C9: for a cluster whose focus and every other non-null chain are
MODIFIED chains of type DATA with the same size `bytes`, held in buffers of
at least `bytes` bytes, `hammer2_cluster_modsync` returns; afterwards the
first `bytes` bytes of every non-null chain's buffer are the first `bytes`
bytes the focus buffer held before the call, and the focus buffer is
unchanged. -/
theorem cluster_modsync_data (K : hammer2_h) (cluster : hammer2_cluster) (w : World)
    (f : ChainId) (hfocus : cluster.focus = some f)
    (hfmod : (w.chain f).flags &&& K.HAMMER2_CHAIN_MODIFIED ≠ 0)
    (hftype : (w.chain f).bref.type = K.HAMMER2_BREF_TYPE_DATA)
    (hflen : (w.chain f).bytes ≤ (w.chain f).data.length)
    (hslots : ∀ j c, j < cluster.nchains → cluster.array j = some c →
      (w.chain c).flags &&& K.HAMMER2_CHAIN_MODIFIED ≠ 0 ∧
      (w.chain c).bref.type = K.HAMMER2_BREF_TYPE_DATA ∧
      (w.chain c).bytes = (w.chain f).bytes ∧
      (w.chain f).bytes ≤ (w.chain c).data.length) :
    ∃ w', hammer2_cluster_modsync K cluster w = .ok w' ∧
      (∀ j c, j < cluster.nchains → cluster.array j = some c →
        (w'.chain c).data.take (w.chain f).bytes = (w.chain f).data.take (w.chain f).bytes) ∧
      (w'.chain f).data = (w.chain f).data := by
  obtain ⟨w', h1, h2, h3⟩ := cluster_modsync_copy K cluster w f (w.chain f).bytes hfocus hfmod
    (Or.inr (Or.inr ⟨hftype, rfl⟩)) hflen
    (fun j c hj hc _ => by
      obtain ⟨g1, g2, g3, -⟩ := hslots j c hj hc
      exact ⟨g1, g3.symm, by rw [hftype, g2]⟩)
  refine ⟨w', h1, ?_, by rw [h2]⟩
  intro j c hj hc
  by_cases hcf : c = f
  · rw [hcf, h2]
  · rw [h3 j c hj hc hcf, bcopy_take _ _ _ hflen]

/-- Witness of C9: two data chains with `bytes = 3`, the focus holding
"hello" and the other chain "wor", with a hole between them. -/
theorem cluster_modsync_data_witness :
    sample_pair.focus = some 0 ∧
    ∃ w', hammer2_cluster_modsync sample_h sample_pair hello_world = .ok w' ∧
      (∀ j c, j < sample_pair.nchains → sample_pair.array j = some c →
        (w'.chain c).data.take (hello_world.chain 0).bytes =
          (hello_world.chain 0).data.take (hello_world.chain 0).bytes) ∧
      (w'.chain 0).data = (hello_world.chain 0).data :=
  ⟨rfl, cluster_modsync_data sample_h sample_pair hello_world 0 rfl (by decide) (by decide)
    (by decide) (by
      intro j c hj hc
      have hj3 : j < 3 := hj
      interval_cases j
      · cases hc; decide
      · cases hc
      · cases hc; decide)⟩

/-- The example of C9 evaluated: after `hammer2_cluster_modsync` the focus
still holds "hello" and the other chain holds "hel". -/
theorem cluster_modsync_hello :
    (hammer2_cluster_modsync sample_h sample_pair hello_world).toOption.map
      (fun w' => ((w'.chain 0).data, (w'.chain 1).data)) =
      some ([104, 101, 108, 108, 111], [104, 101, 108]) := by
  decide

/-- C10: for a cluster whose focus and every other non-null chain are
MODIFIED chains of type INODE with the same size, held in buffers that cover
`offsetof(hammer2_inode_data_t, u)` and `bytes`, `hammer2_cluster_modsync`
returns and leaves the focus chain as it was.  If the focus inode's
`op_flags` lacks DIRECTDATA, each other non-null chain agrees with the focus
on the bytes before the offset of `u` and keeps its own bytes from that
offset on; if DIRECTDATA is set, the first `bytes` bytes of each other
non-null chain are those of the focus. -/
theorem cluster_modsync_inode (K : hammer2_h) (cluster : hammer2_cluster) (w : World)
    (f : ChainId) (hfocus : cluster.focus = some f)
    (hfmod : (w.chain f).flags &&& K.HAMMER2_CHAIN_MODIFIED ≠ 0)
    (hftype : (w.chain f).bref.type = K.HAMMER2_BREF_TYPE_INODE)
    (hfu : K.offsetof_u ≤ (w.chain f).data.length)
    (hflen : (w.chain f).bytes ≤ (w.chain f).data.length)
    (hslots : ∀ j c, j < cluster.nchains → cluster.array j = some c →
      (w.chain c).flags &&& K.HAMMER2_CHAIN_MODIFIED ≠ 0 ∧
      (w.chain c).bref.type = K.HAMMER2_BREF_TYPE_INODE ∧
      (w.chain c).bytes = (w.chain f).bytes ∧
      K.offsetof_u ≤ (w.chain c).data.length ∧
      (w.chain f).bytes ≤ (w.chain c).data.length) :
    ∃ w', hammer2_cluster_modsync K cluster w = .ok w' ∧ w'.chain f = w.chain f ∧
      ((w.chain f).data.getD K.offsetof_op_flags 0 &&& K.HAMMER2_OPFLAG_DIRECTDATA = 0 →
        ∀ j c, j < cluster.nchains → cluster.array j = some c → c ≠ f →
          (w'.chain c).data.take K.offsetof_u = (w.chain f).data.take K.offsetof_u ∧
          (w'.chain c).data.drop K.offsetof_u = (w.chain c).data.drop K.offsetof_u) ∧
      ((w.chain f).data.getD K.offsetof_op_flags 0 &&& K.HAMMER2_OPFLAG_DIRECTDATA ≠ 0 →
        ∀ j c, j < cluster.nchains → cluster.array j = some c → c ≠ f →
          (w'.chain c).data.take (w.chain f).bytes =
            (w.chain f).data.take (w.chain f).bytes) := by
  have hs : ∀ j c, j < cluster.nchains → cluster.array j = some c → c ≠ f →
      (w.chain c).flags &&& K.HAMMER2_CHAIN_MODIFIED ≠ 0 ∧
      (w.chain f).bytes = (w.chain c).bytes ∧
      (w.chain f).bref.type = (w.chain c).bref.type := by
    intro j c hj hc _
    obtain ⟨g1, g2, g3, -⟩ := hslots j c hj hc
    exact ⟨g1, g3.symm, by rw [hftype, g2]⟩
  by_cases hdd : (w.chain f).data.getD K.offsetof_op_flags 0 &&& K.HAMMER2_OPFLAG_DIRECTDATA = 0
  · obtain ⟨w', h1, h2, h3⟩ := cluster_modsync_copy K cluster w f K.offsetof_u hfocus hfmod
      (Or.inl ⟨hftype, hdd, rfl⟩) hfu hs
    refine ⟨w', h1, h2, ?_, fun h => absurd hdd h⟩
    intro _ j c hj hc hcf
    rw [h3 j c hj hc hcf]
    exact ⟨bcopy_take _ _ _ hfu, bcopy_drop _ _ _ hfu⟩
  · obtain ⟨w', h1, h2, h3⟩ := cluster_modsync_copy K cluster w f (w.chain f).bytes hfocus
      hfmod (Or.inr (Or.inl ⟨hftype, hdd, rfl⟩)) hflen hs
    refine ⟨w', h1, h2, fun h => absurd h hdd, ?_⟩
    intro _ j c hj hc hcf
    rw [h3 j c hj hc hcf]
    exact bcopy_take _ _ _ hflen

/-- Witness of C10: two inode chains of six bytes with a hole between them,
once with `op_flags = 0` and once with DIRECTDATA set in the focus. -/
theorem cluster_modsync_inode_witness :
    (∃ w', hammer2_cluster_modsync sample_h sample_pair (inode_world 0) = .ok w' ∧
      w'.chain 0 = (inode_world 0).chain 0 ∧
      (((inode_world 0).chain 0).data.getD sample_h.offsetof_op_flags 0 &&&
          sample_h.HAMMER2_OPFLAG_DIRECTDATA = 0 →
        ∀ j c, j < sample_pair.nchains → sample_pair.array j = some c → c ≠ 0 →
          (w'.chain c).data.take sample_h.offsetof_u =
            ((inode_world 0).chain 0).data.take sample_h.offsetof_u ∧
          (w'.chain c).data.drop sample_h.offsetof_u =
            ((inode_world 0).chain c).data.drop sample_h.offsetof_u) ∧
      (((inode_world 0).chain 0).data.getD sample_h.offsetof_op_flags 0 &&&
          sample_h.HAMMER2_OPFLAG_DIRECTDATA ≠ 0 →
        ∀ j c, j < sample_pair.nchains → sample_pair.array j = some c → c ≠ 0 →
          (w'.chain c).data.take ((inode_world 0).chain 0).bytes =
            ((inode_world 0).chain 0).data.take ((inode_world 0).chain 0).bytes)) ∧
    (∃ w', hammer2_cluster_modsync sample_h sample_pair (inode_world 1) = .ok w' ∧
      w'.chain 0 = (inode_world 1).chain 0 ∧
      (((inode_world 1).chain 0).data.getD sample_h.offsetof_op_flags 0 &&&
          sample_h.HAMMER2_OPFLAG_DIRECTDATA = 0 →
        ∀ j c, j < sample_pair.nchains → sample_pair.array j = some c → c ≠ 0 →
          (w'.chain c).data.take sample_h.offsetof_u =
            ((inode_world 1).chain 0).data.take sample_h.offsetof_u ∧
          (w'.chain c).data.drop sample_h.offsetof_u =
            ((inode_world 1).chain c).data.drop sample_h.offsetof_u) ∧
      (((inode_world 1).chain 0).data.getD sample_h.offsetof_op_flags 0 &&&
          sample_h.HAMMER2_OPFLAG_DIRECTDATA ≠ 0 →
        ∀ j c, j < sample_pair.nchains → sample_pair.array j = some c → c ≠ 0 →
          (w'.chain c).data.take ((inode_world 1).chain 0).bytes =
            ((inode_world 1).chain 0).data.take ((inode_world 1).chain 0).bytes)) :=
  ⟨cluster_modsync_inode sample_h sample_pair (inode_world 0) 0 rfl (by decide) (by decide)
      (by decide) (by decide) (by
        intro j c hj hc
        have hj3 : j < 3 := hj
        interval_cases j
        · cases hc; decide
        · cases hc
        · cases hc; decide),
    cluster_modsync_inode sample_h sample_pair (inode_world 1) 0 rfl (by decide) (by decide)
      (by decide) (by decide) (by
        intro j c hj hc
        have hj3 : j < 3 := hj
        interval_cases j
        · cases hc; decide
        · cases hc
        · cases hc; decide)⟩

/-- The example of C10 evaluated: without DIRECTDATA the other chain takes
bytes 0 to 3 from the focus and keeps its bytes 4 and 5; with DIRECTDATA it
takes all six bytes. -/
theorem cluster_modsync_inode_bytes :
    (hammer2_cluster_modsync sample_h sample_pair (inode_world 0)).toOption.map
      (fun w' => ((w'.chain 0).data, (w'.chain 1).data)) =
      some ([9, 0, 7, 7, 1, 2], [9, 0, 7, 7, 5, 6]) ∧
    (hammer2_cluster_modsync sample_h sample_pair (inode_world 1)).toOption.map
      (fun w' => ((w'.chain 0).data, (w'.chain 1).data)) =
      some ([9, 1, 7, 7, 1, 2], [9, 1, 7, 7, 1, 2]) := by
  constructor <;> decide

theorem scan_result_first (K : hammer2_h) (s : ScanLocals) (i : Nat) (c : ChainId) (k : Nat)
    (hfocus : s.cluster.focus = none) :
    ∃ s', cluster_scan_result K s i (some c) k = .ok s' ∧
      s'.bref_type = (s.world.chain c).bref.type ∧ s'.bref_key = (s.world.chain c).bref.key ∧
      s'.bref_keybits = (s.world.chain c).bref.keybits ∧ s'.bytes = (s.world.chain c).bytes ∧
      s'.cluster.focus = some c ∧ s'.world = s.world ∧ s'.cparent = s.cparent ∧
      s'.cluster.array = Function.update s.cluster.array i (some c) := by
  have hagree : scan_agrees K (scan_focus K
      { s with cluster := { s.cluster with array := Function.update s.cluster.array i (some c) } }
      i c) c := by
    unfold scan_agrees scan_focus
    by_cases h2 : s.cparent.focus = s.cparent.array i <;> simp [hfocus, h2]
  refine ⟨scan_accum (scan_focus K
      { s with cluster := { s.cluster with array := Function.update s.cluster.array i (some c) } }
      i c) k, ?_, ?_⟩
  · unfold cluster_scan_result
    simp only
    rw [if_pos hagree]
  · obtain ⟨-, a2, a3, a4, -⟩ := scan_accum_fields (scan_focus K
      { s with cluster := { s.cluster with array := Function.update s.cluster.array i (some c) } }
      i c) k
    have hacc : ∀ t : ScanLocals, (scan_accum t k).bref_type = t.bref_type ∧
        (scan_accum t k).bref_key = t.bref_key ∧ (scan_accum t k).bref_keybits = t.bref_keybits ∧
        (scan_accum t k).bytes = t.bytes := by
      intro t; unfold scan_accum; split <;> exact ⟨rfl, rfl, rfl, rfl⟩
    obtain ⟨b1, b2, b3, b4⟩ := hacc (scan_focus K
      { s with cluster := { s.cluster with array := Function.update s.cluster.array i (some c) } }
      i c)
    rw [b1, b2, b3, b4, a2, a3, a4]
    unfold scan_focus
    by_cases h2 : s.cparent.focus = s.cparent.array i <;> simp [hfocus, h2]

theorem scan_result_mismatch (K : hammer2_h) (s : ScanLocals) (i : Nat) (c : ChainId)
    (k : Nat) (hfocus : s.cluster.focus ≠ none)
    (hdiff : s.bref_type ≠ (s.world.chain c).bref.type ∨
      s.bref_key ≠ (s.world.chain c).bref.key ∨
      s.bref_keybits ≠ (s.world.chain c).bref.keybits ∨ s.bytes ≠ (s.world.chain c).bytes) :
    cluster_scan_result K s i (some c) k = .error Halt.kkassert := by
  have hagree : ¬ scan_agrees K (scan_focus K
      { s with cluster := { s.cluster with array := Function.update s.cluster.array i (some c) } }
      i c) c := by
    unfold scan_agrees scan_focus
    by_cases h2 : s.cparent.focus = s.cparent.array i <;> simp [hfocus, h2] <;> tauto
  unfold cluster_scan_result
  simp only
  rw [if_neg hagree]

theorem next_loop_first (K : hammer2_h) (chain_next : chain_next_fn)
    (key_nextp key_beg key_end flags n i : Nat) (s : ScanLocals) (c p a : ChainId)
    (hci : s.cluster.array i = some c) (hpi : s.cparent.array i = some p)
    (hr : (chain_next s.world.chain p c key_nextp key_beg key_end flags).chain = some a)
    (hfocus : s.cluster.focus = none) :
    ∃ s1, hammer2_cluster_next_loop K chain_next key_nextp key_beg key_end flags (n + 1) i s =
        hammer2_cluster_next_loop K chain_next key_nextp key_beg key_end flags n (i + 1) s1 ∧
      s1.bref_key =
        ((chain_next s.world.chain p c key_nextp key_beg key_end flags).heap a).bref.key ∧
      s1.cluster.focus = some a ∧
      s1.world.chain = (chain_next s.world.chain p c key_nextp key_beg key_end flags).heap ∧
      s1.cparent.array = Function.update s.cparent.array i
        (chain_next s.world.chain p c key_nextp key_beg key_end flags).parent ∧
      s1.cluster.array = Function.update s.cluster.array i (some a) := by
  obtain ⟨s1, e1, -, k1, -, -, f1, w1, q1, a1⟩ := scan_result_first K
    { s with
      cparent := { s.cparent with array := (Function.update s.cparent.array i
        (chain_next s.world.chain p c key_nextp key_beg key_end flags).parent) },
      world := { chain := (chain_next s.world.chain p c key_nextp key_beg key_end flags).heap,
                 trace := s.world.trace ++ [ChainCall.next p c
                   (chain_next s.world.chain p c key_nextp key_beg key_end flags).chain
                   (chain_next s.world.chain p c key_nextp key_beg key_end flags).key_next] } }
    i a (chain_next s.world.chain p c key_nextp key_beg key_end flags).key_next hfocus
  refine ⟨s1, ?_, k1, f1, by rw [w1], by rw [q1], by rw [a1]⟩
  rw [hammer2_cluster_next_loop]
  simp only [hci, hpi]
  rw [hr] at e1 ⊢
  split
  · rename_i e heq
    exact absurd (heq.symm.trans e1) (by simp)
  · rename_i s2 heq
    have hs := Except.ok.inj (heq.symm.trans e1)
    rw [hs]

theorem next_loop_mismatch (K : hammer2_h) (chain_next : chain_next_fn)
    (key_nextp key_beg key_end flags n i : Nat) (s : ScanLocals) (c p b : ChainId)
    (hci : s.cluster.array i = some c) (hpi : s.cparent.array i = some p)
    (hr : (chain_next s.world.chain p c key_nextp key_beg key_end flags).chain = some b)
    (hfocus : s.cluster.focus ≠ none)
    (hkey : s.bref_key ≠
      ((chain_next s.world.chain p c key_nextp key_beg key_end flags).heap b).bref.key) :
    hammer2_cluster_next_loop K chain_next key_nextp key_beg key_end flags (n + 1) i s =
      .error Halt.kkassert := by
  have e1 := scan_result_mismatch K
    { s with
      cparent := { s.cparent with array := (Function.update s.cparent.array i
        (chain_next s.world.chain p c key_nextp key_beg key_end flags).parent) },
      world := { chain := (chain_next s.world.chain p c key_nextp key_beg key_end flags).heap,
                 trace := s.world.trace ++ [ChainCall.next p c
                   (chain_next s.world.chain p c key_nextp key_beg key_end flags).chain
                   (chain_next s.world.chain p c key_nextp key_beg key_end flags).key_next] } }
    i b (chain_next s.world.chain p c key_nextp key_beg key_end flags).key_next hfocus
    (Or.inr (Or.inl hkey))
  rw [hammer2_cluster_next_loop]
  simp only [hci, hpi]
  rw [hr] at e1 ⊢
  split
  · rename_i e heq
    have he := Except.error.inj (heq.symm.trans e1)
    rw [he]
  · rename_i s2 heq
    exact absurd (heq.symm.trans e1) (by simp)

/-- Whatever the chain layer is: when `hammer2_cluster_next` runs over two
present slots and the per-chain iteration of slot 0 yields a chain whose key
differs from the key of the chain that slot 1 yields, the call halts on a
`KKASSERT`. -/
theorem cluster_next_halts_on_key_mismatch (K : hammer2_h) (chain_next : chain_next_fn)
    (cparent cluster : hammer2_cluster) (p0 p1 c0 c1 a b : ChainId)
    (key_nextp key_beg key_end flags : Nat) (w : World)
    (hn : cparent.nchains = 2)
    (hp0 : cparent.array 0 = some p0) (hp1 : cparent.array 1 = some p1)
    (hc0 : cluster.array 0 = some c0) (hc1 : cluster.array 1 = some c1)
    (h0 : (chain_next w.chain p0 c0 key_nextp key_beg key_end flags).chain = some a)
    (h1 : (chain_next (chain_next w.chain p0 c0 key_nextp key_beg key_end flags).heap p1 c1
      key_nextp key_beg key_end flags).chain = some b)
    (hkey : ((chain_next w.chain p0 c0 key_nextp key_beg key_end flags).heap a).bref.key ≠
      ((chain_next (chain_next w.chain p0 c0 key_nextp key_beg key_end flags).heap p1 c1
        key_nextp key_beg key_end flags).heap b).bref.key) :
    hammer2_cluster_next K chain_next cparent cluster key_nextp key_beg key_end flags w =
      .error Halt.kkassert := by
  have h10 : (1 : Nat) ≠ 0 := by decide
  obtain ⟨s1, e1, k1, f1, w1, q1, a1⟩ := next_loop_first K chain_next key_nextp key_beg key_end
    flags 1 0
    (scan_locals { cparent with focus := none } { cluster with focus := none, ddflag := 0 }
      key_nextp w) c0 p0 a hc0 hp0 h0 rfl
  have e2 := next_loop_mismatch K chain_next key_nextp key_beg key_end flags 0 1 s1 c1 p1 b
    (by rw [a1]; simpa [scan_locals, Function.update_noteq h10] using hc1)
    (by rw [q1]; simpa [scan_locals, Function.update_noteq h10] using hp1)
    (by rw [w1]; exact h1) (by simp [f1]) (by rw [k1, w1]; exact hkey)
  have e12 : ∀ m, m = 2 →
      hammer2_cluster_next_loop K chain_next key_nextp key_beg key_end flags m 0
        (scan_locals { cparent with focus := none } { cluster with focus := none, ddflag := 0 }
          key_nextp w) = .error Halt.kkassert := by
    intro m hm
    subst hm
    exact e1.trans e2
  unfold hammer2_cluster_next
  rw [e12 _ hn]

theorem slotcount_congr (a b : Nat → Option ChainId) (c : ChainId) :
    ∀ (n i : Nat), (∀ j, i ≤ j → j < i + n → a j = b j) →
      slotcount a c n i = slotcount b c n i := by
  intro n
  induction n with
  | zero => intro i _; rfl
  | succ n ih =>
    intro i h
    simp only [slotcount]
    rw [h i (le_refl _) (by omega), ih (i + 1) (fun j h1 h2 => h j (by omega) (by omega))]

theorem drop_calls_congr (a b : Nat → Option ChainId) :
    ∀ (n i : Nat), (∀ j, i ≤ j → j < i + n → a j = b j) →
      drop_calls a n i = drop_calls b n i := by
  intro n
  induction n with
  | zero => intro i _; rfl
  | succ n ih =>
    intro i h
    simp only [drop_calls]
    rw [h i (le_refl _) (by omega), ih (i + 1) (fun j h1 h2 => h j (by omega) (by omega))]

theorem unlock_calls_congr (a b : Nat → Option ChainId) :
    ∀ (n i : Nat), (∀ j, i ≤ j → j < i + n → a j = b j) →
      unlock_calls a n i = unlock_calls b n i := by
  intro n
  induction n with
  | zero => intro i _; rfl
  | succ n ih =>
    intro i h
    simp only [unlock_calls]
    rw [h i (le_refl _) (by omega), ih (i + 1) (fun j h1 h2 => h j (by omega) (by omega))]

theorem update_above (a : Nat → Option ChainId) (i : Nat) (v : Option ChainId) :
    ∀ j, i + 1 ≤ j → Function.update a i v j = a j := by
  intro j hj
  exact Function.update_noteq (by omega) _ _

/-- The effect of the loop of `hammer2_cluster_drop` for any reference
count: scalar fields stay, the slots in range are nulled exactly when
`refs = 1`, and each chain is dropped once per slot holding it. -/
theorem drop_loop_effect :
    ∀ (n i : Nat) (cluster : hammer2_cluster) (w : World),
      (hammer2_cluster_drop_loop n i cluster w).1.refs = cluster.refs ∧
      (hammer2_cluster_drop_loop n i cluster w).1.focus = cluster.focus ∧
      (hammer2_cluster_drop_loop n i cluster w).1.flags = cluster.flags ∧
      (hammer2_cluster_drop_loop n i cluster w).1.nchains = cluster.nchains ∧
      (∀ k, (hammer2_cluster_drop_loop n i cluster w).1.array k =
        if cluster.refs = 1 ∧ i ≤ k ∧ k < i + n then none else cluster.array k) ∧
      (∀ c, ((hammer2_cluster_drop_loop n i cluster w).2.chain c).refs =
        (w.chain c).refs - slotcount cluster.array c n i) ∧
      (hammer2_cluster_drop_loop n i cluster w).2.trace =
        w.trace ++ drop_calls cluster.array n i := by
  intro n
  induction n with
  | zero =>
    intro i cluster w
    refine ⟨rfl, rfl, rfl, rfl, ?_, ?_, ?_⟩
    · intro k
      have : ¬ (cluster.refs = 1 ∧ i ≤ k ∧ k < i + 0) := by omega
      rw [if_neg this]
      rfl
    · intro c; simp [hammer2_cluster_drop_loop, slotcount]
    · simp [hammer2_cluster_drop_loop, drop_calls]
  | succ n ih =>
    intro i cluster w
    simp only [hammer2_cluster_drop_loop, slotcount, drop_calls]
    cases hs : cluster.array i with
    | none =>
      obtain ⟨h1, h2, h3, h4, h5, h6, h7⟩ := ih (i + 1) cluster w
      refine ⟨h1, h2, h3, h4, ?_, ?_, ?_⟩
      · intro k
        rw [h5 k]
        by_cases hk : k = i
        · subst hk; simp [hs]
        · by_cases hr : cluster.refs = 1
          · by_cases hin : i + 1 ≤ k ∧ k < i + 1 + n
            · rw [if_pos ⟨hr, hin⟩, if_pos ⟨hr, by omega, by omega⟩]
            · rw [if_neg (fun h => hin h.2), if_neg (fun h => hin ⟨by omega, by omega⟩)]
          · rw [if_neg (fun h => hr h.1), if_neg (fun h => hr h.1)]
      · intro c; rw [h6 c]; simp
      · simpa using h7
    | some d =>
      by_cases hr : cluster.refs = 1
      · dsimp only
        rw [if_pos hr]
        obtain ⟨h1, h2, h3, h4, h5, h6, h7⟩ := ih (i + 1)
          { cluster with array := Function.update cluster.array i none }
          (hammer2_chain_drop w d)
        have hcongr : ∀ j, i + 1 ≤ j → j < i + 1 + n →
            Function.update cluster.array i none j = cluster.array j :=
          fun j hj _ => update_above _ _ _ j hj
        refine ⟨h1, h2, h3, h4, ?_, ?_, ?_⟩
        · intro k
          rw [h5 k]
          have hr' : ({ cluster with array := Function.update cluster.array i none } :
            hammer2_cluster).refs = 1 := hr
          simp only [hr, hr', true_and]
          by_cases hk : k = i
          · subst hk
            have : ¬ (k + 1 ≤ k ∧ k < k + 1 + n) := by omega
            rw [if_neg this, if_pos ⟨le_refl _, by omega⟩]
            simp
          · by_cases hin : i + 1 ≤ k ∧ k < i + 1 + n
            · rw [if_pos hin, if_pos ⟨by omega, by omega⟩]
            · rw [if_neg hin, if_neg (fun h => hin ⟨by omega, by omega⟩)]
              exact Function.update_noteq hk _ _
        · intro c
          rw [h6 c, slotcount_congr _ _ c n (i + 1) hcongr]
          by_cases hd : d = c
          · subst hd
            simp [hammer2_chain_drop]
            ring
          · have hd' : c ≠ d := fun e => hd e.symm
            simp [hammer2_chain_drop, Function.update_noteq hd', hd]
        · rw [h7, drop_calls_congr _ _ n (i + 1) hcongr]
          simp [hammer2_chain_drop]
      · dsimp only
        rw [if_neg hr]
        obtain ⟨h1, h2, h3, h4, h5, h6, h7⟩ := ih (i + 1) cluster (hammer2_chain_drop w d)
        refine ⟨h1, h2, h3, h4, ?_, ?_, ?_⟩
        · intro k
          rw [h5 k, if_neg (fun h => hr h.1), if_neg (fun h => hr h.1)]
        · intro c
          rw [h6 c]
          by_cases hd : d = c
          · subst hd
            simp [hammer2_chain_drop]
            ring
          · have hd' : c ≠ d := fun e => hd e.symm
            simp [hammer2_chain_drop, Function.update_noteq hd', hd]
        · rw [h7]
          simp [hammer2_chain_drop]

/-- C12: for a cluster with `refs >= 1`, `hammer2_cluster_drop` returns and
frees the cluster if and only if `refs` was 1.  Each chain has been dropped
once per slot below `nchains` that held it, by one call per non-null slot in
slot order; and when the cluster is freed every slot below `nchains` and the
focus are NULL. -/
theorem cluster_drop_frees (cluster : hammer2_cluster) (w : World) (h : 1 ≤ cluster.refs) :
    ∃ d, hammer2_cluster_drop cluster w = .ok d ∧
      (d.freed = true ↔ cluster.refs = 1) ∧
      (∀ c, (d.world.chain c).refs =
        (w.chain c).refs - slotcount cluster.array c cluster.nchains 0) ∧
      d.world.trace = w.trace ++ drop_calls cluster.array cluster.nchains 0 ∧
      (d.freed = true →
        (∀ i, i < cluster.nchains → d.cluster.array i = none) ∧ d.cluster.focus = none) := by
  obtain ⟨h1, h2, -, -, h5, h6, h7⟩ := drop_loop_effect cluster.nchains 0 cluster w
  have hpos : (0 : Int) < cluster.refs := by omega
  unfold hammer2_cluster_drop
  rw [if_pos hpos]
  simp only [h1]
  by_cases hr : cluster.refs = 1
  · rw [if_pos hr]
    refine ⟨_, rfl, by simp [hr], h6, h7, ?_⟩
    intro _
    refine ⟨?_, rfl⟩
    intro i hi
    show (hammer2_cluster_drop_loop cluster.nchains 0 cluster w).1.array i = none
    rw [h5 i, if_pos ⟨hr, Nat.zero_le _, by omega⟩]
  · rw [if_neg hr]
    refine ⟨_, rfl, by simp [hr], h6, h7, ?_⟩
    intro hf
    simp at hf

/-- Witness of C12: a cluster with one reference, chains in slots 0 and 2
and a hole in slot 1. -/
theorem cluster_drop_frees_witness :
    (1 : Int) ≤ sample_pair.refs ∧
    ∃ d, hammer2_cluster_drop sample_pair hello_world = .ok d ∧
      (d.freed = true ↔ sample_pair.refs = 1) ∧
      (∀ c, (d.world.chain c).refs =
        (hello_world.chain c).refs - slotcount sample_pair.array c sample_pair.nchains 0) ∧
      d.world.trace = hello_world.trace ++ drop_calls sample_pair.array sample_pair.nchains 0 ∧
      (d.freed = true →
        (∀ i, i < sample_pair.nchains → d.cluster.array i = none) ∧ d.cluster.focus = none) :=
  ⟨by decide, cluster_drop_frees sample_pair hello_world (by decide)⟩

/-- The effect of the loop of `hammer2_cluster_unlock` for any reference
count: scalar fields stay, the slots in range are nulled exactly when
`refs = 1`, and each chain is unlocked once per slot holding it. -/
theorem unlock_loop_effect :
    ∀ (n i : Nat) (cluster : hammer2_cluster) (w : World),
      (hammer2_cluster_unlock_loop n i cluster w).1.refs = cluster.refs ∧
      (hammer2_cluster_unlock_loop n i cluster w).1.focus = cluster.focus ∧
      (hammer2_cluster_unlock_loop n i cluster w).1.flags = cluster.flags ∧
      (hammer2_cluster_unlock_loop n i cluster w).1.nchains = cluster.nchains ∧
      (∀ k, (hammer2_cluster_unlock_loop n i cluster w).1.array k =
        if cluster.refs = 1 ∧ i ≤ k ∧ k < i + n then none else cluster.array k) ∧
      (∀ c, ((hammer2_cluster_unlock_loop n i cluster w).2.chain c).lockcnt =
        (w.chain c).lockcnt - slotcount cluster.array c n i) ∧
      (hammer2_cluster_unlock_loop n i cluster w).2.trace =
        w.trace ++ unlock_calls cluster.array n i := by
  intro n
  induction n with
  | zero =>
    intro i cluster w
    refine ⟨rfl, rfl, rfl, rfl, ?_, ?_, ?_⟩
    · intro k
      have : ¬ (cluster.refs = 1 ∧ i ≤ k ∧ k < i + 0) := by omega
      rw [if_neg this]
      rfl
    · intro c; simp [hammer2_cluster_unlock_loop, slotcount]
    · simp [hammer2_cluster_unlock_loop, unlock_calls]
  | succ n ih =>
    intro i cluster w
    simp only [hammer2_cluster_unlock_loop, slotcount, unlock_calls]
    cases hs : cluster.array i with
    | none =>
      obtain ⟨h1, h2, h3, h4, h5, h6, h7⟩ := ih (i + 1) cluster w
      refine ⟨h1, h2, h3, h4, ?_, ?_, ?_⟩
      · intro k
        rw [h5 k]
        by_cases hk : k = i
        · subst hk; simp [hs]
        · by_cases hr : cluster.refs = 1
          · by_cases hin : i + 1 ≤ k ∧ k < i + 1 + n
            · rw [if_pos ⟨hr, hin⟩, if_pos ⟨hr, by omega, by omega⟩]
            · rw [if_neg (fun h => hin h.2), if_neg (fun h => hin ⟨by omega, by omega⟩)]
          · rw [if_neg (fun h => hr h.1), if_neg (fun h => hr h.1)]
      · intro c; rw [h6 c]; simp
      · simpa using h7
    | some d =>
      by_cases hr : cluster.refs = 1
      · dsimp only
        rw [if_pos hr]
        obtain ⟨h1, h2, h3, h4, h5, h6, h7⟩ := ih (i + 1)
          { cluster with array := Function.update cluster.array i none }
          (hammer2_chain_unlock w d)
        have hcongr : ∀ j, i + 1 ≤ j → j < i + 1 + n →
            Function.update cluster.array i none j = cluster.array j :=
          fun j hj _ => update_above _ _ _ j hj
        refine ⟨h1, h2, h3, h4, ?_, ?_, ?_⟩
        · intro k
          rw [h5 k]
          have hr' : ({ cluster with array := Function.update cluster.array i none } :
            hammer2_cluster).refs = 1 := hr
          simp only [hr, hr', true_and]
          by_cases hk : k = i
          · subst hk
            have : ¬ (k + 1 ≤ k ∧ k < k + 1 + n) := by omega
            rw [if_neg this, if_pos ⟨le_refl _, by omega⟩]
            simp
          · by_cases hin : i + 1 ≤ k ∧ k < i + 1 + n
            · rw [if_pos hin, if_pos ⟨by omega, by omega⟩]
            · rw [if_neg hin, if_neg (fun h => hin ⟨by omega, by omega⟩)]
              exact Function.update_noteq hk _ _
        · intro c
          rw [h6 c, slotcount_congr _ _ c n (i + 1) hcongr]
          by_cases hd : d = c
          · subst hd
            simp [hammer2_chain_unlock]
            ring
          · have hd' : c ≠ d := fun e => hd e.symm
            simp [hammer2_chain_unlock, Function.update_noteq hd', hd]
        · rw [h7, unlock_calls_congr _ _ n (i + 1) hcongr]
          simp [hammer2_chain_unlock]
      · dsimp only
        rw [if_neg hr]
        obtain ⟨h1, h2, h3, h4, h5, h6, h7⟩ := ih (i + 1) cluster (hammer2_chain_unlock w d)
        refine ⟨h1, h2, h3, h4, ?_, ?_, ?_⟩
        · intro k
          rw [h5 k, if_neg (fun h => hr h.1), if_neg (fun h => hr h.1)]
        · intro c
          rw [h6 c]
          by_cases hd : d = c
          · subst hd
            simp [hammer2_chain_unlock]
            ring
          · have hd' : c ≠ d := fun e => hd e.symm
            simp [hammer2_chain_unlock, Function.update_noteq hd', hd]
        · rw [h7]
          simp [hammer2_chain_unlock]

theorem clear_bits_land (a m : Nat) : clear_bits a m &&& m = 0 := by
  apply Nat.eq_of_testBit_eq
  intro k
  simp only [clear_bits, Nat.testBit_land, Nat.testBit_xor, Nat.zero_testBit]
  cases a.testBit k <;> cases m.testBit k <;> rfl

theorem clear_bits_testBit (a m k : Nat) (h : m.testBit k = false) :
    (clear_bits a m).testBit k = a.testBit k := by
  simp only [clear_bits, Nat.testBit_land, Nat.testBit_xor, h]
  cases a.testBit k <;> rfl

/-- C13: for a cluster with `refs >= 1`, `hammer2_cluster_unlock` returns
with the LOCKED flag cleared and every other flag bit as it was, each chain
unlocked once per slot below `nchains` that held it (one call per non-null
slot, in slot order) and `refs` one lower.  When `refs` was 1 every slot
below `nchains` and the focus are NULL and the cluster is freed; when `refs`
was greater than 1 the array and the focus are unchanged and the cluster is
not freed. -/
theorem cluster_unlock_effect (K : hammer2_h) (cluster : hammer2_cluster) (w : World)
    (h : 1 ≤ cluster.refs) :
    ∃ d, hammer2_cluster_unlock K cluster w = .ok d ∧
      d.cluster.flags &&& K.HAMMER2_CLUSTER_LOCKED = 0 ∧
      (∀ k, K.HAMMER2_CLUSTER_LOCKED.testBit k = false →
        d.cluster.flags.testBit k = cluster.flags.testBit k) ∧
      (∀ c, (d.world.chain c).lockcnt =
        (w.chain c).lockcnt - slotcount cluster.array c cluster.nchains 0) ∧
      d.world.trace = w.trace ++ unlock_calls cluster.array cluster.nchains 0 ∧
      d.cluster.refs = cluster.refs - 1 ∧
      (cluster.refs = 1 →
        (∀ i, i < cluster.nchains → d.cluster.array i = none) ∧ d.cluster.focus = none ∧
        d.freed = true) ∧
      (1 < cluster.refs →
        (∀ i, d.cluster.array i = cluster.array i) ∧ d.cluster.focus = cluster.focus ∧
        d.freed = false) := by
  obtain ⟨h1, h2, h3, -, h5, h6, h7⟩ := unlock_loop_effect cluster.nchains 0
    { cluster with flags := clear_bits cluster.flags K.HAMMER2_CLUSTER_LOCKED } w
  have hpos : (0 : Int) < cluster.refs := by omega
  unfold hammer2_cluster_unlock
  rw [if_pos hpos]
  simp only [h1]
  by_cases hr : cluster.refs = 1
  · rw [if_pos hr]
    refine ⟨_, rfl, ?_, ?_, h6, h7, rfl, ?_, ?_⟩
    · show (hammer2_cluster_unlock_loop _ 0 _ w).1.flags &&& _ = 0
      rw [h3]; exact clear_bits_land _ _
    · intro k hk
      show ((hammer2_cluster_unlock_loop _ 0 _ w).1.flags).testBit k = _
      rw [h3]; exact clear_bits_testBit _ _ _ hk
    · intro _
      refine ⟨?_, rfl, rfl⟩
      intro i hi
      show (hammer2_cluster_unlock_loop _ 0 _ w).1.array i = none
      rw [h5 i, if_pos ⟨hr, Nat.zero_le _, by simpa using hi⟩]
    · intro hgt; omega
  · rw [if_neg hr]
    refine ⟨_, rfl, ?_, ?_, h6, h7, rfl, ?_, ?_⟩
    · show (hammer2_cluster_unlock_loop _ 0 _ w).1.flags &&& _ = 0
      rw [h3]; exact clear_bits_land _ _
    · intro k hk
      show ((hammer2_cluster_unlock_loop _ 0 _ w).1.flags).testBit k = _
      rw [h3]; exact clear_bits_testBit _ _ _ hk
    · intro h1'; exact absurd h1' hr
    · intro _
      refine ⟨?_, h2, rfl⟩
      intro i
      show (hammer2_cluster_unlock_loop _ 0 _ w).1.array i = _
      rw [h5 i, if_neg (fun hh => hr hh.1)]

/-- Witness of C13: a locked cluster with one reference, chains in slots 0
and 2 and a hole in slot 1. -/
theorem cluster_unlock_effect_witness :
    (1 : Int) ≤ sample_pair.refs ∧
    ∃ d, hammer2_cluster_unlock sample_h sample_pair hello_world = .ok d ∧
      d.cluster.flags &&& sample_h.HAMMER2_CLUSTER_LOCKED = 0 ∧
      (∀ k, sample_h.HAMMER2_CLUSTER_LOCKED.testBit k = false →
        d.cluster.flags.testBit k = sample_pair.flags.testBit k) ∧
      (∀ c, (d.world.chain c).lockcnt =
        (hello_world.chain c).lockcnt - slotcount sample_pair.array c sample_pair.nchains 0) ∧
      d.world.trace = hello_world.trace ++ unlock_calls sample_pair.array sample_pair.nchains 0 ∧
      d.cluster.refs = sample_pair.refs - 1 ∧
      (sample_pair.refs = 1 →
        (∀ i, i < sample_pair.nchains → d.cluster.array i = none) ∧ d.cluster.focus = none ∧
        d.freed = true) ∧
      (1 < sample_pair.refs →
        (∀ i, d.cluster.array i = sample_pair.array i) ∧ d.cluster.focus = sample_pair.focus ∧
        d.freed = false) :=
  ⟨by decide, cluster_unlock_effect sample_h sample_pair hello_world (by decide)⟩

/-- The example of C13 evaluated for a cluster with two references: the flag
word 5 (INODE bit and LOCKED) becomes 1, `refs` becomes 1, the slots and the
focus stay and both chains are unlocked once. -/
theorem cluster_unlock_two_refs :
    (hammer2_cluster_unlock sample_h (sample_cluster 2 5 (some 0) [some 0, none, some 1])
        hello_world).toOption.map
      (fun d => (d.cluster.flags, d.cluster.refs, d.freed, d.cluster.focus, d.cluster.array 0,
        d.cluster.array 2, (d.world.chain 0).lockcnt, (d.world.chain 1).lockcnt)) =
      some (1, 1, false, some 0, some 0, some 1, -1, -1) := by
  rfl

theorem blocktable_type_unlisted (K : hammer2_h) (t : Nat)
    (h : t ∈ [K.HAMMER2_BREF_TYPE_INDIRECT, K.HAMMER2_BREF_TYPE_FREEMAP_NODE,
      K.HAMMER2_BREF_TYPE_FREEMAP_LEAF, K.HAMMER2_BREF_TYPE_FREEMAP,
      K.HAMMER2_BREF_TYPE_VOLUME]) :
    t ≠ K.HAMMER2_BREF_TYPE_INODE ∧ t ≠ K.HAMMER2_BREF_TYPE_DATA := by
  have h1 := K.bref_types_nodup
  have h2 := K.indirect_unlisted
  simp only [List.nodup_cons, List.mem_cons, not_or, List.mem_singleton, List.not_mem_nil,
    or_false] at h1 h2 h
  rcases h with h | h | h | h | h <;> subst h <;> constructor <;> intro e
  · exact h2.1 e
  · exact h2.2.1 e
  · exact h1.1.2.1 e.symm
  · exact h1.2.1.1 e.symm
  · exact h1.1.2.2.1 e.symm
  · exact h1.2.1.2.1 e.symm
  · exact h1.1.2.2.2.1 e.symm
  · exact h1.2.1.2.2.1 e.symm
  · exact h1.1.2.2.2.2 e.symm
  · exact h1.2.1.2.2.2 e.symm

theorem modsync_loop_alone (K : hammer2_h) (cluster : hammer2_cluster) (f : ChainId) :
    ∀ (n i : Nat) (w : World),
      (∀ j c, i ≤ j → j < i + n → cluster.array j = some c → c = f) →
      hammer2_cluster_modsync_loop K cluster f n i w = .ok w := by
  intro n
  induction n with
  | zero => intro i w _; rfl
  | succ n ih =>
    intro i w h
    rw [hammer2_cluster_modsync_loop]
    cases hs : cluster.array i with
    | none => exact ih (i + 1) w (fun j c h1 h2 => h j c (by omega) (by omega))
    | some c =>
      have hc := h i c (le_refl _) (by omega) hs
      dsimp only
      rw [if_pos hc]
      exact ih (i + 1) w (fun j c h1 h2 => h j c (by omega) (by omega))

theorem modsync_loop_blocktable_halts (K : hammer2_h) (cluster : hammer2_cluster)
    (f : ChainId) :
    ∀ (n i : Nat) (w : World),
      (w.chain f).bref.type ≠ K.HAMMER2_BREF_TYPE_INODE →
      (w.chain f).bref.type ≠ K.HAMMER2_BREF_TYPE_DATA →
      (∃ j c, i ≤ j ∧ j < i + n ∧ cluster.array j = some c ∧ c ≠ f) →
      ∃ e, hammer2_cluster_modsync_loop K cluster f n i w = .error e := by
  intro n
  induction n with
  | zero => rintro i w _ _ ⟨j, c, h1, h2, -⟩; omega
  | succ n ih =>
    rintro i w hi hd ⟨j, c, h1, h2, h3, h4⟩
    have hrest : cluster.array i = none ∨ cluster.array i = some f →
        ∃ j c, i + 1 ≤ j ∧ j < i + 1 + n ∧ cluster.array j = some c ∧ c ≠ f := by
      intro hskip
      refine ⟨j, c, ?_, by omega, h3, h4⟩
      by_contra hlt
      have hji : j = i := by omega
      subst hji
      rcases hskip with hn | hs
      · rw [hn] at h3; cases h3
      · rw [hs] at h3; cases h3; exact h4 rfl
    rw [hammer2_cluster_modsync_loop]
    cases hs : cluster.array i with
    | none => exact ih (i + 1) w hi hd (hrest (Or.inl hs))
    | some d =>
      dsimp only
      by_cases hdf : d = f
      · rw [if_pos hdf]
        exact ih (i + 1) w hi hd (hrest (Or.inr (hdf ▸ hs)))
      · rw [if_neg hdf]
        split
        · exact ⟨_, rfl⟩
        · split
          · exact ⟨_, rfl⟩
          · split <;> exact ⟨_, rfl⟩

/-- C11 (amended): for a cluster whose focus chain is MODIFIED and of a
block-table-bearing type (INDIRECT, FREEMAP_NODE, FREEMAP_LEAF, FREEMAP or
VOLUME), `hammer2_cluster_modsync` halts when some slot below `nchains`
holds a chain other than the focus, and returns with every chain as it was
when no slot does; so whenever it returns, no byte has been copied. -/
theorem cluster_modsync_blocktable (K : hammer2_h) (cluster : hammer2_cluster) (w : World)
    (f : ChainId) (hfocus : cluster.focus = some f)
    (hfmod : (w.chain f).flags &&& K.HAMMER2_CHAIN_MODIFIED ≠ 0)
    (htype : (w.chain f).bref.type ∈ [K.HAMMER2_BREF_TYPE_INDIRECT,
      K.HAMMER2_BREF_TYPE_FREEMAP_NODE, K.HAMMER2_BREF_TYPE_FREEMAP_LEAF,
      K.HAMMER2_BREF_TYPE_FREEMAP, K.HAMMER2_BREF_TYPE_VOLUME]) :
    ((∃ j c, j < cluster.nchains ∧ cluster.array j = some c ∧ c ≠ f) →
      ∃ e, hammer2_cluster_modsync K cluster w = .error e) ∧
    ((∀ j c, j < cluster.nchains → cluster.array j = some c → c = f) →
      hammer2_cluster_modsync K cluster w = .ok w) ∧
    (∀ w', hammer2_cluster_modsync K cluster w = .ok w' → w' = w) := by
  obtain ⟨hi, hd⟩ := blocktable_type_unlisted K _ htype
  have hunf : hammer2_cluster_modsync K cluster w =
      hammer2_cluster_modsync_loop K cluster f cluster.nchains 0 w := by
    unfold hammer2_cluster_modsync
    simp only [hfocus]
    rw [if_neg hfmod]
  have hA : (∃ j c, j < cluster.nchains ∧ cluster.array j = some c ∧ c ≠ f) →
      ∃ e, hammer2_cluster_modsync K cluster w = .error e := by
    rintro ⟨j, c, h1, h2, h3⟩
    rw [hunf]
    exact modsync_loop_blocktable_halts K cluster f _ 0 w hi hd
      ⟨j, c, Nat.zero_le _, by omega, h2, h3⟩
  have hB : (∀ j c, j < cluster.nchains → cluster.array j = some c → c = f) →
      hammer2_cluster_modsync K cluster w = .ok w := by
    intro h
    rw [hunf]
    exact modsync_loop_alone K cluster f _ 0 w (fun j c _ h2 => h j c (by omega))
  refine ⟨hA, hB, ?_⟩
  intro w' hw'
  by_cases hex : ∃ j c, j < cluster.nchains ∧ cluster.array j = some c ∧ c ≠ f
  · obtain ⟨e, he⟩ := hA hex
    rw [he] at hw'
    cases hw'
  · have hall : ∀ j c, j < cluster.nchains → cluster.array j = some c → c = f := by
      intro j c h1 h2
      by_contra hne
      exact hex ⟨j, c, h1, h2, hne⟩
    rw [hB hall] at hw'
    cases hw'
    rfl

/-- Witness of C11 (amended): a cluster of two INDIRECT chains with a hole
between them, focused on chain 0. -/
theorem cluster_modsync_blocktable_witness :
    sample_pair.focus = some 0 ∧
    ((∃ j c, j < sample_pair.nchains ∧ sample_pair.array j = some c ∧ c ≠ 0) →
      ∃ e, hammer2_cluster_modsync sample_h sample_pair indirect_world = .error e) ∧
    ((∀ j c, j < sample_pair.nchains → sample_pair.array j = some c → c = 0) →
      hammer2_cluster_modsync sample_h sample_pair indirect_world = .ok indirect_world) ∧
    (∀ w', hammer2_cluster_modsync sample_h sample_pair indirect_world = .ok w' →
      w' = indirect_world) :=
  ⟨rfl, cluster_modsync_blocktable sample_h sample_pair indirect_world 0 rfl (by decide)
    (by decide)⟩

/-- Counterexample to C11 as stated: on a cluster whose only chain is its
INDIRECT focus (no other non-null chain), `hammer2_cluster_modsync` returns
instead of halting; on the cluster of two INDIRECT chains it halts on the
`panic`. -/
theorem cluster_modsync_blocktable_alone_returns :
    (hammer2_cluster_modsync sample_h (sample_cluster 1 4 (some 0) [some 0])
      indirect_world).toOption.map (fun w' => ((w'.chain 0).data, w'.trace)) =
        some ([1, 2, 3], []) ∧
    (hammer2_cluster_modsync sample_h sample_pair indirect_world).toOption.map
      (fun w' => (w'.chain 0).data) = none ∧
    (match hammer2_cluster_modsync sample_h sample_pair indirect_world with
      | .error e => some e
      | .ok _ => none) = some Halt.fatal := by
  refine ⟨by decide, by decide, by decide⟩

theorem scan_accum_cluster (s : ScanLocals) (k : Nat) :
    (scan_accum s k).cluster = s.cluster ∧ (scan_accum s k).cparent = s.cparent ∧
    (scan_accum s k).world = s.world ∧ (scan_accum s k).null_count = s.null_count := by
  unfold scan_accum
  split <;> exact ⟨rfl, rfl, rfl, rfl⟩

theorem scan_focus_focus (K : hammer2_h) (s : ScanLocals) (i : Nat) (c : ChainId) :
    (scan_focus K s i c).cluster.focus =
      follow_focus s.cparent.focus (s.cparent.array i) (some c) s.cluster.focus ∧
    (scan_focus K s i c).cluster.nchains = s.cluster.nchains := by
  unfold scan_focus follow_focus
  by_cases h1 : s.cluster.focus = none <;> by_cases h2 : s.cparent.focus = s.cparent.array i <;>
    simp [h1, h2]

/-- What one accepted per-chain result does to the locals: the result is
stored in slot `i`, a null result is counted, and the focus follows
`follow_focus`. -/
theorem scan_result_effect (K : hammer2_h) (s s' : ScanLocals) (i : Nat)
    (chain : Option ChainId) (k : Nat) (h : cluster_scan_result K s i chain k = .ok s') :
    s'.cluster.array = Function.update s.cluster.array i chain ∧
    s'.cparent = s.cparent ∧ s'.world = s.world ∧
    s'.cluster.refs = s.cluster.refs ∧ s'.cluster.flags = s.cluster.flags ∧
    s'.null_count = s.null_count + (if chain = none then 1 else 0) ∧
    s'.cluster.focus =
      follow_focus s.cparent.focus (s.cparent.array i) chain s.cluster.focus := by
  unfold cluster_scan_result at h
  cases chain with
  | none =>
    simp only [Except.ok.injEq] at h
    subst h
    obtain ⟨h1, h2, h3, h4⟩ := scan_accum_cluster
      { s with
        cluster := { s.cluster with array := Function.update s.cluster.array i none },
        null_count := s.null_count + 1 } k
    rw [h1, h2, h3, h4]
    exact ⟨rfl, rfl, rfl, rfl, rfl, rfl, rfl⟩
  | some c =>
    simp only at h
    split at h
    · simp only [Except.ok.injEq] at h
      subst h
      obtain ⟨h1, h2, h3, h4⟩ := scan_accum_cluster (scan_focus K
        { s with cluster := { s.cluster with array := Function.update s.cluster.array i (some c) } }
        i c) k
      obtain ⟨-, g2, g3, g4, g5, g6, g7⟩ := scan_focus_frame K
        { s with cluster := { s.cluster with array := Function.update s.cluster.array i (some c) } }
        i c
      obtain ⟨f1, -⟩ := scan_focus_focus K
        { s with cluster := { s.cluster with array := Function.update s.cluster.array i (some c) } }
        i c
      rw [h1, h2, h3, h4]
      exact ⟨g5, g3, g2, g6, g7, by rw [g4]; simp, f1⟩
    · simp at h

theorem lookup_results_append (xs ys : List ChainCall) :
    lookup_results (xs ++ ys) = lookup_results xs ++ lookup_results ys := by
  simp [lookup_results, List.filterMap_append]

theorem present_slots_succ (a : Nat → Option ChainId) (n i : Nat) :
    present_slots a (n + 1) i = (if a i = none then 0 else 1) + present_slots a n (i + 1) := rfl

theorem focus_after_succ (pf : Option ChainId) (parr carr : Nat → Option ChainId) (n i : Nat)
    (f : Option ChainId) :
    focus_after pf parr carr (n + 1) i f =
      focus_after pf parr carr n (i + 1) (follow_focus pf (parr i) (carr i) f) := rfl

theorem focus_after_congr (pf : Option ChainId) (p1 c1 p2 c2 : Nat → Option ChainId) :
    ∀ (n i : Nat) (f : Option ChainId),
      (∀ j, i ≤ j → j < i + n → p1 j = p2 j ∧ c1 j = c2 j) →
      focus_after pf p1 c1 n i f = focus_after pf p2 c2 n i f := by
  intro n
  induction n with
  | zero => intro i f _; rfl
  | succ n ih =>
    intro i f h
    rw [focus_after_succ, focus_after_succ, (h i (le_refl _) (by omega)).1,
      (h i (le_refl _) (by omega)).2]
    exact ih (i + 1) _ (fun j h1 h2 => h j (by omega) (by omega))

/-- The effect of the loop of `hammer2_cluster_lookup`, entered with the
cluster slots from `i` on still NULL: slots outside `[i, i + n)` are not
touched, the focus follows `focus_after`, `null_count` grows by the number
of slots that end up NULL, and one per-chain lookup is logged for each
non-null parent slot. -/
theorem lookup_loop_effect (K : hammer2_h) (chain_lookup : chain_lookup_fn)
    (key_nextp key_beg key_end flags : Nat) :
    ∀ (n i : Nat) (s s' : ScanLocals),
      (∀ k, i ≤ k → s.cluster.array k = none) →
      hammer2_cluster_lookup_loop K chain_lookup key_nextp key_beg key_end flags n i s = .ok s' →
      s'.cparent.focus = s.cparent.focus ∧
      s'.cluster.refs = s.cluster.refs ∧ s'.cluster.flags = s.cluster.flags ∧
      (∀ k, k < i → s'.cluster.array k = s.cluster.array k ∧
        s'.cparent.array k = s.cparent.array k) ∧
      (∀ k, i + n ≤ k → s'.cluster.array k = none) ∧
      s'.cluster.focus =
        focus_after s.cparent.focus s'.cparent.array s'.cluster.array n i s.cluster.focus ∧
      s'.null_count + present_slots s'.cluster.array n i = s.null_count + n ∧
      ∃ rs, lookup_results s'.world.trace = lookup_results s.world.trace ++ rs ∧
        rs.length = present_slots s.cparent.array n i ∧
        ((∀ x ∈ rs, x = none) ↔ present_slots s'.cluster.array n i = 0) := by
  intro n
  induction n with
  | zero =>
    intro i s s' hfresh h
    simp only [hammer2_cluster_lookup_loop, Except.ok.injEq] at h
    subst h
    refine ⟨rfl, rfl, rfl, fun k _ => ⟨rfl, rfl⟩, fun k hk => hfresh k (by omega), rfl, rfl,
      [], by simp, rfl, by simp [present_slots]⟩
  | succ n ih =>
    intro i s s' hfresh h
    rw [hammer2_cluster_lookup_loop] at h
    cases hs : s.cparent.array i with
    | none =>
      simp only [hs] at h
      obtain ⟨h1, h2, h3, h4, h5, h6, h7, rs, r1, r2, r3⟩ := ih (i + 1)
        { s with null_count := s.null_count + 1 } s' (fun k hk => hfresh k (by omega)) h
      have hci : s'.cluster.array i = none := by
        rw [(h4 i (by omega)).1]; exact hfresh i (le_refl _)
      refine ⟨h1, h2, h3, fun k hk => h4 k (by omega), fun k hk => h5 k (by omega), ?_, ?_,
        rs, r1, ?_, ?_⟩
      · rw [focus_after_succ, hci]
        exact h6
      · rw [present_slots_succ, hci]
        simp only [if_true] at h7 ⊢
        omega
      · rw [present_slots_succ, hs]
        simpa using r2
      · rw [present_slots_succ, hci]
        simpa using r3
    | some p =>
      simp only [hs] at h
      split at h
      · simp at h
      · rename_i s2 hres
        obtain ⟨e1, e2, e3, e4, e5, e6, e7⟩ := scan_result_effect K _ _ _ _ _ hres
        simp only at e1 e2 e3 e4 e5 e6 e7
        have hfresh2 : ∀ k, i + 1 ≤ k → s2.cluster.array k = none := by
          intro k hk
          rw [e1, Function.update_noteq (by omega)]
          exact hfresh k (by omega)
        obtain ⟨h1, h2, h3, h4, h5, h6, h7, rs, r1, r2, r3⟩ := ih (i + 1) s2 s' hfresh2 h
        have hci : s'.cluster.array i =
            (chain_lookup s.world.chain p key_nextp key_beg key_end flags).chain := by
          rw [(h4 i (by omega)).1, e1]; simp
        have hpi : s'.cparent.array i =
            (chain_lookup s.world.chain p key_nextp key_beg key_end flags).parent := by
          rw [(h4 i (by omega)).2, e2]; simp
        refine ⟨?_, ?_, ?_, ?_, fun k hk => h5 k (by omega), ?_, ?_,
          (chain_lookup s.world.chain p key_nextp key_beg key_end flags).chain :: rs, ?_, ?_, ?_⟩
        · rw [h1, e2]
        · rw [h2, e4]
        · rw [h3, e5]
        · intro k hk
          obtain ⟨a1, a2⟩ := h4 k (by omega)
          rw [a1, a2, e1, e2]
          exact ⟨Function.update_noteq (by omega) _ _, Function.update_noteq (by omega) _ _⟩
        · rw [focus_after_succ, hci, hpi, h6, e2, e7]
          simp
        · rw [present_slots_succ, hci]
          rw [e6] at h7
          split <;> simp_all <;> omega
        · rw [r1, e3]
          simp [lookup_results_append, lookup_results]
        · rw [present_slots_succ, hs]
          rw [e2] at r2
          simp only [present_slots_update] at r2
          simp [r2]
          omega
        · rw [present_slots_succ, hci]
          constructor
          · intro hall
            have h0 := hall _ (List.mem_cons_self _ _)
            have hrest := r3.1 (fun x hx => hall x (List.mem_cons_of_mem _ hx))
            simp [h0, hrest]
          · intro hz
            have h0 : (chain_lookup s.world.chain p key_nextp key_beg key_end flags).chain =
                none := by
              by_contra hne
              simp [hne] at hz
            have hrest : present_slots s'.cluster.array n (i + 1) = 0 := by
              simp [h0] at hz; exact hz
            intro x hx
            rcases List.mem_cons.1 hx with hx | hx
            · rw [hx]; exact h0
            · exact r3.2 hrest x hx

theorem present_slots_exists (array : Nat → Option ChainId) :
    ∀ (n i : Nat), 0 < present_slots array n i → ∃ j, i ≤ j ∧ j < i + n ∧ array j ≠ none := by
  intro n
  induction n with
  | zero => intro i h; simp [present_slots] at h
  | succ n ih =>
    intro i h
    rw [present_slots_succ] at h
    by_cases hi : array i = none
    · rw [if_pos hi] at h
      obtain ⟨j, h1, h2, h3⟩ := ih (i + 1) (by omega)
      exact ⟨j, by omega, by omega, h3⟩
    · exact ⟨i, le_refl _, by omega, hi⟩

theorem lookup_results_drop_calls (array : Nat → Option ChainId) :
    ∀ (n i : Nat), lookup_results (drop_calls array n i) = [] := by
  intro n
  induction n with
  | zero => intro i; rfl
  | succ n ih =>
    intro i
    simp only [drop_calls]
    cases array i with
    | none => exact ih (i + 1)
    | some c =>
      have := ih (i + 1)
      simp only [lookup_results, List.filterMap_cons] at this ⊢
      exact this

theorem cluster_drop_lookup_results (cluster : hammer2_cluster) (w : World) (d : Dropped)
    (h : hammer2_cluster_drop cluster w = .ok d) :
    lookup_results d.world.trace = lookup_results w.trace := by
  obtain ⟨-, -, -, -, -, -, h7⟩ := drop_loop_effect cluster.nchains 0 cluster w
  unfold hammer2_cluster_drop at h
  by_cases hp : 0 < cluster.refs
  · simp only [hp, if_true] at h
    split at h <;>
    · simp only [Except.ok.injEq] at h
      subst h
      show lookup_results (hammer2_cluster_drop_loop cluster.nchains 0 cluster w).2.trace = _
      rw [h7, lookup_results_append, lookup_results_drop_calls]
      simp
  · simp [hp] at h

/-- C17: when `hammer2_cluster_lookup` returns, it has made one per-chain
lookup for each non-null parent slot below the parent's `nchains`, and it
returns NULL if and only if every one of these lookups found nothing (which
includes a parent without non-null slots and a parent with `nchains = 0`); a
cluster it returns has `refs = 1`, the parent's `nchains` and at least one
non-null slot. -/
theorem cluster_lookup_null_iff (K : hammer2_h) (chain_lookup : chain_lookup_fn)
    (cparent : hammer2_cluster) (key_nextp key_beg key_end flags : Nat) (w : World)
    (r : ScanResult)
    (hret : hammer2_cluster_lookup K chain_lookup cparent key_nextp key_beg key_end flags w
      = .ok r) :
    ∃ rs, lookup_results r.world.trace = lookup_results w.trace ++ rs ∧
      rs.length = present_slots cparent.array cparent.nchains 0 ∧
      (r.cluster = none ↔ ∀ x ∈ rs, x = none) ∧
      ∀ C, r.cluster = some C →
        C.refs = 1 ∧ C.nchains = cparent.nchains ∧
        ∃ k, k < cparent.nchains ∧ C.array k ≠ none := by
  unfold hammer2_cluster_lookup at hret
  simp only at hret
  split at hret
  · simp at hret
  · rename_i s hloop
    obtain ⟨hn, -⟩ := lookup_loop_key_accum K chain_lookup key_nextp key_beg key_end
      flags _ _ _ _ hloop
    obtain ⟨-, h2, -, -, -, -, h7, rs, r1, r2, r3⟩ := lookup_loop_effect K chain_lookup key_nextp
      key_beg key_end flags _ _ _ _ (fun k _ => rfl) hloop
    simp only [scan_locals] at hn h2 h7 r1 r2
    refine ⟨rs, ?_, r2, ?_, ?_⟩
    · unfold cluster_scan_finish at hret
      simp only at hret
      split at hret
      · split at hret
        · simp at hret
        · rename_i d hd
          simp only [Except.ok.injEq] at hret
          subst hret
          show lookup_results d.world.trace = _
          rw [cluster_drop_lookup_results _ _ _ hd, r1]
      · simp only [Except.ok.injEq] at hret
        subst hret
        exact r1
    · unfold cluster_scan_finish at hret
      simp only at hret
      split at hret
      · rename_i hnull
        split at hret
        · simp at hret
        · simp only [Except.ok.injEq] at hret
          subst hret
          simp only [true_iff]
          apply r3.2
          rw [hn] at hnull
          omega
      · rename_i hnull
        simp only [Except.ok.injEq] at hret
        subst hret
        simp only [false_iff, reduceCtorEq]
        intro hall
        have := r3.1 hall
        rw [hn] at hnull
        omega
    · intro C hC
      unfold cluster_scan_finish at hret
      simp only at hret
      split at hret
      · split at hret
        · simp at hret
        · simp only [Except.ok.injEq] at hret
          subst hret
          simp at hC
      · rename_i hnull
        simp only [Except.ok.injEq] at hret
        subst hret
        simp only [Option.some.injEq] at hC
        subst hC
        refine ⟨h2, hn, ?_⟩
        rw [hn] at hnull
        obtain ⟨j, -, hj2, hj3⟩ := present_slots_exists s.cluster.array cparent.nchains 0
          (by omega)
        exact ⟨j, by omega, hj3⟩

/-- Witness of C17: the lookup over the two sample replicas A and B
returns. -/
theorem cluster_lookup_null_iff_witness :
    ∃ r, hammer2_cluster_lookup sample_h (dir_chain_lookup sample_h sample_children)
        sample_parent 0 0 HAMMER2_KEY_MAX 0 sample_world = .ok r ∧
      ∃ rs, lookup_results r.world.trace = lookup_results sample_world.trace ++ rs ∧
        rs.length = present_slots sample_parent.array sample_parent.nchains 0 ∧
        (r.cluster = none ↔ ∀ x ∈ rs, x = none) ∧
        ∀ C, r.cluster = some C →
          C.refs = 1 ∧ C.nchains = sample_parent.nchains ∧
          ∃ k, k < sample_parent.nchains ∧ C.array k ≠ none := by
  refine ⟨_, rfl, ?_⟩
  exact cluster_lookup_null_iff sample_h (dir_chain_lookup sample_h sample_children)
    sample_parent 0 0 HAMMER2_KEY_MAX 0 sample_world _ rfl

/-- The examples of C17 evaluated: a lookup over a key range that holds no
entry (keys 20 to 30), over a parent whose slots are all absent, and over a
parent with `nchains = 0` returns NULL; the lookup over the whole key range
returns a cluster with two non-null slots. -/
theorem cluster_lookup_null_examples :
    (hammer2_cluster_lookup sample_h (dir_chain_lookup sample_h sample_children)
        sample_parent 0 20 30 0 sample_world).toOption.map
      (fun r => (r.cluster.isSome, lookup_results r.world.trace)) = some (false, [none, none]) ∧
    (hammer2_cluster_lookup sample_h (dir_chain_lookup sample_h sample_children)
        (sample_cluster 1 4 none [none, none]) 0 0 HAMMER2_KEY_MAX 0 sample_world).toOption.map
      (fun r => (r.cluster.isSome, lookup_results r.world.trace)) = some (false, []) ∧
    (hammer2_cluster_lookup sample_h (dir_chain_lookup sample_h sample_children)
        (sample_cluster 1 4 none []) 0 0 HAMMER2_KEY_MAX 0 sample_world).toOption.map
      (fun r => (r.cluster.isSome, lookup_results r.world.trace)) = some (false, []) ∧
    (hammer2_cluster_lookup sample_h (dir_chain_lookup sample_h sample_children)
        sample_parent 0 0 HAMMER2_KEY_MAX 0 sample_world).toOption.map
      (fun r => (r.cluster.map (fun C => (C.refs, C.nchains, C.array 0, C.array 1)),
        lookup_results r.world.trace)) =
      some (some (1, 2, some 1, some 11), [some 1, some 11]) := by
  refine ⟨by decide, by decide, by decide, by rfl⟩

theorem focus_after_keep (pf : Option ChainId) (parr carr : Nat → Option ChainId) :
    ∀ (n i : Nat) (f : Option ChainId), f ≠ none →
      (∀ k, i ≤ k → k < i + n → ¬ (carr k ≠ none ∧ parr k = pf)) →
      focus_after pf parr carr n i f = f := by
  intro n
  induction n with
  | zero => intro i f _ _; rfl
  | succ n ih =>
    intro i f hf h
    rw [focus_after_succ]
    have hstep : follow_focus pf (parr i) (carr i) f = f := by
      unfold follow_focus
      cases hc : carr i with
      | none => rfl
      | some c =>
        have hno := h i (le_refl _) (by omega)
        rw [hc] at hno
        have hne : ¬ pf = parr i := fun e => hno ⟨by simp, e.symm⟩
        simp [hne, hf]
    rw [hstep]
    exact ih (i + 1) f hf (fun k h1 h2 => h k (by omega) (by omega))

theorem focus_after_last (pf : Option ChainId) (parr carr : Nat → Option ChainId) :
    ∀ (n i : Nat) (f : Option ChainId) (j : Nat) (c : ChainId),
      i ≤ j → j < i + n → carr j = some c → parr j = pf →
      (∀ k, j < k → k < i + n → ¬ (carr k ≠ none ∧ parr k = pf)) →
      focus_after pf parr carr n i f = some c := by
  intro n
  induction n with
  | zero => intro i f j c h1 h2; omega
  | succ n ih =>
    intro i f j c h1 h2 hc hp hlast
    rw [focus_after_succ]
    by_cases hji : j = i
    · subst hji
      have hstep : follow_focus pf (parr j) (carr j) f = some c := by
        unfold follow_focus
        rw [hc]
        simp [hp]
      rw [hstep]
      exact focus_after_keep pf parr carr n (j + 1) (some c) (by simp)
        (fun k hk1 hk2 => hlast k (by omega) (by omega))
    · exact ih (i + 1) _ j c (by omega) (by omega) hc hp
        (fun k hk1 hk2 => hlast k hk1 (by omega))

theorem focus_after_first (pf : Option ChainId) (parr carr : Nat → Option ChainId) :
    ∀ (n i : Nat) (j : Nat) (c : ChainId),
      i ≤ j → j < i + n → carr j = some c →
      (∀ k, i ≤ k → k < j → carr k = none) →
      (∀ k, i ≤ k → k < i + n → ¬ (carr k ≠ none ∧ parr k = pf)) →
      focus_after pf parr carr n i none = some c := by
  intro n
  induction n with
  | zero => intro i j c h1 h2; omega
  | succ n ih =>
    intro i j c h1 h2 hc hfirst hno
    rw [focus_after_succ]
    by_cases hji : j = i
    · subst hji
      have hstep : follow_focus pf (parr j) (carr j) none = some c := by
        unfold follow_focus
        rw [hc]
        simp
      rw [hstep]
      exact focus_after_keep pf parr carr n (j + 1) (some c) (by simp)
        (fun k hk1 hk2 => hno k (by omega) (by omega))
    · have hstep : follow_focus pf (parr i) (carr i) none = none := by
        unfold follow_focus
        rw [hfirst i (le_refl _) (by omega)]
      rw [hstep]
      exact ih (i + 1) j c (by omega) (by omega) hc
        (fun k hk1 hk2 => hfirst k (by omega) hk2)
        (fun k hk1 hk2 => hno k (by omega) (by omega))

/-- C15 (amended): for a cluster `C` returned by `hammer2_cluster_lookup`,
with the parent slots read as the per-chain lookups left them
(`hammer2_chain_lookup` is handed `&cparent->array[j].chain` and may store
another chain there): if the parent cluster's focus is the chain in parent
slot `j`, slot `j`'s result is non-null and no higher slot is such a slot,
the focus of `C` is slot `j`'s result; if there is no such slot, the focus of
`C` is the result of the lowest-index slot whose result is non-null.  The
parent cluster's focus is not changed. -/
theorem cluster_lookup_focus (K : hammer2_h) (chain_lookup : chain_lookup_fn)
    (cparent : hammer2_cluster) (key_nextp key_beg key_end flags : Nat) (w : World)
    (r : ScanResult) (C : hammer2_cluster)
    (hret : hammer2_cluster_lookup K chain_lookup cparent key_nextp key_beg key_end flags w
      = .ok r)
    (hC : r.cluster = some C) :
    r.cparent.focus = cparent.focus ∧
    (∀ j c, j < cparent.nchains → C.array j = some c → r.cparent.array j = cparent.focus →
      (∀ k, j < k → k < cparent.nchains →
        ¬ (C.array k ≠ none ∧ r.cparent.array k = cparent.focus)) →
      C.focus = some c) ∧
    ((∀ k, k < cparent.nchains → ¬ (C.array k ≠ none ∧ r.cparent.array k = cparent.focus)) →
      ∀ j c, j < cparent.nchains → C.array j = some c → (∀ k, k < j → C.array k = none) →
        C.focus = some c) := by
  unfold hammer2_cluster_lookup at hret
  simp only at hret
  split at hret
  · simp at hret
  · rename_i s hloop
    obtain ⟨h1, -, -, -, -, h6, -⟩ := lookup_loop_effect K chain_lookup key_nextp
      key_beg key_end flags _ _ _ _ (fun k _ => rfl) hloop
    simp only [scan_locals] at h1 h6
    have hfin : r.cparent = s.cparent ∧ C.focus = s.cluster.focus ∧
        C.array = s.cluster.array := by
      unfold cluster_scan_finish at hret
      simp only at hret
      split at hret
      · split at hret
        · simp at hret
        · simp only [Except.ok.injEq] at hret
          subst hret
          simp at hC
      · simp only [Except.ok.injEq] at hret
        subst hret
        simp only [Option.some.injEq] at hC
        subst hC
        exact ⟨rfl, rfl, rfl⟩
    obtain ⟨e1, e2, e3⟩ := hfin
    rw [e1, e2, e3, h6]
    refine ⟨h1, ?_, ?_⟩
    · intro j c hj hc hp hlast
      exact focus_after_last _ _ _ _ 0 none j c (Nat.zero_le _) (by omega) hc hp
        (fun k hk1 hk2 => hlast k hk1 (by omega))
    · intro hno j c hj hc hfirst
      exact focus_after_first _ _ _ _ 0 j c (Nat.zero_le _) (by omega) hc
        (fun k _ hk2 => hfirst k hk2) (fun k _ hk2 => hno k (by omega))

/-- Witness of C15 (amended): the lookup over the two sample replicas A and B
returns a cluster. -/
theorem cluster_lookup_focus_witness :
    ∃ r C, hammer2_cluster_lookup sample_h (dir_chain_lookup sample_h sample_children)
        sample_parent 0 0 HAMMER2_KEY_MAX 0 sample_world = .ok r ∧ r.cluster = some C ∧
      (r.cparent.focus = sample_parent.focus ∧
      (∀ j c, j < sample_parent.nchains → C.array j = some c →
        r.cparent.array j = sample_parent.focus →
        (∀ k, j < k → k < sample_parent.nchains →
          ¬ (C.array k ≠ none ∧ r.cparent.array k = sample_parent.focus)) →
        C.focus = some c) ∧
      ((∀ k, k < sample_parent.nchains →
          ¬ (C.array k ≠ none ∧ r.cparent.array k = sample_parent.focus)) →
        ∀ j c, j < sample_parent.nchains → C.array j = some c →
          (∀ k, k < j → C.array k = none) → C.focus = some c)) := by
  refine ⟨_, _, rfl, rfl, ?_⟩
  exact cluster_lookup_focus sample_h (dir_chain_lookup sample_h sample_children)
    sample_parent 0 0 HAMMER2_KEY_MAX 0 sample_world _ _ rfl rfl

/-- Counterexample to C15 as stated: the parent cluster's focus is chain 200,
the chain in parent slot 1, and slot 1's lookup answers chain 11, but the
lookup has moved slot 1 on to the indirect block 201, so the parent's focus
no longer compares equal to the slot and the returned focus is chain 1, the
result of slot 0.  With a chain layer that leaves the parent slots alone the
returned focus is chain 11. -/
theorem cluster_lookup_focus_rehomed :
    (hammer2_cluster_lookup sample_h
        (rehome_chain_lookup sample_h sample_children_indirect sample_rehome)
        (sample_cluster 1 4 (some 200) [some 100, some 200]) 0 0 HAMMER2_KEY_MAX 0
        sample_world).toOption.map
      (fun r => (r.cluster.map (fun C => (C.focus, C.array 0, C.array 1)),
        r.cparent.focus, r.cparent.array 1)) =
      some (some (some 1, some 1, some 11), some 200, some 201) ∧
    (hammer2_cluster_lookup sample_h (dir_chain_lookup sample_h sample_children)
        (sample_cluster 1 4 (some 200) [some 100, some 200]) 0 0 HAMMER2_KEY_MAX 0
        sample_world).toOption.map
      (fun r => (r.cluster.map (fun C => (C.focus, C.array 0, C.array 1)),
        r.cparent.focus, r.cparent.array 1)) =
      some (some (some 11, some 1, some 11), some 200, some 200) := by
  refine ⟨by rfl, by rfl⟩

theorem next_loop_parent_focus (K : hammer2_h) (chain_next : chain_next_fn)
    (key_nextp key_beg key_end flags : Nat) :
    ∀ (n i : Nat) (s s' : ScanLocals),
      hammer2_cluster_next_loop K chain_next key_nextp key_beg key_end flags n i s = .ok s' →
      s'.cparent.focus = s.cparent.focus ∧ s'.cparent.flags = s.cparent.flags ∧
      s'.cparent.nchains = s.cparent.nchains := by
  intro n
  induction n with
  | zero =>
    intro i s s' h
    simp only [hammer2_cluster_next_loop, Except.ok.injEq] at h
    subst h
    exact ⟨rfl, rfl, rfl⟩
  | succ n ih =>
    intro i s s' h
    rw [hammer2_cluster_next_loop] at h
    cases hc : s.cluster.array i with
    | none =>
      simp only [hc] at h
      have hh := ih _ _ _ h
      exact hh
    | some chain =>
      simp only [hc] at h
      cases hp : s.cparent.array i with
      | none =>
        simp only [hp] at h
        have hh := ih _ _ _ h
        exact hh
      | some parent =>
        simp only [hp] at h
        split at h
        · simp at h
        · rename_i s2 hres
          obtain ⟨-, -, f3⟩ := scan_result_frame K _ _ _ _ _ hres
          obtain ⟨h1, h2, h3⟩ := ih _ _ _ h
          rw [h1, h2, h3, f3]
          exact ⟨rfl, rfl, rfl⟩

/-- The function `hammer2_cluster_next` sets `cparent->focus = NULL` on entry
and never assigns it again: whenever it returns, the parent cluster's focus
is NULL, with its flags as they were. -/
theorem cluster_next_parent_focus_null (K : hammer2_h) (chain_next : chain_next_fn)
    (cparent cluster : hammer2_cluster) (key_nextp key_beg key_end flags : Nat) (w : World)
    (r : ScanResult)
    (hret : hammer2_cluster_next K chain_next cparent cluster key_nextp key_beg key_end flags w
      = .ok r) :
    r.cparent.focus = none ∧ r.cparent.flags = cparent.flags := by
  unfold hammer2_cluster_next at hret
  split at hret
  · simp at hret
  · rename_i s hloop
    obtain ⟨h1, h2, -⟩ := next_loop_parent_focus K chain_next key_nextp key_beg key_end flags
      _ _ _ _ hloop
    have hfin : r.cparent = s.cparent := by
      unfold cluster_scan_finish at hret
      simp only at hret
      split at hret
      · split at hret
        · simp at hret
        · simp only [Except.ok.injEq] at hret
          subst hret
          rfl
      · simp only [Except.ok.injEq] at hret
        subst hret
        rfl
    rw [hfin, h1, h2]
    exact ⟨rfl, rfl⟩

/-- C14 (failing input): `hammer2_cluster_next` on the locked parent cluster
of the sample replicas A and B, focused on A, returns a result cluster and
leaves the parent cluster with the LOCKED flag (4) set, both slots non-null
and a NULL focus. -/
theorem cluster_next_leaves_parent_unfocused :
    (hammer2_cluster_next sample_h (dir_chain_next sample_h sample_children)
        sample_parent (sample_cluster 1 4 (some 1) [some 1, some 11]) 0 0 HAMMER2_KEY_MAX 0
        sample_world).toOption.map
      (fun r => (r.cluster.isSome, r.cparent.flags, r.cparent.array 0, r.cparent.array 1,
        r.cparent.focus)) = some (true, 4, some 100, some 200, none) := by
  rfl

/-- C16 (failing input): the parent cluster's focus on entry is chain 200,
the chain in parent slot 1, and slot 1's iteration answers chain 12, yet the
focus of the cluster `hammer2_cluster_next` returns is chain 2, the result
of slot 0. -/
theorem cluster_next_focus_ignores_parent :
    (hammer2_cluster_next sample_h (dir_chain_next sample_h sample_children)
        (sample_cluster 1 4 (some 200) [some 100, some 200])
        (sample_cluster 1 4 (some 11) [some 1, some 11]) 0 0 HAMMER2_KEY_MAX 0
        sample_world).toOption.map
      (fun r => r.cluster.map (fun C => (C.focus, C.array 0, C.array 1))) =
      some (some (some 2, some 2, some 12)) := by
  rfl

theorem created_slots_append (xs ys : List ChainCall) :
    created_slots (xs ++ ys) = created_slots xs ++ created_slots ys := by
  simp [created_slots, List.filterMap_append]

theorem create_slots_congr (supplied : Bool) (a b : Nat → Option ChainId) :
    ∀ (n i : Nat), (∀ j, i ≤ j → j < i + n → a j = b j) →
      create_slots supplied a n i = create_slots supplied b n i := by
  intro n
  induction n with
  | zero => intro i _; rfl
  | succ n ih =>
    intro i h
    simp only [create_slots]
    rw [h i (le_refl _) (by omega), ih (i + 1) (fun j h1 h2 => h j (by omega) (by omega))]

theorem create_slots_supplied (carr : Nat → Option ChainId) :
    ∀ (n i : Nat), create_slots true carr n i = present_indices carr n i := by
  intro n
  induction n with
  | zero => intro i; rfl
  | succ n ih =>
    intro i
    simp only [create_slots, present_indices, true_and, ih]

theorem create_slots_new (carr : Nat → Option ChainId) :
    ∀ (n i : Nat), create_slots false carr n i = List.range' i n := by
  intro n
  induction n with
  | zero => intro i; rfl
  | succ n ih =>
    intro i
    simp [create_slots, ih, List.range'_succ]

theorem create_focus_array (cparent cluster : hammer2_cluster) (i : Nat) :
    (create_focus cparent cluster i).array = cluster.array := by
  unfold create_focus
  simp only
  split <;> split <;> rfl

/-- The effect of the loop of `hammer2_cluster_create` on the call log and
on the slots: the per-chain create is called for the slots of
`create_slots`, a slot that is skipped keeps what it held, and slots outside
`[i, i + n)` are not touched. -/
theorem create_loop_effect (chain_create : chain_create_fn) (supplied : Bool)
    (key keybits type bytes flags : Nat) :
    ∀ (n i : Nat) (s s' : CreateLocals),
      hammer2_cluster_create_loop chain_create supplied key keybits type bytes flags n i s
        = .ok s' →
      created_slots s'.world.trace =
        created_slots s.world.trace ++ create_slots supplied s.cluster.array n i ∧
      s'.cparent.nchains = s.cparent.nchains ∧
      (∀ k, k < i ∨ i + n ≤ k → s'.cluster.array k = s.cluster.array k) ∧
      (∀ k, i ≤ k → k < i + n → supplied = true → s.cluster.array k = none →
        s'.cluster.array k = none) := by
  intro n
  induction n with
  | zero =>
    intro i s s' h
    simp only [hammer2_cluster_create_loop, Except.ok.injEq] at h
    subst h
    exact ⟨by simp [create_slots], rfl, fun k _ => rfl, fun k h1 h2 => absurd h2 (by omega)⟩
  | succ n ih =>
    intro i s s' h
    rw [hammer2_cluster_create_loop] at h
    by_cases hskip : supplied = true ∧ s.cluster.array i = none
    · rw [if_pos hskip] at h
      obtain ⟨h1, h2, h3, h4⟩ := ih (i + 1) s s' h
      refine ⟨?_, h2, fun k hk => h3 k (by omega), ?_⟩
      · rw [h1]
        simp only [create_slots]
        rw [if_pos hskip]
      · intro k hk1 hk2 hsup hnone
        by_cases hki : k = i
        · subst hki
          rw [h3 k (by omega)]
          exact hnone
        · exact h4 k (by omega) (by omega) hsup hnone
    · rw [if_neg hskip] at h
      simp only at h
      split at h
      · rename_i herr
        obtain ⟨h1, h2, h3, h4⟩ := ih (i + 1) _ s' h
        simp only [create_focus_array] at h1 h2 h3 h4
        have hcongr : ∀ j, i + 1 ≤ j → j < i + 1 + n →
            Function.update s.cluster.array i
              (chain_create s.world.chain (s.cparent.array i) (s.cluster.array i) key keybits
                type bytes flags).chain j = s.cluster.array j :=
          fun j hj _ => update_above _ _ _ j hj
        refine ⟨?_, h2, ?_, ?_⟩
        · rw [h1, create_slots_congr supplied _ _ n (i + 1) hcongr]
          simp only [create_slots]
          rw [if_neg hskip]
          simp [created_slots_append, created_slots]
        · intro k hk
          rw [h3 k (by omega)]
          exact Function.update_noteq (by omega) _ _
        · intro k hk1 hk2 hsup hnone
          have hki : k ≠ i := by
            intro e
            subst e
            exact hskip ⟨hsup, hnone⟩
          apply h4 k (by omega) (by omega) hsup
          rw [Function.update_noteq hki]
          exact hnone
      · simp at h

/-- With no cluster supplied, `hammer2_cluster_create` calls the per-chain
create for every slot below the parent's `nchains`, whether the parent slot
holds a chain or not. -/
theorem cluster_create_new_calls_every_slot (K : hammer2_h) (chain_create : chain_create_fn)
    (pmp : Option Nat) (cparent : hammer2_cluster) (key keybits type bytes flags : Nat)
    (w : World) (r : CreateLocals)
    (hret : hammer2_cluster_create K chain_create pmp cparent none key keybits type bytes flags w
      = .ok r) :
    created_slots r.world.trace = created_slots w.trace ++ List.range' 0 cparent.nchains := by
  unfold hammer2_cluster_create at hret
  simp only at hret
  split at hret
  · simp at hret
  · rename_i s hloop
    obtain ⟨h1, -, -, -⟩ := create_loop_effect chain_create _ key keybits type bytes flags
      _ _ _ _ hloop
    simp only [Except.ok.injEq] at hret
    subst hret
    simp only [Option.isSome_none] at h1
    rw [create_slots_new] at h1
    exact h1

/-- C18 (failing input): with no cluster supplied and a parent cluster whose
slot 0 is absent and whose slot 1 holds chain 200, `hammer2_cluster_create`
calls the per-chain create for slot 0 with a NULL parent pointer, and then
for slot 1; with the sample chain layer slot 0 of the new cluster ends up
holding a chain. -/
theorem cluster_create_calls_absent_parent_slot :
    (hammer2_cluster_create sample_h sample_chain_create none
        (sample_cluster 1 4 (some 200) [none, some 200]) none 7 0 3 3 0
        sample_world).toOption.map
      (fun r => (r.world.trace, r.cluster.array 0, r.cluster.array 1)) =
      some ([ChainCall.create 0 none none (some 1000) 0,
             ChainCall.create 1 (some 200) none (some 1200) 0],
        some 1000, some 1200) := by
  rfl

/-- C19 (amended): when `hammer2_cluster_create` is handed a cluster and
returns, it has called the per-chain create exactly for the slots below the
parent's `nchains` in which the supplied cluster already held a chain, in
ascending order; a slot the supplied cluster held no chain in gets no create
and is still NULL. -/
theorem cluster_create_supplied (K : hammer2_h) (chain_create : chain_create_fn)
    (pmp : Option Nat) (cparent cluster : hammer2_cluster)
    (key keybits type bytes flags : Nat) (w : World) (r : CreateLocals)
    (hret : hammer2_cluster_create K chain_create pmp cparent (some cluster) key keybits type
      bytes flags w = .ok r) :
    created_slots r.world.trace =
      created_slots w.trace ++ present_indices cluster.array cparent.nchains 0 ∧
    (∀ k, k < cparent.nchains → cluster.array k = none → r.cluster.array k = none) := by
  unfold hammer2_cluster_create at hret
  simp only at hret
  split at hret
  · simp at hret
  · rename_i s hloop
    obtain ⟨h1, -, -, h4⟩ := create_loop_effect chain_create _ key keybits type bytes flags
      _ _ _ _ hloop
    simp only [Except.ok.injEq] at hret
    subst hret
    simp only [Option.isSome_some] at h1 h4
    rw [create_slots_supplied] at h1
    exact ⟨h1, fun k hk hnone => h4 k (Nat.zero_le _) (by omega) trivial hnone⟩

/-- Witness of C19 (amended): a supplied cluster holding chain 5 in slot 0
and nothing in slot 1, under the parent cluster of the sample replicas. -/
theorem cluster_create_supplied_witness :
    ∃ r, hammer2_cluster_create sample_h sample_chain_create none sample_parent
        (some (sample_cluster 1 4 none [some 5, none])) 7 0 3 3 0 sample_world = .ok r ∧
      (created_slots r.world.trace = created_slots sample_world.trace ++
          present_indices (sample_cluster 1 4 none [some 5, none]).array sample_parent.nchains 0 ∧
        (∀ k, k < sample_parent.nchains → (sample_cluster 1 4 none [some 5, none]).array k = none →
          r.cluster.array k = none)) := by
  refine ⟨_, rfl, ?_⟩
  exact cluster_create_supplied sample_h sample_chain_create none sample_parent
    (sample_cluster 1 4 none [some 5, none]) 7 0 3 3 0 sample_world _ rfl

/-- Counterexample to C19 as stated: handed a cluster that holds chain 5 in
slot 0 and nothing in slot 1, `hammer2_cluster_create` calls the per-chain
create for slot 0, the slot that already holds a chain, passing chain 5, and
makes no call for slot 1, which stays NULL. -/
theorem cluster_create_supplied_populated_slot :
    (hammer2_cluster_create sample_h sample_chain_create none sample_parent
        (some (sample_cluster 1 4 none [some 5, none])) 7 0 3 3 0
        sample_world).toOption.map
      (fun r => (r.world.trace, r.cluster.array 0, r.cluster.array 1)) =
      some ([ChainCall.create 0 (some 100) (some 5) (some 5) 0], some 5, none) := by
  rfl

theorem delete_loop_calls (chain_delete : chain_delete_fn) (cparent cluster : hammer2_cluster)
    (flags : Nat) (w0 : World)
    (hframe : ∀ heap p c fl x, x ≠ c →
      ((chain_delete heap p c fl) x).parent = (heap x).parent) :
    ∀ (n i : Nat) (w : World),
      (∀ k1 k2 c, i ≤ k1 → k1 < i + n → i ≤ k2 → k2 < i + n →
        cluster.array k1 = some c → cluster.array k2 = some c → k1 = k2) →
      (∀ k c, i ≤ k → k < i + n → cluster.array k = some c →
        (w.chain c).parent = (w0.chain c).parent) →
      (hammer2_cluster_delete_loop chain_delete cparent cluster flags n i w).trace =
        w.trace ++ delete_calls cparent cluster w0.chain n i := by
  intro n
  induction n with
  | zero => intro i w _ _; simp [hammer2_cluster_delete_loop, delete_calls]
  | succ n ih =>
    intro i w hdist hlinks
    have hdist' : ∀ k1 k2 c, i + 1 ≤ k1 → k1 < i + 1 + n → i + 1 ≤ k2 → k2 < i + 1 + n →
        cluster.array k1 = some c → cluster.array k2 = some c → k1 = k2 :=
      fun k1 k2 c a1 a2 a3 a4 => hdist k1 k2 c (by omega) (by omega) (by omega) (by omega)
    rw [hammer2_cluster_delete_loop]
    simp only [delete_calls]
    cases hs : cluster.array i with
    | none =>
      dsimp only
      exact ih (i + 1) w hdist' (fun k c a1 a2 => hlinks k c (by omega) (by omega))
    | some c =>
      dsimp only
      have hc := hlinks i c (le_refl _) (by omega) hs
      simp only [parent_slot]
      rw [hc]
      by_cases hm : (w0.chain c).parent =
          (if i < cparent.nchains then cparent.array i else none)
      · rw [if_neg (not_not.mpr hm), if_pos hm]
        rw [ih (i + 1) _ hdist' ?_]
        · simp
        · intro k x a1 a2 hx
          have hxc : x ≠ c := by
            intro e
            subst e
            have := hdist k i x (by omega) (by omega) (le_refl _) (by omega) hx hs
            omega
          show ((chain_delete w.chain _ c flags) x).parent = _
          rw [hframe _ _ _ _ _ hxc]
          exact hlinks k x (by omega) (by omega) hx
      · rw [if_pos hm, if_neg hm]
        exact ih (i + 1) w hdist' (fun k c a1 a2 => hlinks k c (by omega) (by omega))

/-- C20: for a non-NULL parent cluster, a cluster whose non-null slots hold
pairwise different chains, and a chain layer whose delete leaves the parent
links of the other chains alone, `hammer2_cluster_delete` calls the
per-chain delete for slot `i` exactly when the cluster's slot `i` is
non-null and that chain's parent link equals the parent cluster's slot `i`
(NULL when `i` is not below the parent's `nchains`), in ascending slot
order; a mismatching slot is skipped and the later slots are still
processed.  Both clusters are left as they were. -/
theorem cluster_delete_calls (chain_delete : chain_delete_fn)
    (cparent cluster : hammer2_cluster) (flags : Nat) (w : World)
    (hframe : ∀ heap p c fl x, x ≠ c →
      ((chain_delete heap p c fl) x).parent = (heap x).parent)
    (hdist : ∀ k1 k2 c, k1 < cluster.nchains → k2 < cluster.nchains →
      cluster.array k1 = some c → cluster.array k2 = some c → k1 = k2) :
    (hammer2_cluster_delete chain_delete (some cparent) cluster flags w).2.2.trace =
      w.trace ++ delete_calls cparent cluster w.chain cluster.nchains 0 ∧
    (hammer2_cluster_delete chain_delete (some cparent) cluster flags w).1 = some cparent ∧
    (hammer2_cluster_delete chain_delete (some cparent) cluster flags w).2.1 = cluster := by
  refine ⟨?_, rfl, rfl⟩
  exact delete_loop_calls chain_delete cparent cluster flags w hframe cluster.nchains 0 w
    (fun k1 k2 c _ a2 _ a4 => hdist k1 k2 c (by omega) (by omega)) (fun k c _ _ _ => rfl)

/-- Witness of C20: the parent cluster of the sample replicas and a cluster
holding chain 2, whose parent link (999) differs from parent slot 0, and
chain 11, whose parent link is parent slot 1. -/
theorem cluster_delete_calls_witness :
    (∀ heap p c fl x, x ≠ c →
      ((sample_chain_delete heap p c fl) x).parent = (heap x).parent) ∧
    (∀ k1 k2 c, k1 < (sample_cluster 1 4 (some 2) [some 2, some 11]).nchains →
      k2 < (sample_cluster 1 4 (some 2) [some 2, some 11]).nchains →
      (sample_cluster 1 4 (some 2) [some 2, some 11]).array k1 = some c →
      (sample_cluster 1 4 (some 2) [some 2, some 11]).array k2 = some c → k1 = k2) ∧
    ((hammer2_cluster_delete sample_chain_delete (some sample_parent)
        (sample_cluster 1 4 (some 2) [some 2, some 11]) 0
        { chain := linked_heap, trace := [] }).2.2.trace =
      ([] : List ChainCall) ++ delete_calls sample_parent
        (sample_cluster 1 4 (some 2) [some 2, some 11]) linked_heap
        (sample_cluster 1 4 (some 2) [some 2, some 11]).nchains 0 ∧
    (hammer2_cluster_delete sample_chain_delete (some sample_parent)
        (sample_cluster 1 4 (some 2) [some 2, some 11]) 0
        { chain := linked_heap, trace := [] }).1 = some sample_parent ∧
    (hammer2_cluster_delete sample_chain_delete (some sample_parent)
        (sample_cluster 1 4 (some 2) [some 2, some 11]) 0
        { chain := linked_heap, trace := [] }).2.1 =
      sample_cluster 1 4 (some 2) [some 2, some 11]) := by
  have hframe : ∀ heap p c fl x, x ≠ c →
      ((sample_chain_delete heap p c fl) x).parent = (heap x).parent := by
    intro heap p c fl x hx
    simp [sample_chain_delete, Function.update_noteq hx]
  have hdist : ∀ k1 k2 c, k1 < (sample_cluster 1 4 (some 2) [some 2, some 11]).nchains →
      k2 < (sample_cluster 1 4 (some 2) [some 2, some 11]).nchains →
      (sample_cluster 1 4 (some 2) [some 2, some 11]).array k1 = some c →
      (sample_cluster 1 4 (some 2) [some 2, some 11]).array k2 = some c → k1 = k2 := by
    intro k1 k2 c h1 h2 a1 a2
    have h1' : k1 < 2 := h1
    have h2' : k2 < 2 := h2
    interval_cases k1 <;> interval_cases k2 <;> first | rfl | (cases a1; cases a2)
  exact ⟨hframe, hdist, cluster_delete_calls sample_chain_delete sample_parent
    (sample_cluster 1 4 (some 2) [some 2, some 11]) 0 { chain := linked_heap, trace := [] }
    hframe hdist⟩

/-- The example of C20 evaluated: slot 0 (chain 2, parent link 999 against
parent slot 100) is skipped, slot 1 (chain 11 under chain 200) is deleted;
a slot beyond the parent's `nchains` is compared with NULL. -/
theorem cluster_delete_skips_mismatch :
    (hammer2_cluster_delete sample_chain_delete (some sample_parent)
        (sample_cluster 1 4 (some 2) [some 2, some 11]) 0
        { chain := linked_heap, trace := [] }).2.2.trace =
      [ChainCall.delete (some 200) 11] ∧
    (hammer2_cluster_delete sample_chain_delete (some sample_parent)
        (sample_cluster 1 4 (some 1) [some 1, none, some 7]) 0
        { chain := linked_heap, trace := [] }).2.2.trace =
      [ChainCall.delete (some 100) 1, ChainCall.delete none 7] := by
  refine ⟨by rfl, by rfl⟩

theorem lock_unwind_hole (cluster : hammer2_cluster) :
    ∀ (i : Nat) (w : World) (j : Nat), j < i → cluster.array j = none →
      hammer2_cluster_lock_unwind cluster i w = .error Halt.nullptr := by
  intro i
  induction i with
  | zero => intro w j hj; omega
  | succ i ih =>
    intro w j hj hnone
    rw [hammer2_cluster_lock_unwind]
    cases hs : cluster.array i with
    | none => rfl
    | some tmp =>
      dsimp only
      have hji : j ≠ i := by
        intro e
        rw [e, hs] at hnone
        cases hnone
      exact ih _ j (by omega) hnone

/-- C29 (failing input): a cluster holding chain 0 in slot 0, nothing in
slot 1 and chain 1 in slot 2, where the lock of chain 1 fails with error 35.
The unwinding loop hands the NULL of slot 1 to `hammer2_chain_unlock` and the
kernel stops on the null dereference instead of returning 35.  With chain 2
in slot 1 the call returns 35 after locking 0, 2, trying 1 and unlocking 2
and 0, in that order. -/
theorem cluster_lock_failure_unlocks_hole :
    (match hammer2_cluster_lock sample_h sample_lockerr
        (sample_cluster 1 0 none [some 0, none, some 1]) 0 hello_world with
      | .error e => some e
      | .ok _ => none) = some Halt.nullptr ∧
    (hammer2_cluster_lock sample_h sample_lockerr
        (sample_cluster 1 0 none [some 0, some 2, some 1]) 0 hello_world).toOption.map
      (fun r => (r.1, r.2.2.trace)) =
      some (35, [ChainCall.lock 0 0 0, ChainCall.lock 2 0 0, ChainCall.lock 1 0 35,
        ChainCall.unlock 2, ChainCall.unlock 0]) := by
  refine ⟨by rfl, by rfl⟩

/-- C30 (failing input): under HAMMER2_LOOKUP_NOLOCK (1), `hammer2_cluster_next`
on a parent whose only slot is absent and a cluster holding chain 1 in slot 0
drops chain 1 in the loop, leaves it in the slot, finds every slot null and
hands the cluster to `hammer2_cluster_drop`, which drops chain 1 a second
time: its reference count goes from 1 to -1.  On a parent with a second,
present slot the returned cluster still holds the released chain 1 in
slot 0. -/
theorem cluster_next_releases_stale_slot_twice :
    (hammer2_cluster_next sample_h (dir_chain_next sample_h sample_children)
        (sample_cluster 1 4 none [none]) (sample_cluster 1 0 (some 1) [some 1])
        0 0 HAMMER2_KEY_MAX 1 sample_world).toOption.map
      (fun r => (r.cluster.isSome, r.world.trace, (sample_world.chain 1).refs,
        (r.world.chain 1).refs)) =
      some (false, [ChainCall.drop 1, ChainCall.drop 1], 1, -1) ∧
    (hammer2_cluster_next sample_h (dir_chain_next sample_h sample_children)
        (sample_cluster 1 4 none [none, some 200])
        (sample_cluster 1 0 (some 1) [some 1, some 11])
        0 0 HAMMER2_KEY_MAX 1 sample_world).toOption.map
      (fun r => (r.cluster.map (fun cl => (cl.array 0, cl.array 1)),
        r.world.trace.head?)) =
      some (some (some 1, some 12), some (ChainCall.drop 1)) := by
  refine ⟨by rfl, by rfl⟩

/-- C24: for a cluster with a focus, `hammer2_cluster_bref` returns the focus
chain's bref with `data_off` replaced by `data_off AND
HAMMER2_OFF_MASK_RADIX`: every other field is the focus's, the bits under
the mask are retained, every bit outside the mask is clear, masking the
result again gives the result, and so does the function on a focus that
carries the result as its bref.  The function has no store other than to
`*bref`, so the focus chain keeps its bref. -/
theorem cluster_bref_masks_data_off (K : hammer2_h) (cluster : hammer2_cluster) (w : World)
    (f : ChainId) (hfocus : cluster.focus = some f) :
    ∃ b, hammer2_cluster_bref K cluster w = .ok b ∧
      b.type = (w.chain f).bref.type ∧ b.key = (w.chain f).bref.key ∧
      b.keybits = (w.chain f).bref.keybits ∧ b.methods = (w.chain f).bref.methods ∧
      b.flags = (w.chain f).bref.flags ∧
      b.data_off = (w.chain f).bref.data_off &&& K.HAMMER2_OFF_MASK_RADIX ∧
      (∀ k, b.data_off.testBit k =
        ((w.chain f).bref.data_off.testBit k && K.HAMMER2_OFF_MASK_RADIX.testBit k)) ∧
      b.data_off &&& K.HAMMER2_OFF_MASK_RADIX = b.data_off ∧
      hammer2_cluster_bref K cluster
        { w with chain := Function.update w.chain f { w.chain f with bref := b } } = .ok b := by
  have hidem : ∀ a m : Nat, a &&& m &&& m = a &&& m := by
    intro a m
    apply Nat.eq_of_testBit_eq
    intro k
    simp only [Nat.testBit_land]
    cases a.testBit k <;> cases m.testBit k <;> rfl
  refine ⟨{ (w.chain f).bref with
    data_off := (w.chain f).bref.data_off &&& K.HAMMER2_OFF_MASK_RADIX },
    ?_, rfl, rfl, rfl, rfl, rfl, rfl, ?_, ?_, ?_⟩
  · unfold hammer2_cluster_bref
    rw [hfocus]
  · intro k
    simp only [Nat.testBit_land]
  · exact hidem _ _
  · unfold hammer2_cluster_bref
    rw [hfocus]
    simp only [Function.update_same, hidem]

/-- Witness of C24: the cluster of chains 0 and 1 focused on chain 0, in a
world whose chains have `data_off = 0x1234`. -/
theorem cluster_bref_masks_data_off_witness :
    sample_pair.focus = some 0 ∧
    ∃ b, hammer2_cluster_bref sample_h sample_pair offset_world = .ok b ∧
      b.type = (offset_world.chain 0).bref.type ∧ b.key = (offset_world.chain 0).bref.key ∧
      b.keybits = (offset_world.chain 0).bref.keybits ∧
      b.methods = (offset_world.chain 0).bref.methods ∧
      b.flags = (offset_world.chain 0).bref.flags ∧
      b.data_off = (offset_world.chain 0).bref.data_off &&& sample_h.HAMMER2_OFF_MASK_RADIX ∧
      (∀ k, b.data_off.testBit k =
        ((offset_world.chain 0).bref.data_off.testBit k &&
          sample_h.HAMMER2_OFF_MASK_RADIX.testBit k)) ∧
      b.data_off &&& sample_h.HAMMER2_OFF_MASK_RADIX = b.data_off ∧
      hammer2_cluster_bref sample_h sample_pair
        { offset_world with chain := (Function.update offset_world.chain 0
            { offset_world.chain 0 with bref := b }) } = .ok b :=
  ⟨rfl, cluster_bref_masks_data_off sample_h sample_pair offset_world 0 rfl⟩

/-- The example of C24 evaluated: `data_off = 0x1234` comes back as 0x34
(52), and a cluster without focus is a null dereference. -/
theorem cluster_bref_example :
    (hammer2_cluster_bref sample_h sample_pair offset_world).toOption.map
      (fun b => (b.type, b.data_off)) = some (3, 52) ∧
    (hammer2_cluster_bref sample_h (sample_cluster 1 4 none [some 0])
      offset_world).toOption = none := by
  refine ⟨by decide, by decide⟩

theorem lor_land_disjoint (a m n : Nat) (h : m &&& n = 0) : (a ||| m) &&& n = a &&& n := by
  apply Nat.eq_of_testBit_eq
  intro k
  have hk : (m &&& n).testBit k = false := by rw [h]; exact Nat.zero_testBit k
  simp only [Nat.testBit_land, Nat.testBit_lor] at hk ⊢
  cases ha : a.testBit k <;> cases hm : m.testBit k <;> cases hn : n.testBit k <;> simp_all

theorem clear_bits_land_disjoint (a m n : Nat) (h : m &&& n = 0) :
    clear_bits a m &&& n = a &&& n := by
  apply Nat.eq_of_testBit_eq
  intro k
  have hk : (m &&& n).testBit k = false := by rw [h]; exact Nat.zero_testBit k
  simp only [clear_bits, Nat.testBit_land, Nat.testBit_xor] at hk ⊢
  cases ha : a.testBit k <;> cases hm : m.testBit k <;> cases hn : n.testBit k <;> simp_all

theorem clear_bits_absent (a m : Nat) (h : a &&& m = 0) : clear_bits a m = a := by
  simp [clear_bits, h]

/-- The flag facts of an iteration of `hammer2_syncthr_primary` that finds a
thread handle and STOP clear. -/
theorem primary_iter_running (K : hammer2_h) (thr : hammer2_syncthr) (htd : thr.td ≠ none)
    (hstop : thr.flags &&& K.HAMMER2_SYNCTHR_STOP = 0) :
    (thr.flags &&& K.HAMMER2_SYNCTHR_FREEZE ≠ 0 →
      hammer2_syncthr_primary_iter K thr =
        ({ thr with flags :=
            (clear_bits (thr.flags ||| K.HAMMER2_SYNCTHR_FROZEN) K.HAMMER2_SYNCTHR_FREEZE) },
          IterEnd.frozen)) ∧
    (thr.flags &&& K.HAMMER2_SYNCTHR_FREEZE = 0 → thr.flags &&& K.HAMMER2_SYNCTHR_FROZEN ≠ 0 →
      hammer2_syncthr_primary_iter K thr = (thr, IterEnd.frozen)) ∧
    (thr.flags &&& K.HAMMER2_SYNCTHR_FREEZE = 0 → thr.flags &&& K.HAMMER2_SYNCTHR_FROZEN = 0 →
      hammer2_syncthr_primary_iter K thr =
        ({ thr with flags := clear_bits thr.flags K.HAMMER2_SYNCTHR_REMASTER },
          IterEnd.idle)) := by
  obtain ⟨-, -, hz, -⟩ := K.syncthr_flags_nonzero
  obtain ⟨-, -, -, hfz, -, -⟩ := K.syncthr_flags_disjoint
  have hfz' : K.HAMMER2_SYNCTHR_FROZEN &&& K.HAMMER2_SYNCTHR_FREEZE = 0 := by
    rw [Nat.land_comm]; exact hfz
  refine ⟨?_, ?_, ?_⟩
  · intro hf
    unfold hammer2_syncthr_primary_iter
    rw [if_neg htd, if_neg (not_not.mpr hstop)]
    dsimp only
    rw [if_pos hf]
    have : clear_bits (thr.flags ||| K.HAMMER2_SYNCTHR_FROZEN) K.HAMMER2_SYNCTHR_FREEZE &&&
        K.HAMMER2_SYNCTHR_FROZEN ≠ 0 := by
      rw [clear_bits_land_disjoint _ _ _ hfz, lor_land_self]
      exact hz
    rw [if_pos this]
  · intro hf hfr
    unfold hammer2_syncthr_primary_iter
    rw [if_neg htd, if_neg (not_not.mpr hstop)]
    dsimp only
    rw [if_neg (not_not.mpr hf), if_pos hfr]
  · intro hf hfr
    unfold hammer2_syncthr_primary_iter
    rw [if_neg htd, if_neg (not_not.mpr hstop)]
    dsimp only
    rw [if_neg (not_not.mpr hf), if_neg (not_not.mpr hfr)]
    by_cases hr : thr.flags &&& K.HAMMER2_SYNCTHR_REMASTER = 0
    · rw [if_neg (not_not.mpr hr), clear_bits_absent _ _ hr]
    · rw [if_pos hr]

/-- C28: an iteration of the `hammer2_syncthr_primary` loop that starts with
FROZEN set and STOP clear ends asleep in the frozen branch with FROZEN set
and FREEZE clear; no bit outside FREEZE and FROZEN changes, so REMASTER, the
thread handle and `pmp` are as before, and without a pending FREEZE nothing
changes at all.  For every state: an iteration that changes REMASTER started
with STOP, FREEZE and FROZEN clear; no iteration changes STOP; and FROZEN
set before an iteration is set after it. -/
theorem syncthr_frozen_iteration_idles (K : hammer2_h) (thr : hammer2_syncthr)
    (htd : thr.td ≠ none) (hfrozen : thr.flags &&& K.HAMMER2_SYNCTHR_FROZEN ≠ 0)
    (hstop : thr.flags &&& K.HAMMER2_SYNCTHR_STOP = 0) :
    ((hammer2_syncthr_primary_iter K thr).2 = IterEnd.frozen ∧
      (hammer2_syncthr_primary_iter K thr).1.td = thr.td ∧
      (hammer2_syncthr_primary_iter K thr).1.pmp = thr.pmp ∧
      (hammer2_syncthr_primary_iter K thr).1.flags &&& K.HAMMER2_SYNCTHR_FROZEN ≠ 0 ∧
      (hammer2_syncthr_primary_iter K thr).1.flags &&& K.HAMMER2_SYNCTHR_FREEZE = 0 ∧
      (∀ k, K.HAMMER2_SYNCTHR_FREEZE.testBit k = false →
        K.HAMMER2_SYNCTHR_FROZEN.testBit k = false →
        (hammer2_syncthr_primary_iter K thr).1.flags.testBit k = thr.flags.testBit k) ∧
      (hammer2_syncthr_primary_iter K thr).1.flags &&& K.HAMMER2_SYNCTHR_REMASTER =
        thr.flags &&& K.HAMMER2_SYNCTHR_REMASTER ∧
      (thr.flags &&& K.HAMMER2_SYNCTHR_FREEZE = 0 →
        (hammer2_syncthr_primary_iter K thr).1 = thr)) ∧
    (∀ t : hammer2_syncthr,
      ((hammer2_syncthr_primary_iter K t).1.flags &&& K.HAMMER2_SYNCTHR_REMASTER ≠
          t.flags &&& K.HAMMER2_SYNCTHR_REMASTER →
        t.flags &&& K.HAMMER2_SYNCTHR_STOP = 0 ∧ t.flags &&& K.HAMMER2_SYNCTHR_FREEZE = 0 ∧
        t.flags &&& K.HAMMER2_SYNCTHR_FROZEN = 0) ∧
      (hammer2_syncthr_primary_iter K t).1.flags &&& K.HAMMER2_SYNCTHR_STOP =
        t.flags &&& K.HAMMER2_SYNCTHR_STOP ∧
      (t.flags &&& K.HAMMER2_SYNCTHR_FROZEN ≠ 0 →
        (hammer2_syncthr_primary_iter K t).1.flags &&& K.HAMMER2_SYNCTHR_FROZEN ≠ 0)) := by
  obtain ⟨-, -, hz, -⟩ := K.syncthr_flags_nonzero
  obtain ⟨d1, d2, d3, d4, d5, d6⟩ := K.syncthr_flags_disjoint
  have c1 : K.HAMMER2_SYNCTHR_FREEZE &&& K.HAMMER2_SYNCTHR_STOP = 0 := by
    rw [Nat.land_comm]; exact d1
  have c2 : K.HAMMER2_SYNCTHR_FROZEN &&& K.HAMMER2_SYNCTHR_STOP = 0 := by
    rw [Nat.land_comm]; exact d2
  have c3 : K.HAMMER2_SYNCTHR_REMASTER &&& K.HAMMER2_SYNCTHR_STOP = 0 := by
    rw [Nat.land_comm]; exact d3
  have hgen : ∀ t : hammer2_syncthr,
      ((hammer2_syncthr_primary_iter K t).1.flags &&& K.HAMMER2_SYNCTHR_REMASTER ≠
          t.flags &&& K.HAMMER2_SYNCTHR_REMASTER →
        t.flags &&& K.HAMMER2_SYNCTHR_STOP = 0 ∧ t.flags &&& K.HAMMER2_SYNCTHR_FREEZE = 0 ∧
        t.flags &&& K.HAMMER2_SYNCTHR_FROZEN = 0) ∧
      (hammer2_syncthr_primary_iter K t).1.flags &&& K.HAMMER2_SYNCTHR_STOP =
        t.flags &&& K.HAMMER2_SYNCTHR_STOP ∧
      (t.flags &&& K.HAMMER2_SYNCTHR_FROZEN ≠ 0 →
        (hammer2_syncthr_primary_iter K t).1.flags &&& K.HAMMER2_SYNCTHR_FROZEN ≠ 0) := by
    intro t
    by_cases ht : t.td = none
    · have e : hammer2_syncthr_primary_iter K t = (t, IterEnd.exited) := by
        unfold hammer2_syncthr_primary_iter
        rw [if_pos ht]
      rw [e]
      exact ⟨fun h => absurd rfl h, rfl, fun h => h⟩
    by_cases hs : t.flags &&& K.HAMMER2_SYNCTHR_STOP = 0
    · obtain ⟨p1, p2, p3⟩ := primary_iter_running K t ht hs
      by_cases hf : t.flags &&& K.HAMMER2_SYNCTHR_FREEZE = 0
      · by_cases hfr : t.flags &&& K.HAMMER2_SYNCTHR_FROZEN = 0
        · rw [p3 hf hfr]
          refine ⟨fun _ => ⟨hs, hf, hfr⟩, ?_, fun h => absurd hfr h⟩
          exact clear_bits_land_disjoint _ _ _ c3
        · rw [p2 hf hfr]
          exact ⟨fun h => absurd rfl h, rfl, fun h => h⟩
      · rw [p1 hf]
        refine ⟨fun h => absurd ?_ h, ?_, fun _ => ?_⟩
        · show clear_bits (t.flags ||| K.HAMMER2_SYNCTHR_FROZEN) K.HAMMER2_SYNCTHR_FREEZE &&&
            K.HAMMER2_SYNCTHR_REMASTER = _
          rw [clear_bits_land_disjoint _ _ _ d5, lor_land_disjoint _ _ _ d6]
        · show clear_bits (t.flags ||| K.HAMMER2_SYNCTHR_FROZEN) K.HAMMER2_SYNCTHR_FREEZE &&&
            K.HAMMER2_SYNCTHR_STOP = _
          rw [clear_bits_land_disjoint _ _ _ c1, lor_land_disjoint _ _ _ c2]
        · show clear_bits (t.flags ||| K.HAMMER2_SYNCTHR_FROZEN) K.HAMMER2_SYNCTHR_FREEZE &&&
            K.HAMMER2_SYNCTHR_FROZEN ≠ 0
          rw [clear_bits_land_disjoint _ _ _ d4, lor_land_self]
          exact hz
    · have e : hammer2_syncthr_primary_iter K t = ({ t with td := none }, IterEnd.exited) := by
        unfold hammer2_syncthr_primary_iter
        rw [if_neg ht, if_pos hs]
      rw [e]
      exact ⟨fun h => absurd rfl h, rfl, fun h => h⟩
  refine ⟨?_, hgen⟩
  obtain ⟨p1, p2, -⟩ := primary_iter_running K thr htd hstop
  by_cases hf : thr.flags &&& K.HAMMER2_SYNCTHR_FREEZE = 0
  · rw [p2 hf hfrozen]
    exact ⟨rfl, rfl, rfl, hfrozen, hf, fun _ _ _ => rfl, rfl, fun _ => rfl⟩
  · rw [p1 hf]
    refine ⟨rfl, rfl, rfl, ?_, ?_, ?_, ?_, fun h => absurd h hf⟩
    · show clear_bits (thr.flags ||| K.HAMMER2_SYNCTHR_FROZEN) K.HAMMER2_SYNCTHR_FREEZE &&&
        K.HAMMER2_SYNCTHR_FROZEN ≠ 0
      rw [clear_bits_land_disjoint _ _ _ d4, lor_land_self]
      exact hz
    · exact clear_bits_land _ _
    · intro k h1 h2
      show (clear_bits (thr.flags ||| K.HAMMER2_SYNCTHR_FROZEN)
        K.HAMMER2_SYNCTHR_FREEZE).testBit k = _
      rw [clear_bits_testBit _ _ _ h1, Nat.testBit_lor, h2, Bool.or_false]
    · show clear_bits (thr.flags ||| K.HAMMER2_SYNCTHR_FROZEN) K.HAMMER2_SYNCTHR_FREEZE &&&
        K.HAMMER2_SYNCTHR_REMASTER = _
      rw [clear_bits_land_disjoint _ _ _ d5, lor_land_disjoint _ _ _ d6]

/-- Witness of C28: a running thread with FREEZE, FROZEN and REMASTER set
(flags 14) and STOP clear. -/
theorem syncthr_frozen_iteration_idles_witness :
    (sample_thr 14).td ≠ none ∧ (sample_thr 14).flags &&& sample_h.HAMMER2_SYNCTHR_FROZEN ≠ 0 ∧
    (sample_thr 14).flags &&& sample_h.HAMMER2_SYNCTHR_STOP = 0 ∧
    (hammer2_syncthr_primary_iter sample_h (sample_thr 14)).2 = IterEnd.frozen ∧
    (hammer2_syncthr_primary_iter sample_h (sample_thr 14)).1.flags &&&
      sample_h.HAMMER2_SYNCTHR_REMASTER =
        (sample_thr 14).flags &&& sample_h.HAMMER2_SYNCTHR_REMASTER :=
  ⟨by decide, by decide, by decide,
    (syncthr_frozen_iteration_idles sample_h (sample_thr 14) (by decide) (by decide)
      (by decide)).1.1,
    (syncthr_frozen_iteration_idles sample_h (sample_thr 14) (by decide) (by decide)
      (by decide)).1.2.2.2.2.2.2.1⟩

/-- The examples of C28 evaluated under `sample_h`: frozen with FREEZE and
REMASTER pending (14) the iteration leaves FROZEN and REMASTER (12); frozen
with REMASTER pending (12) it changes nothing; not frozen with REMASTER
pending (8) it clears REMASTER. -/
theorem syncthr_iteration_examples :
    hammer2_syncthr_primary_iter sample_h (sample_thr 14) = (sample_thr 12, IterEnd.frozen) ∧
    hammer2_syncthr_primary_iter sample_h (sample_thr 12) = (sample_thr 12, IterEnd.frozen) ∧
    hammer2_syncthr_primary_iter sample_h (sample_thr 8) = (sample_thr 0, IterEnd.idle) := by
  refine ⟨by decide, by decide, by decide⟩

theorem sync_run_cons (K : hammer2_h) (t : hammer2_syncthr) (e : SyncEvent)
    (es : List SyncEvent) :
    sync_run K t (e :: es) = sync_run K (sync_step K t e) es := rfl

/-- An iteration of the thread or a remaster request, on a running thread
with STOP clear: the handle stays, STOP stays clear, a pending or honoured
freeze stays pending or honoured, and an iteration honours it. -/
theorem sync_quiet_step (K : hammer2_h) (t : hammer2_syncthr) (e : SyncEvent)
    (he : e = SyncEvent.iterate ∨ e = SyncEvent.remaster) (htd : t.td ≠ none)
    (hstop : t.flags &&& K.HAMMER2_SYNCTHR_STOP = 0)
    (hreq : t.flags &&& K.HAMMER2_SYNCTHR_FREEZE ≠ 0 ∨ t.flags &&& K.HAMMER2_SYNCTHR_FROZEN ≠ 0) :
    (sync_step K t e).td = t.td ∧ (sync_step K t e).flags &&& K.HAMMER2_SYNCTHR_STOP = 0 ∧
    ((sync_step K t e).flags &&& K.HAMMER2_SYNCTHR_FREEZE ≠ 0 ∨
      (sync_step K t e).flags &&& K.HAMMER2_SYNCTHR_FROZEN ≠ 0) ∧
    (t.flags &&& K.HAMMER2_SYNCTHR_FREEZE = 0 →
      (sync_step K t e).flags &&& K.HAMMER2_SYNCTHR_FREEZE = 0) ∧
    (e = SyncEvent.iterate →
      (sync_step K t e).flags &&& K.HAMMER2_SYNCTHR_FREEZE = 0 ∧
      (sync_step K t e).flags &&& K.HAMMER2_SYNCTHR_FROZEN ≠ 0) ∧
    ((t.flags &&& K.HAMMER2_SYNCTHR_FROZEN ≠ 0 → t.flags &&& K.HAMMER2_SYNCTHR_FREEZE = 0) →
      (sync_step K t e).flags &&& K.HAMMER2_SYNCTHR_FROZEN ≠ 0 →
      (sync_step K t e).flags &&& K.HAMMER2_SYNCTHR_FREEZE = 0) := by
  obtain ⟨-, -, hz, -⟩ := K.syncthr_flags_nonzero
  obtain ⟨d1, d2, d3, d4, d5, d6⟩ := K.syncthr_flags_disjoint
  have c1 : K.HAMMER2_SYNCTHR_FREEZE &&& K.HAMMER2_SYNCTHR_STOP = 0 := by
    rw [Nat.land_comm]; exact d1
  have c2 : K.HAMMER2_SYNCTHR_FROZEN &&& K.HAMMER2_SYNCTHR_STOP = 0 := by
    rw [Nat.land_comm]; exact d2
  have c3 : K.HAMMER2_SYNCTHR_REMASTER &&& K.HAMMER2_SYNCTHR_STOP = 0 := by
    rw [Nat.land_comm]; exact d3
  have c5 : K.HAMMER2_SYNCTHR_REMASTER &&& K.HAMMER2_SYNCTHR_FREEZE = 0 := by
    rw [Nat.land_comm]; exact d5
  have c6 : K.HAMMER2_SYNCTHR_REMASTER &&& K.HAMMER2_SYNCTHR_FROZEN = 0 := by
    rw [Nat.land_comm]; exact d6
  rcases he with rfl | rfl
  · obtain ⟨p1, p2, p3⟩ := primary_iter_running K t htd hstop
    show (hammer2_syncthr_primary_iter K t).1.td = _ ∧
      (hammer2_syncthr_primary_iter K t).1.flags &&& _ = 0 ∧
      ((hammer2_syncthr_primary_iter K t).1.flags &&& _ ≠ 0 ∨
        (hammer2_syncthr_primary_iter K t).1.flags &&& _ ≠ 0) ∧
      (_ → (hammer2_syncthr_primary_iter K t).1.flags &&& _ = 0) ∧
      (_ → (hammer2_syncthr_primary_iter K t).1.flags &&& _ = 0 ∧
        (hammer2_syncthr_primary_iter K t).1.flags &&& _ ≠ 0) ∧
      (_ → (hammer2_syncthr_primary_iter K t).1.flags &&& _ ≠ 0 →
        (hammer2_syncthr_primary_iter K t).1.flags &&& _ = 0)
    by_cases hf : t.flags &&& K.HAMMER2_SYNCTHR_FREEZE = 0
    · have hfr : t.flags &&& K.HAMMER2_SYNCTHR_FROZEN ≠ 0 := by
        rcases hreq with h | h
        · exact absurd hf h
        · exact h
      rw [p2 hf hfr]
      exact ⟨rfl, hstop, Or.inr hfr, fun _ => hf, fun _ => ⟨hf, hfr⟩, fun _ _ => hf⟩
    · rw [p1 hf]
      have e1 : clear_bits (t.flags ||| K.HAMMER2_SYNCTHR_FROZEN) K.HAMMER2_SYNCTHR_FREEZE &&&
          K.HAMMER2_SYNCTHR_FROZEN ≠ 0 := by
        rw [clear_bits_land_disjoint _ _ _ d4, lor_land_self]
        exact hz
      have e2 : clear_bits (t.flags ||| K.HAMMER2_SYNCTHR_FROZEN) K.HAMMER2_SYNCTHR_FREEZE &&&
          K.HAMMER2_SYNCTHR_STOP = 0 := by
        rw [clear_bits_land_disjoint _ _ _ c1, lor_land_disjoint _ _ _ c2]
        exact hstop
      exact ⟨rfl, e2, Or.inr e1, fun _ => clear_bits_land _ _,
        fun _ => ⟨clear_bits_land _ _, e1⟩, fun _ _ => clear_bits_land _ _⟩
  · have e : sync_step K t SyncEvent.remaster =
        { t with flags := t.flags ||| K.HAMMER2_SYNCTHR_REMASTER } := by
      show hammer2_syncthr_remaster K t = _
      unfold hammer2_syncthr_remaster
      rw [if_neg htd]
    rw [e]
    dsimp only
    rw [lor_land_disjoint _ _ _ c3, lor_land_disjoint _ _ _ c5, lor_land_disjoint _ _ _ c6]
    exact ⟨rfl, hstop, hreq, fun h => h, fun h => (by cases h), fun h => h⟩

theorem sync_run_quiet (K : hammer2_h) :
    ∀ (events : List SyncEvent) (t : hammer2_syncthr),
      (∀ e ∈ events, e = SyncEvent.iterate ∨ e = SyncEvent.remaster) → t.td ≠ none →
      t.flags &&& K.HAMMER2_SYNCTHR_STOP = 0 →
      (t.flags &&& K.HAMMER2_SYNCTHR_FREEZE ≠ 0 ∨ t.flags &&& K.HAMMER2_SYNCTHR_FROZEN ≠ 0) →
      (sync_run K t events).td = t.td ∧
      (sync_run K t events).flags &&& K.HAMMER2_SYNCTHR_STOP = 0 ∧
      ((sync_run K t events).flags &&& K.HAMMER2_SYNCTHR_FREEZE ≠ 0 ∨
        (sync_run K t events).flags &&& K.HAMMER2_SYNCTHR_FROZEN ≠ 0) ∧
      (t.flags &&& K.HAMMER2_SYNCTHR_FREEZE = 0 →
        (sync_run K t events).flags &&& K.HAMMER2_SYNCTHR_FREEZE = 0) ∧
      (SyncEvent.iterate ∈ events →
        (sync_run K t events).flags &&& K.HAMMER2_SYNCTHR_FREEZE = 0) ∧
      ((t.flags &&& K.HAMMER2_SYNCTHR_FROZEN ≠ 0 → t.flags &&& K.HAMMER2_SYNCTHR_FREEZE = 0) →
        (sync_run K t events).flags &&& K.HAMMER2_SYNCTHR_FROZEN ≠ 0 →
        (sync_run K t events).flags &&& K.HAMMER2_SYNCTHR_FREEZE = 0) := by
  intro events
  induction events with
  | nil =>
    intro t _ _ hs hreq
    exact ⟨rfl, hs, hreq, fun h => h, fun h => (by cases h), fun h => h⟩
  | cons e es ih =>
    intro t hq htd hs hreq
    obtain ⟨s1, s2, s3, s4, s5, s6⟩ := sync_quiet_step K t e (hq e (List.mem_cons_self _ _))
      htd hs hreq
    have htd' : (sync_step K t e).td ≠ none := by rw [s1]; exact htd
    obtain ⟨r1, r2, r3, r4, r5, r6⟩ := ih (sync_step K t e)
      (fun x hx => hq x (List.mem_cons_of_mem _ hx)) htd' s2 s3
    rw [sync_run_cons]
    refine ⟨r1.trans s1, r2, r3, fun h => r4 (s4 h), ?_, fun h => r6 (s6 h)⟩
    intro hmem
    rcases List.mem_cons.mp hmem with h | h
    · exact r4 (s5 h.symm).1
    · exact r5 h

theorem freeze_wait_frozen (K : hammer2_h) :
    ∀ (sleeps : List (List SyncEvent)) (t r : hammer2_syncthr),
      hammer2_syncthr_freeze_wait K sleeps t = some r →
      r.flags &&& K.HAMMER2_SYNCTHR_FROZEN ≠ 0 := by
  intro sleeps
  induction sleeps with
  | nil =>
    intro t r h
    rw [hammer2_syncthr_freeze_wait] at h
    split at h
    · rename_i hf
      cases h
      exact hf
    · cases h
  | cons evs rest ih =>
    intro t r h
    rw [hammer2_syncthr_freeze_wait] at h
    split at h
    · rename_i hf
      cases h
      exact hf
    · exact ih _ _ h

theorem freeze_wait_quiet (K : hammer2_h) :
    ∀ (sleeps : List (List SyncEvent)) (t : hammer2_syncthr),
      (∀ evs ∈ sleeps, ∀ e ∈ evs, e = SyncEvent.iterate ∨ e = SyncEvent.remaster) →
      t.td ≠ none → t.flags &&& K.HAMMER2_SYNCTHR_STOP = 0 →
      (t.flags &&& K.HAMMER2_SYNCTHR_FREEZE ≠ 0 ∨ t.flags &&& K.HAMMER2_SYNCTHR_FROZEN ≠ 0) →
      (t.flags &&& K.HAMMER2_SYNCTHR_FROZEN ≠ 0 → t.flags &&& K.HAMMER2_SYNCTHR_FREEZE = 0) →
      (∀ r, hammer2_syncthr_freeze_wait K sleeps t = some r →
        r.td = t.td ∧ r.flags &&& K.HAMMER2_SYNCTHR_STOP = 0 ∧
        r.flags &&& K.HAMMER2_SYNCTHR_FREEZE = 0) ∧
      ((∃ evs ∈ sleeps, SyncEvent.iterate ∈ evs) →
        ∃ r, hammer2_syncthr_freeze_wait K sleeps t = some r) := by
  intro sleeps
  induction sleeps with
  | nil =>
    intro t _ _ hs _ hfz
    constructor
    · intro r h
      rw [hammer2_syncthr_freeze_wait] at h
      split at h
      · rename_i hf
        cases h
        exact ⟨rfl, hs, hfz hf⟩
      · cases h
    · rintro ⟨evs, hmem, -⟩
      cases hmem
  | cons evs rest ih =>
    intro t hq htd hs hreq hfz
    obtain ⟨r1, r2, r3, r4, r5, r6⟩ := sync_run_quiet K evs t (hq evs (List.mem_cons_self _ _))
      htd hs hreq
    have htd' : (sync_run K t evs).td ≠ none := by rw [r1]; exact htd
    by_cases hf : t.flags &&& K.HAMMER2_SYNCTHR_FROZEN ≠ 0
    · have e : hammer2_syncthr_freeze_wait K (evs :: rest) t = some t := by
        rw [hammer2_syncthr_freeze_wait, if_pos hf]
      rw [e]
      refine ⟨?_, fun _ => ⟨t, rfl⟩⟩
      intro r h
      cases h
      exact ⟨rfl, hs, hfz hf⟩
    · have e : hammer2_syncthr_freeze_wait K (evs :: rest) t =
          hammer2_syncthr_freeze_wait K rest (sync_run K t evs) := by
        rw [hammer2_syncthr_freeze_wait, if_neg hf]
      rw [e]
      obtain ⟨i1, i2⟩ := ih (sync_run K t evs) (fun x hx => hq x (List.mem_cons_of_mem _ hx))
        htd' r2 r3 (r6 hfz)
      constructor
      · intro r h
        obtain ⟨a1, a2, a3⟩ := i1 r h
        exact ⟨a1.trans r1, a2, a3⟩
      · rintro ⟨x, hx, hit⟩
        rcases List.mem_cons.mp hx with h | h
        · subst h
          have hfre := r5 hit
          have hfro : (sync_run K t x).flags &&& K.HAMMER2_SYNCTHR_FROZEN ≠ 0 := by
            rcases r3 with h3 | h3
            · exact absurd hfre h3
            · exact h3
          cases rest with
          | nil => exact ⟨_, by rw [hammer2_syncthr_freeze_wait, if_pos hfro]⟩
          | cons y ys => exact ⟨_, by rw [hammer2_syncthr_freeze_wait, if_pos hfro]⟩
        · exact i2 ⟨x, h, hit⟩

/-- Every section other than a freeze request keeps: when FROZEN is set,
FREEZE is clear. -/
theorem sync_step_no_freeze (K : hammer2_h) (t : hammer2_syncthr) (e : SyncEvent)
    (he : e ≠ SyncEvent.freeze_request)
    (hinv : t.flags &&& K.HAMMER2_SYNCTHR_FROZEN ≠ 0 → t.flags &&& K.HAMMER2_SYNCTHR_FREEZE = 0) :
    (sync_step K t e).flags &&& K.HAMMER2_SYNCTHR_FROZEN ≠ 0 →
    (sync_step K t e).flags &&& K.HAMMER2_SYNCTHR_FREEZE = 0 := by
  obtain ⟨d1, d2, d3, d4, d5, d6⟩ := K.syncthr_flags_disjoint
  have c5 : K.HAMMER2_SYNCTHR_REMASTER &&& K.HAMMER2_SYNCTHR_FREEZE = 0 := by
    rw [Nat.land_comm]; exact d5
  have c6 : K.HAMMER2_SYNCTHR_REMASTER &&& K.HAMMER2_SYNCTHR_FROZEN = 0 := by
    rw [Nat.land_comm]; exact d6
  by_cases htd : t.td = none
  · have hsame : sync_step K t e = t := by
      cases e
      · show (hammer2_syncthr_primary_iter K t).1 = t
        unfold hammer2_syncthr_primary_iter
        rw [if_pos htd]
      · show hammer2_syncthr_remaster K t = t
        unfold hammer2_syncthr_remaster
        rw [if_pos htd]
      · show hammer2_syncthr_unfreeze K t = t
        unfold hammer2_syncthr_unfreeze
        rw [if_pos htd]
      · show hammer2_syncthr_freeze_request K t = t
        unfold hammer2_syncthr_freeze_request
        rw [if_pos htd]
      · show hammer2_syncthr_stop_request K t = t
        unfold hammer2_syncthr_stop_request
        rw [if_pos htd]
    rw [hsame]
    exact hinv
  · cases e with
    | iterate =>
      show (hammer2_syncthr_primary_iter K t).1.flags &&& _ ≠ 0 →
        (hammer2_syncthr_primary_iter K t).1.flags &&& _ = 0
      by_cases hs : t.flags &&& K.HAMMER2_SYNCTHR_STOP = 0
      · obtain ⟨p1, p2, p3⟩ := primary_iter_running K t htd hs
        by_cases hf : t.flags &&& K.HAMMER2_SYNCTHR_FREEZE = 0
        · by_cases hfr : t.flags &&& K.HAMMER2_SYNCTHR_FROZEN = 0
          · rw [p3 hf hfr]
            intro _
            show clear_bits t.flags K.HAMMER2_SYNCTHR_REMASTER &&& K.HAMMER2_SYNCTHR_FREEZE = 0
            rw [clear_bits_land_disjoint _ _ _ c5]
            exact hf
          · rw [p2 hf hfr]
            exact hinv
        · rw [p1 hf]
          intro _
          exact clear_bits_land _ _
      · have e1 : hammer2_syncthr_primary_iter K t = ({ t with td := none }, IterEnd.exited) := by
          unfold hammer2_syncthr_primary_iter
          rw [if_neg htd, if_pos hs]
        rw [e1]
        exact hinv
    | remaster =>
      show (hammer2_syncthr_remaster K t).flags &&& _ ≠ 0 →
        (hammer2_syncthr_remaster K t).flags &&& _ = 0
      unfold hammer2_syncthr_remaster
      rw [if_neg htd]
      dsimp only
      rw [lor_land_disjoint _ _ _ c5, lor_land_disjoint _ _ _ c6]
      exact hinv
    | unfreeze =>
      show (hammer2_syncthr_unfreeze K t).flags &&& _ ≠ 0 →
        (hammer2_syncthr_unfreeze K t).flags &&& _ = 0
      unfold hammer2_syncthr_unfreeze
      rw [if_neg htd]
      dsimp only
      intro h
      exact absurd (clear_bits_land _ _) h
    | freeze_request => exact absurd rfl he
    | stop_request =>
      show (hammer2_syncthr_stop_request K t).flags &&& _ ≠ 0 →
        (hammer2_syncthr_stop_request K t).flags &&& _ = 0
      unfold hammer2_syncthr_stop_request
      rw [if_neg htd]
      dsimp only
      rw [lor_land_disjoint _ _ _ d1, lor_land_disjoint _ _ _ d2]
      exact hinv

theorem sync_run_no_freeze (K : hammer2_h) :
    ∀ (events : List SyncEvent) (t : hammer2_syncthr),
      (∀ e ∈ events, e ≠ SyncEvent.freeze_request) →
      (t.flags &&& K.HAMMER2_SYNCTHR_FROZEN ≠ 0 → t.flags &&& K.HAMMER2_SYNCTHR_FREEZE = 0) →
      (sync_run K t events).flags &&& K.HAMMER2_SYNCTHR_FROZEN ≠ 0 →
      (sync_run K t events).flags &&& K.HAMMER2_SYNCTHR_FREEZE = 0 := by
  intro events
  induction events with
  | nil => intro t _ hinv; exact hinv
  | cons e es ih =>
    intro t hq hinv
    rw [sync_run_cons]
    exact ih (sync_step K t e) (fun x hx => hq x (List.mem_cons_of_mem _ hx))
      (sync_step_no_freeze K t e (hq e (List.mem_cons_self _ _)) hinv)

theorem freeze_wait_no_freeze (K : hammer2_h) :
    ∀ (sleeps : List (List SyncEvent)) (t r : hammer2_syncthr),
      (∀ evs ∈ sleeps, ∀ e ∈ evs, e ≠ SyncEvent.freeze_request) →
      (t.flags &&& K.HAMMER2_SYNCTHR_FROZEN ≠ 0 → t.flags &&& K.HAMMER2_SYNCTHR_FREEZE = 0) →
      hammer2_syncthr_freeze_wait K sleeps t = some r →
      r.flags &&& K.HAMMER2_SYNCTHR_FREEZE = 0 := by
  intro sleeps
  induction sleeps with
  | nil =>
    intro t r _ hinv h
    rw [hammer2_syncthr_freeze_wait] at h
    split at h
    · rename_i hf
      cases h
      exact hinv hf
    · cases h
  | cons evs rest ih =>
    intro t r hq hinv h
    rw [hammer2_syncthr_freeze_wait] at h
    split at h
    · rename_i hf
      cases h
      exact hinv hf
    · exact ih _ _ (fun x hx => hq x (List.mem_cons_of_mem _ hx))
        (sync_run_no_freeze K evs t (hq evs (List.mem_cons_self _ _)) hinv) h

/-- C25 (amended): `hammer2_syncthr_freeze` on a running thread returns only
in a state with FROZEN set, whatever runs while it sleeps.  An iteration of
the `hammer2_syncthr_primary` loop on a running thread with STOP clear that
finds FREEZE set leaves FROZEN set and FREEZE clear.  For a running thread
with STOP and FROZEN clear at the call: when no freeze request of another
caller runs while the caller sleeps (iterations, remaster requests,
unfreezes and stop requests may), the freeze returns only with FROZEN set
and FREEZE clear; and when only iterations of the thread and remaster
requests run, the freeze does return as soon as one sleep has seen an
iteration, with STOP clear and the thread handle as before. -/
theorem syncthr_freeze_returns_frozen (K : hammer2_h) (thr : hammer2_syncthr)
    (htd : thr.td ≠ none) (hstop : thr.flags &&& K.HAMMER2_SYNCTHR_STOP = 0)
    (hfrozen : thr.flags &&& K.HAMMER2_SYNCTHR_FROZEN = 0) :
    (∀ (t : hammer2_syncthr) (sleeps : List (List SyncEvent)) (r : hammer2_syncthr),
      t.td ≠ none → hammer2_syncthr_freeze K sleeps t = some r →
      r.flags &&& K.HAMMER2_SYNCTHR_FROZEN ≠ 0) ∧
    (∀ t : hammer2_syncthr, t.td ≠ none → t.flags &&& K.HAMMER2_SYNCTHR_STOP = 0 →
      t.flags &&& K.HAMMER2_SYNCTHR_FREEZE ≠ 0 →
      (hammer2_syncthr_primary_iter K t).1.flags &&& K.HAMMER2_SYNCTHR_FROZEN ≠ 0 ∧
      (hammer2_syncthr_primary_iter K t).1.flags &&& K.HAMMER2_SYNCTHR_FREEZE = 0) ∧
    (∀ sleeps : List (List SyncEvent),
      (∀ evs ∈ sleeps, ∀ e ∈ evs, e ≠ SyncEvent.freeze_request) →
      ∀ r, hammer2_syncthr_freeze K sleeps thr = some r →
        r.flags &&& K.HAMMER2_SYNCTHR_FROZEN ≠ 0 ∧ r.flags &&& K.HAMMER2_SYNCTHR_FREEZE = 0) ∧
    (∀ sleeps : List (List SyncEvent),
      (∀ evs ∈ sleeps, ∀ e ∈ evs, e = SyncEvent.iterate ∨ e = SyncEvent.remaster) →
      (∃ evs ∈ sleeps, SyncEvent.iterate ∈ evs) →
      ∃ r, hammer2_syncthr_freeze K sleeps thr = some r ∧
        r.flags &&& K.HAMMER2_SYNCTHR_FROZEN ≠ 0 ∧ r.flags &&& K.HAMMER2_SYNCTHR_FREEZE = 0 ∧
        r.flags &&& K.HAMMER2_SYNCTHR_STOP = 0 ∧ r.td = thr.td) := by
  obtain ⟨-, hzf, hz, -⟩ := K.syncthr_flags_nonzero
  obtain ⟨d1, d2, d3, d4, d5, d6⟩ := K.syncthr_flags_disjoint
  have c1 : K.HAMMER2_SYNCTHR_FREEZE &&& K.HAMMER2_SYNCTHR_STOP = 0 := by
    rw [Nat.land_comm]; exact d1
  have e : ∀ sleeps, hammer2_syncthr_freeze K sleeps thr = hammer2_syncthr_freeze_wait K sleeps
      { thr with flags := thr.flags ||| K.HAMMER2_SYNCTHR_FREEZE } := by
    intro sleeps
    unfold hammer2_syncthr_freeze hammer2_syncthr_freeze_request
    rw [if_neg htd, if_neg htd]
  have q1 : (thr.flags ||| K.HAMMER2_SYNCTHR_FREEZE) &&& K.HAMMER2_SYNCTHR_STOP = 0 := by
    rw [lor_land_disjoint _ _ _ c1]; exact hstop
  have q2 : (thr.flags ||| K.HAMMER2_SYNCTHR_FREEZE) &&& K.HAMMER2_SYNCTHR_FREEZE ≠ 0 := by
    rw [lor_land_self]; exact hzf
  have q3 : (thr.flags ||| K.HAMMER2_SYNCTHR_FREEZE) &&& K.HAMMER2_SYNCTHR_FROZEN = 0 := by
    rw [lor_land_disjoint _ _ _ d4]; exact hfrozen
  refine ⟨?_, ?_, ?_, ?_⟩
  · intro t sleeps r ht h
    unfold hammer2_syncthr_freeze at h
    rw [if_neg ht] at h
    exact freeze_wait_frozen K _ _ _ h
  · intro t ht hs hf
    rw [(primary_iter_running K t ht hs).1 hf]
    constructor
    · show clear_bits (t.flags ||| K.HAMMER2_SYNCTHR_FROZEN) K.HAMMER2_SYNCTHR_FREEZE &&&
        K.HAMMER2_SYNCTHR_FROZEN ≠ 0
      rw [clear_bits_land_disjoint _ _ _ d4, lor_land_self]
      exact hz
    · exact clear_bits_land _ _
  · intro sleeps hq r h
    rw [e] at h
    exact ⟨freeze_wait_frozen K _ _ _ h,
      freeze_wait_no_freeze K sleeps _ r hq (fun hfz => absurd q3 hfz) h⟩
  · intro sleeps hq hex
    rw [e]
    obtain ⟨i1, i2⟩ := freeze_wait_quiet K sleeps
      { thr with flags := thr.flags ||| K.HAMMER2_SYNCTHR_FREEZE } hq htd q1 (Or.inl q2)
      (fun h => absurd q3 h)
    obtain ⟨r, hr⟩ := i2 hex
    obtain ⟨a1, a2, a3⟩ := i1 r hr
    exact ⟨r, hr, freeze_wait_frozen K _ _ _ hr, a3, a2, a1⟩

/-- Witness of C25 (amended): a running idle thread (flags 0) and a caller
whose first sleep sees a remaster request and whose second sleep sees an
iteration of the thread. -/
theorem syncthr_freeze_returns_frozen_witness :
    (sample_thr 0).td ≠ none ∧ (sample_thr 0).flags &&& sample_h.HAMMER2_SYNCTHR_STOP = 0 ∧
    (sample_thr 0).flags &&& sample_h.HAMMER2_SYNCTHR_FROZEN = 0 ∧
    ∃ r, hammer2_syncthr_freeze sample_h [[SyncEvent.remaster], [SyncEvent.iterate]]
        (sample_thr 0) = some r ∧
      r.flags &&& sample_h.HAMMER2_SYNCTHR_FROZEN ≠ 0 ∧
      r.flags &&& sample_h.HAMMER2_SYNCTHR_FREEZE = 0 ∧
      r.flags &&& sample_h.HAMMER2_SYNCTHR_STOP = 0 ∧ r.td = (sample_thr 0).td :=
  ⟨by decide, by decide, by decide,
    (syncthr_freeze_returns_frozen sample_h (sample_thr 0) (by decide) (by decide)
      (by decide)).2.2.2 [[SyncEvent.remaster], [SyncEvent.iterate]] (by decide) (by decide)⟩

/-- Counterexample to C25 as stated: a freeze issued on a running idle thread
(flags 0) during whose first sleep the thread iterates (FROZEN set, FREEZE
clear: 4) and another caller then makes a freeze request (6).  The first
caller's freeze returns with FROZEN set and FREEZE set. -/
theorem syncthr_freeze_second_request_pending :
    (sample_thr 0).flags &&& sample_h.HAMMER2_SYNCTHR_FROZEN = 0 ∧
    sync_run sample_h (hammer2_syncthr_freeze_request sample_h (sample_thr 0))
      [SyncEvent.iterate] = sample_thr 4 ∧
    hammer2_syncthr_freeze sample_h [[SyncEvent.iterate, SyncEvent.freeze_request]]
      (sample_thr 0) = some (sample_thr 6) ∧
    (sample_thr 6).flags &&& sample_h.HAMMER2_SYNCTHR_FREEZE ≠ 0 := by
  refine ⟨by decide, by decide, by decide, by decide⟩

/-- The examples of C25 evaluated under `sample_h`: the freeze of the witness
returns with FROZEN and REMASTER set (12); a freeze whose sleeps see no
iteration is still waiting; and a freeze on a thread that is already frozen
(4) returns at once with FREEZE still pending (6). -/
theorem syncthr_freeze_examples :
    hammer2_syncthr_freeze sample_h [[SyncEvent.remaster], [SyncEvent.iterate]] (sample_thr 0) =
      some (sample_thr 12) ∧
    hammer2_syncthr_freeze sample_h [[SyncEvent.remaster], []] (sample_thr 0) = none ∧
    hammer2_syncthr_freeze sample_h [] (sample_thr 4) = some (sample_thr 6) := by
  refine ⟨by decide, by decide, by decide⟩

/-- C26 (amended): `hammer2_syncthr_unfreeze` on a running thread clears the
FROZEN bits and leaves every other flag bit, the thread handle and `pmp` as
they were.  The thread's next iteration then depends on the other flags:
with STOP and FREEZE clear it takes the normal path (REMASTER is clear
afterwards, nothing else changes, the handle is the same); with STOP clear
and FREEZE pending it sets FROZEN again and sleeps in the frozen branch; with
STOP set it leaves the loop and clears the handle. -/
theorem syncthr_unfreeze_effect (K : hammer2_h) (thr : hammer2_syncthr) (htd : thr.td ≠ none) :
    (hammer2_syncthr_unfreeze K thr).flags &&& K.HAMMER2_SYNCTHR_FROZEN = 0 ∧
    (∀ k, K.HAMMER2_SYNCTHR_FROZEN.testBit k = false →
      (hammer2_syncthr_unfreeze K thr).flags.testBit k = thr.flags.testBit k) ∧
    (hammer2_syncthr_unfreeze K thr).td = thr.td ∧
    (hammer2_syncthr_unfreeze K thr).pmp = thr.pmp ∧
    (thr.flags &&& K.HAMMER2_SYNCTHR_STOP = 0 → thr.flags &&& K.HAMMER2_SYNCTHR_FREEZE = 0 →
      hammer2_syncthr_primary_iter K (hammer2_syncthr_unfreeze K thr) =
        ({ hammer2_syncthr_unfreeze K thr with
            flags := (clear_bits (hammer2_syncthr_unfreeze K thr).flags
              K.HAMMER2_SYNCTHR_REMASTER) },
          IterEnd.idle)) ∧
    (thr.flags &&& K.HAMMER2_SYNCTHR_STOP = 0 → thr.flags &&& K.HAMMER2_SYNCTHR_FREEZE ≠ 0 →
      (hammer2_syncthr_primary_iter K (hammer2_syncthr_unfreeze K thr)).2 = IterEnd.frozen ∧
      (hammer2_syncthr_primary_iter K (hammer2_syncthr_unfreeze K thr)).1.flags &&&
        K.HAMMER2_SYNCTHR_FROZEN ≠ 0) ∧
    (thr.flags &&& K.HAMMER2_SYNCTHR_STOP ≠ 0 →
      hammer2_syncthr_primary_iter K (hammer2_syncthr_unfreeze K thr) =
        ({ hammer2_syncthr_unfreeze K thr with td := none }, IterEnd.exited)) := by
  obtain ⟨-, -, hz, -⟩ := K.syncthr_flags_nonzero
  obtain ⟨d1, d2, d3, d4, d5, d6⟩ := K.syncthr_flags_disjoint
  have c2 : K.HAMMER2_SYNCTHR_FROZEN &&& K.HAMMER2_SYNCTHR_STOP = 0 := by
    rw [Nat.land_comm]; exact d2
  have c4 : K.HAMMER2_SYNCTHR_FROZEN &&& K.HAMMER2_SYNCTHR_FREEZE = 0 := by
    rw [Nat.land_comm]; exact d4
  have e : hammer2_syncthr_unfreeze K thr =
      { thr with flags := clear_bits thr.flags K.HAMMER2_SYNCTHR_FROZEN } := by
    unfold hammer2_syncthr_unfreeze
    rw [if_neg htd]
  rw [e]
  have hstop' : clear_bits thr.flags K.HAMMER2_SYNCTHR_FROZEN &&& K.HAMMER2_SYNCTHR_STOP =
      thr.flags &&& K.HAMMER2_SYNCTHR_STOP := clear_bits_land_disjoint _ _ _ c2
  have hfreeze' : clear_bits thr.flags K.HAMMER2_SYNCTHR_FROZEN &&& K.HAMMER2_SYNCTHR_FREEZE =
      thr.flags &&& K.HAMMER2_SYNCTHR_FREEZE := clear_bits_land_disjoint _ _ _ c4
  refine ⟨clear_bits_land _ _, fun k hk => clear_bits_testBit _ _ _ hk, rfl, rfl, ?_, ?_, ?_⟩
  · intro hs hf
    exact (primary_iter_running K
      { thr with flags := (clear_bits thr.flags K.HAMMER2_SYNCTHR_FROZEN) } htd
      (hstop'.trans hs)).2.2 (hfreeze'.trans hf)
      (clear_bits_land _ _)
  · intro hs hf
    have hf' : clear_bits thr.flags K.HAMMER2_SYNCTHR_FROZEN &&& K.HAMMER2_SYNCTHR_FREEZE ≠ 0 := by
      rw [hfreeze']; exact hf
    rw [(primary_iter_running K
      { thr with flags := (clear_bits thr.flags K.HAMMER2_SYNCTHR_FROZEN) } htd
      (hstop'.trans hs)).1 hf']
    refine ⟨rfl, ?_⟩
    show clear_bits (clear_bits thr.flags K.HAMMER2_SYNCTHR_FROZEN |||
      K.HAMMER2_SYNCTHR_FROZEN) K.HAMMER2_SYNCTHR_FREEZE &&& K.HAMMER2_SYNCTHR_FROZEN ≠ 0
    rw [clear_bits_land_disjoint _ _ _ d4, lor_land_self]
    exact hz
  · intro hs
    have hs' : clear_bits thr.flags K.HAMMER2_SYNCTHR_FROZEN &&& K.HAMMER2_SYNCTHR_STOP ≠ 0 := by
      rw [hstop']; exact hs
    unfold hammer2_syncthr_primary_iter
    rw [if_neg htd, if_pos hs']

/-- Witness of C26 (amended): a running thread that is frozen with a
remaster request pending (flags 12). -/
theorem syncthr_unfreeze_effect_witness :
    (sample_thr 12).td ≠ none ∧
    (hammer2_syncthr_unfreeze sample_h (sample_thr 12)).flags &&&
      sample_h.HAMMER2_SYNCTHR_FROZEN = 0 ∧
    hammer2_syncthr_primary_iter sample_h (hammer2_syncthr_unfreeze sample_h (sample_thr 12)) =
      ({ hammer2_syncthr_unfreeze sample_h (sample_thr 12) with
          flags := (clear_bits (hammer2_syncthr_unfreeze sample_h (sample_thr 12)).flags
            sample_h.HAMMER2_SYNCTHR_REMASTER) },
        IterEnd.idle) :=
  ⟨by decide,
    (syncthr_unfreeze_effect sample_h (sample_thr 12) (by decide)).1,
    (syncthr_unfreeze_effect sample_h (sample_thr 12) (by decide)).2.2.2.2.1 (by decide)
      (by decide)⟩

/-- Counterexample to C26 as stated: a freeze request on a thread that is
already frozen (flags 4) returns at once and leaves FREEZE pending (6); after
the unfreeze (2) the thread's next iteration sets FROZEN again and sleeps in
the frozen branch (4) instead of taking the normal path.  And an unfreeze
while STOP is set (5) is followed by an iteration that leaves the loop and
clears the thread handle. -/
theorem syncthr_unfreeze_pending_freeze_refreezes :
    hammer2_syncthr_freeze sample_h [] (sample_thr 4) = some (sample_thr 6) ∧
    hammer2_syncthr_unfreeze sample_h (sample_thr 6) = sample_thr 2 ∧
    hammer2_syncthr_primary_iter sample_h (hammer2_syncthr_unfreeze sample_h (sample_thr 6)) =
      (sample_thr 4, IterEnd.frozen) ∧
    hammer2_syncthr_primary_iter sample_h (hammer2_syncthr_unfreeze sample_h (sample_thr 5)) =
      ({ flags := 1, td := none, pmp := some 7 }, IterEnd.exited) := by
  refine ⟨by decide, by decide, by decide, by decide⟩

/-- No event clears STOP; on a structure without thread handle no event
changes anything; and an iteration of a running thread that finds STOP set
clears the handle. -/
theorem sync_step_stopped (K : hammer2_h) (t : hammer2_syncthr) (e : SyncEvent) :
    (t.flags &&& K.HAMMER2_SYNCTHR_STOP ≠ 0 →
      (sync_step K t e).flags &&& K.HAMMER2_SYNCTHR_STOP ≠ 0) ∧
    (t.td = none → sync_step K t e = t) ∧
    (t.flags &&& K.HAMMER2_SYNCTHR_STOP ≠ 0 → e = SyncEvent.iterate →
      (sync_step K t e).td = none) := by
  obtain ⟨hzs, -, -, -⟩ := K.syncthr_flags_nonzero
  obtain ⟨d1, d2, d3, d4, d5, d6⟩ := K.syncthr_flags_disjoint
  have c1 : K.HAMMER2_SYNCTHR_FREEZE &&& K.HAMMER2_SYNCTHR_STOP = 0 := by
    rw [Nat.land_comm]; exact d1
  have c2 : K.HAMMER2_SYNCTHR_FROZEN &&& K.HAMMER2_SYNCTHR_STOP = 0 := by
    rw [Nat.land_comm]; exact d2
  have c3 : K.HAMMER2_SYNCTHR_REMASTER &&& K.HAMMER2_SYNCTHR_STOP = 0 := by
    rw [Nat.land_comm]; exact d3
  by_cases htd : t.td = none
  · have hsame : sync_step K t e = t := by
      cases e
      · show (hammer2_syncthr_primary_iter K t).1 = t
        unfold hammer2_syncthr_primary_iter
        rw [if_pos htd]
      · show hammer2_syncthr_remaster K t = t
        unfold hammer2_syncthr_remaster
        rw [if_pos htd]
      · show hammer2_syncthr_unfreeze K t = t
        unfold hammer2_syncthr_unfreeze
        rw [if_pos htd]
      · show hammer2_syncthr_freeze_request K t = t
        unfold hammer2_syncthr_freeze_request
        rw [if_pos htd]
      · show hammer2_syncthr_stop_request K t = t
        unfold hammer2_syncthr_stop_request
        rw [if_pos htd]
    rw [hsame]
    exact ⟨fun h => h, fun _ => rfl, fun _ _ => htd⟩
  · refine ⟨?_, fun h => absurd h htd, ?_⟩
    · intro hs
      cases e
      · show (hammer2_syncthr_primary_iter K t).1.flags &&& _ ≠ 0
        unfold hammer2_syncthr_primary_iter
        rw [if_neg htd, if_pos hs]
        exact hs
      · show (hammer2_syncthr_remaster K t).flags &&& _ ≠ 0
        unfold hammer2_syncthr_remaster
        rw [if_neg htd]
        dsimp only
        rw [lor_land_disjoint _ _ _ c3]
        exact hs
      · show (hammer2_syncthr_unfreeze K t).flags &&& _ ≠ 0
        unfold hammer2_syncthr_unfreeze
        rw [if_neg htd]
        dsimp only
        rw [clear_bits_land_disjoint _ _ _ c2]
        exact hs
      · show (hammer2_syncthr_freeze_request K t).flags &&& _ ≠ 0
        unfold hammer2_syncthr_freeze_request
        rw [if_neg htd]
        dsimp only
        rw [lor_land_disjoint _ _ _ c1]
        exact hs
      · show (hammer2_syncthr_stop_request K t).flags &&& _ ≠ 0
        unfold hammer2_syncthr_stop_request
        rw [if_neg htd]
        dsimp only
        rw [lor_land_self]
        exact hzs
    · intro hs he
      subst he
      show (hammer2_syncthr_primary_iter K t).1.td = none
      unfold hammer2_syncthr_primary_iter
      rw [if_neg htd, if_pos hs]

theorem sync_run_stopped (K : hammer2_h) :
    ∀ (events : List SyncEvent) (t : hammer2_syncthr),
      t.flags &&& K.HAMMER2_SYNCTHR_STOP ≠ 0 →
      (sync_run K t events).flags &&& K.HAMMER2_SYNCTHR_STOP ≠ 0 ∧
      (t.td = none → sync_run K t events = t) ∧
      (SyncEvent.iterate ∈ events → (sync_run K t events).td = none) := by
  intro events
  induction events with
  | nil =>
    intro t hs
    exact ⟨hs, fun _ => rfl, fun h => (by cases h)⟩
  | cons e es ih =>
    intro t hs
    obtain ⟨s1, s2, s3⟩ := sync_step_stopped K t e
    obtain ⟨r1, r2, r3⟩ := ih (sync_step K t e) (s1 hs)
    rw [sync_run_cons]
    refine ⟨r1, ?_, ?_⟩
    · intro htd
      rw [s2 htd]
      exact (ih t hs).2.1 htd
    · intro hmem
      rcases List.mem_cons.mp hmem with h | h
      · have hnone := s3 hs h.symm
        rw [r2 hnone]
        exact hnone
      · exact r3 h

theorem delete_wait_effect (K : hammer2_h) :
    ∀ (sleeps : List (List SyncEvent)) (t : hammer2_syncthr),
      t.flags &&& K.HAMMER2_SYNCTHR_STOP ≠ 0 →
      (∀ r, hammer2_syncthr_delete_wait K sleeps t = some r →
        r.td = none ∧ r.flags &&& K.HAMMER2_SYNCTHR_STOP ≠ 0) ∧
      ((∃ evs ∈ sleeps, SyncEvent.iterate ∈ evs) →
        ∃ r, hammer2_syncthr_delete_wait K sleeps t = some r) := by
  intro sleeps
  induction sleeps with
  | nil =>
    intro t hs
    constructor
    · intro r h
      rw [hammer2_syncthr_delete_wait] at h
      split at h
      · rename_i htd
        cases h
        exact ⟨htd, hs⟩
      · cases h
    · rintro ⟨evs, hmem, -⟩
      cases hmem
  | cons evs rest ih =>
    intro t hs
    obtain ⟨r1, r2, r3⟩ := sync_run_stopped K evs t hs
    obtain ⟨i1, i2⟩ := ih (sync_run K t evs) r1
    by_cases htd : t.td = none
    · have e : hammer2_syncthr_delete_wait K (evs :: rest) t = some t := by
        rw [hammer2_syncthr_delete_wait, if_pos htd]
      rw [e]
      refine ⟨?_, fun _ => ⟨t, rfl⟩⟩
      intro r h
      cases h
      exact ⟨htd, hs⟩
    · have e : hammer2_syncthr_delete_wait K (evs :: rest) t =
          hammer2_syncthr_delete_wait K rest (sync_run K t evs) := by
        rw [hammer2_syncthr_delete_wait, if_neg htd]
      rw [e]
      refine ⟨i1, ?_⟩
      rintro ⟨x, hx, hit⟩
      rcases List.mem_cons.mp hx with h | h
      · subst h
        have hnone := r3 hit
        cases rest with
        | nil => exact ⟨_, by rw [hammer2_syncthr_delete_wait, if_pos hnone]⟩
        | cons y ys => exact ⟨_, by rw [hammer2_syncthr_delete_wait, if_pos hnone]⟩
      · exact i2 ⟨x, h, hit⟩

/-- C27: `hammer2_syncthr_delete` on a structure whose thread handle is NULL
returns at once, without a sleep, and changes no field.  Whenever a delete on
a running thread returns, whatever ran while it slept, the handle is NULL and
STOP is set, so that a further delete returns at once and changes nothing.
And the delete on a running thread does return once a sleep has seen an
iteration of the thread. -/
theorem syncthr_delete_idempotent (K : hammer2_h) (thr0 thr : hammer2_syncthr)
    (h0 : thr0.td = none) (htd : thr.td ≠ none) :
    (∀ sleeps, hammer2_syncthr_delete K sleeps thr0 = some thr0) ∧
    (∀ sleeps r, hammer2_syncthr_delete K sleeps thr = some r →
      r.td = none ∧ r.flags &&& K.HAMMER2_SYNCTHR_STOP ≠ 0 ∧
      ∀ sleeps2, hammer2_syncthr_delete K sleeps2 r = some r) ∧
    (∀ sleeps, (∃ evs ∈ sleeps, SyncEvent.iterate ∈ evs) →
      ∃ r, hammer2_syncthr_delete K sleeps thr = some r) := by
  obtain ⟨hzs, -, -, -⟩ := K.syncthr_flags_nonzero
  have hnoop : ∀ (t : hammer2_syncthr) sleeps, t.td = none →
      hammer2_syncthr_delete K sleeps t = some t := by
    intro t sleeps ht
    unfold hammer2_syncthr_delete
    rw [if_pos ht]
  have e : ∀ sleeps, hammer2_syncthr_delete K sleeps thr =
      (hammer2_syncthr_delete_wait K sleeps
        { thr with flags := thr.flags ||| K.HAMMER2_SYNCTHR_STOP }).map
        (fun thr1 => { thr1 with pmp := none }) := by
    intro sleeps
    unfold hammer2_syncthr_delete hammer2_syncthr_stop_request
    rw [if_neg htd, if_neg htd]
  have hs : (thr.flags ||| K.HAMMER2_SYNCTHR_STOP) &&& K.HAMMER2_SYNCTHR_STOP ≠ 0 := by
    rw [lor_land_self]; exact hzs
  refine ⟨fun sleeps => hnoop thr0 sleeps h0, ?_, ?_⟩
  · intro sleeps r h
    rw [e] at h
    obtain ⟨i1, -⟩ := delete_wait_effect K sleeps
      { thr with flags := thr.flags ||| K.HAMMER2_SYNCTHR_STOP } hs
    cases hw : hammer2_syncthr_delete_wait K sleeps
        { thr with flags := thr.flags ||| K.HAMMER2_SYNCTHR_STOP } with
    | none => rw [hw] at h; cases h
    | some r1 =>
      rw [hw] at h
      simp only [Option.map_some', Option.some.injEq] at h
      obtain ⟨a1, a2⟩ := i1 r1 hw
      subst h
      exact ⟨a1, a2, fun sleeps2 => hnoop _ sleeps2 a1⟩
  · intro sleeps hex
    rw [e]
    obtain ⟨-, i2⟩ := delete_wait_effect K sleeps
      { thr with flags := thr.flags ||| K.HAMMER2_SYNCTHR_STOP } hs
    obtain ⟨r, hr⟩ := i2 hex
    exact ⟨_, by rw [hr]; rfl⟩

/-- Witness of C27: a structure that was never started, and a running frozen
thread (flags 4) whose deleter sleeps once while the thread iterates. -/
theorem syncthr_delete_idempotent_witness :
    ({ flags := 0, td := none, pmp := none } : hammer2_syncthr).td = none ∧
    (sample_thr 4).td ≠ none ∧
    hammer2_syncthr_delete sample_h [] { flags := 0, td := none, pmp := none } =
      some { flags := 0, td := none, pmp := none } ∧
    ∃ r, hammer2_syncthr_delete sample_h [[SyncEvent.iterate]] (sample_thr 4) = some r ∧
      r.td = none ∧ r.flags &&& sample_h.HAMMER2_SYNCTHR_STOP ≠ 0 ∧
      ∀ sleeps2, hammer2_syncthr_delete sample_h sleeps2 r = some r := by
  refine ⟨rfl, by decide, ?_, _, rfl, ?_⟩
  · exact (syncthr_delete_idempotent sample_h { flags := 0, td := none, pmp := none }
      (sample_thr 4) rfl (by decide)).1 []
  · exact (syncthr_delete_idempotent sample_h { flags := 0, td := none, pmp := none }
      (sample_thr 4) rfl (by decide)).2.1 [[SyncEvent.iterate]] _ rfl

/-- The examples of C27 evaluated under `sample_h`: the delete of a frozen
thread (4) returns with STOP set, no handle and no `pmp`; a second delete
returns the same structure; a deleter whose sleeps see no iteration is still
waiting. -/
theorem syncthr_delete_examples :
    hammer2_syncthr_delete sample_h [[SyncEvent.iterate]] (sample_thr 4) =
      some { flags := 5, td := none, pmp := none } ∧
    hammer2_syncthr_delete sample_h [] { flags := 5, td := none, pmp := none } =
      some { flags := 5, td := none, pmp := none } ∧
    hammer2_syncthr_delete sample_h [[SyncEvent.remaster], []] (sample_thr 4) = none := by
  refine ⟨by decide, by decide, by decide⟩

theorem rename_body_effect (chain_rename : chain_rename_fn) (bref : Option hammer2_blockref)
    (flags i : Nat) (s : RenameLocals)
    (hframe : ∀ heap b p c fl x, x ≠ c →
      ((chain_rename heap b p c fl).heap x).bref = (heap x).bref) :
    (∀ k, (hammer2_cluster_rename_body chain_rename bref flags i s).cluster.array k =
      s.cluster.array k) ∧
    (∀ k, k ≠ i → (hammer2_cluster_rename_body chain_rename bref flags i s).cparent.array k =
      s.cparent.array k) ∧
    (hammer2_cluster_rename_body chain_rename bref flags i s).world.trace =
      s.world.trace ++ (match s.cluster.array i with
        | some c => [ChainCall.rename i
            (bref.map (fun b => { (s.world.chain c).bref with key := b.key, keybits := b.keybits }))
            (s.cparent.array i) c]
        | none => []) ∧
    (∀ x, s.cluster.array i ≠ some x →
      ((hammer2_cluster_rename_body chain_rename bref flags i s).world.chain x).bref =
        (s.world.chain x).bref) := by
  unfold hammer2_cluster_rename_body
  cases hs : s.cluster.array i with
  | none =>
    dsimp only
    refine ⟨fun _ => rfl, ?_, by simp, fun _ _ => rfl⟩
    intro k _
    split <;> rfl
  | some c =>
    dsimp only
    refine ⟨?_, ?_, rfl, ?_⟩
    · intro k
      have : (Function.update s.cluster.array i (some c)) k = s.cluster.array k := by
        by_cases hk : k = i
        · subst hk; rw [Function.update_same, hs]
        · rw [Function.update_noteq hk]
      split <;> exact this
    · intro k hk
      have : (Function.update s.cparent.array i
          (chain_rename s.world.chain (bref.map (fun b =>
            { (s.world.chain c).bref with key := b.key, keybits := b.keybits }))
            (s.cparent.array i) c flags).parent) k = s.cparent.array k :=
        Function.update_noteq hk _ _
      split <;> exact this
    · intro x hx
      have hxc : x ≠ c := fun e => hx (by rw [e])
      exact hframe _ _ _ _ _ _ hxc

theorem rename_loop_effect (chain_rename : chain_rename_fn) (bref : Option hammer2_blockref)
    (flags : Nat) (cparent cluster : hammer2_cluster) (w0 : World)
    (hframe : ∀ heap b p c fl x, x ≠ c →
      ((chain_rename heap b p c fl).heap x).bref = (heap x).bref) :
    ∀ (n i : Nat) (s : RenameLocals),
      (∀ k, s.cluster.array k = cluster.array k) →
      (∀ k, i ≤ k → s.cparent.array k = cparent.array k) →
      (∀ k1 k2 c, i ≤ k1 → k1 < i + n → i ≤ k2 → k2 < i + n →
        cluster.array k1 = some c → cluster.array k2 = some c → k1 = k2) →
      (∀ k c, i ≤ k → k < i + n → cluster.array k = some c →
        (s.world.chain c).bref = (w0.chain c).bref) →
      (hammer2_cluster_rename_loop chain_rename bref flags n i s).world.trace =
        s.world.trace ++ rename_calls bref cparent cluster w0.chain n i ∧
      (∀ k, (hammer2_cluster_rename_loop chain_rename bref flags n i s).cluster.array k =
        cluster.array k) := by
  intro n
  induction n with
  | zero =>
    intro i s hcl _ _ _
    exact ⟨by simp [hammer2_cluster_rename_loop, rename_calls], hcl⟩
  | succ n ih =>
    intro i s hcl hcp hdist hbref
    obtain ⟨b1, b2, b3, b4⟩ := rename_body_effect chain_rename bref flags i s hframe
    rw [hammer2_cluster_rename_loop]
    obtain ⟨t1, t2⟩ := ih (i + 1) (hammer2_cluster_rename_body chain_rename bref flags i s)
      (fun k => (b1 k).trans (hcl k))
      (fun k hk => (b2 k (by omega)).trans (hcp k (by omega)))
      (fun k1 k2 c a1 a2 a3 a4 => hdist k1 k2 c (by omega) (by omega) (by omega) (by omega))
      (by
        intro k c a1 a2 hc
        have hne : s.cluster.array i ≠ some c := by
          intro e
          have := hdist k i c (by omega) (by omega) (le_refl _) (by omega) hc ((hcl i).symm.trans e)
          omega
        rw [b4 c hne]
        exact hbref k c (by omega) (by omega) hc)
    refine ⟨?_, t2⟩
    rw [t1, b3, hcl i, hcp i (le_refl _)]
    simp only [rename_calls]
    cases hs : cluster.array i with
    | none => simp
    | some c =>
      dsimp only
      rw [hbref i c (le_refl _) (by omega) hs]
      simp

/-- C21: `hammer2_cluster_rename` calls the per-chain rename once for each
non-null slot of the cluster below its `nchains`, in ascending slot order,
each time with the address of the parent cluster's slot of the same index;
with a bref, the bref handed on is the chain's own bref with only `key` and
`keybits` replaced by those of the supplied bref, and without a bref none is
handed on; an absent slot causes no call.  The cluster's slots are as
before.  The chain brefs are read in the state before the call, which is what
the loop sees when the non-null slots hold different chains and the rename of
a chain leaves the bref of the other chains alone. -/
theorem cluster_rename_calls (chain_rename : chain_rename_fn) (bref : Option hammer2_blockref)
    (cparent cluster : hammer2_cluster) (flags : Nat) (w : World)
    (hframe : ∀ heap b p c fl x, x ≠ c →
      ((chain_rename heap b p c fl).heap x).bref = (heap x).bref)
    (hdist : ∀ k1 k2 c, k1 < cluster.nchains → k2 < cluster.nchains →
      cluster.array k1 = some c → cluster.array k2 = some c → k1 = k2) :
    (hammer2_cluster_rename chain_rename bref cparent cluster flags w).world.trace =
      w.trace ++ rename_calls bref cparent cluster w.chain cluster.nchains 0 ∧
    (∀ k, (hammer2_cluster_rename chain_rename bref cparent cluster flags w).cluster.array k =
      cluster.array k) := by
  unfold hammer2_cluster_rename
  exact rename_loop_effect chain_rename bref flags cparent cluster w hframe cluster.nchains 0 _
    (fun _ => rfl) (fun _ _ => rfl)
    (fun k1 k2 c _ a2 _ a4 => hdist k1 k2 c (by omega) (by omega)) (fun _ _ _ _ _ => rfl)

/-- Witness of C21: the rename to key 42, keybits 3 of the cluster holding
chain 1 in slot 0, nothing in slot 1 and chain 11 in slot 2, with the sample
chain layer. -/
theorem cluster_rename_calls_witness :
    (∀ heap b p c fl x, x ≠ c →
      ((sample_chain_rename heap b p c fl).heap x).bref = (heap x).bref) ∧
    (∀ k1 k2 c, k1 < (sample_cluster 1 4 (some 1) [some 1, none, some 11]).nchains →
      k2 < (sample_cluster 1 4 (some 1) [some 1, none, some 11]).nchains →
      (sample_cluster 1 4 (some 1) [some 1, none, some 11]).array k1 = some c →
      (sample_cluster 1 4 (some 1) [some 1, none, some 11]).array k2 = some c → k1 = k2) ∧
    (hammer2_cluster_rename sample_chain_rename (some sample_bref)
        (sample_cluster 1 4 (some 100) [some 100, none, some 200])
        (sample_cluster 1 4 (some 1) [some 1, none, some 11]) 0 sample_world).world.trace =
      sample_world.trace ++ rename_calls (some sample_bref)
        (sample_cluster 1 4 (some 100) [some 100, none, some 200])
        (sample_cluster 1 4 (some 1) [some 1, none, some 11]) sample_world.chain
        (sample_cluster 1 4 (some 1) [some 1, none, some 11]).nchains 0 := by
  have hframe : ∀ heap b p c fl x, x ≠ c →
      ((sample_chain_rename heap b p c fl).heap x).bref = (heap x).bref := by
    intro heap b p c fl x hx
    simp [sample_chain_rename, Function.update_noteq hx]
  have hdist : ∀ k1 k2 c,
      k1 < (sample_cluster 1 4 (some 1) [some 1, none, some 11]).nchains →
      k2 < (sample_cluster 1 4 (some 1) [some 1, none, some 11]).nchains →
      (sample_cluster 1 4 (some 1) [some 1, none, some 11]).array k1 = some c →
      (sample_cluster 1 4 (some 1) [some 1, none, some 11]).array k2 = some c → k1 = k2 := by
    intro k1 k2 c h1 h2 a1 a2
    have h1' : k1 < 3 := h1
    have h2' : k2 < 3 := h2
    interval_cases k1 <;> interval_cases k2 <;> first | rfl | (cases a1; cases a2) | cases a1
  exact ⟨hframe, hdist, (cluster_rename_calls sample_chain_rename (some sample_bref)
    (sample_cluster 1 4 (some 100) [some 100, none, some 200])
    (sample_cluster 1 4 (some 1) [some 1, none, some 11]) 0 sample_world hframe hdist).1⟩

/-- The example of C21 evaluated: chain 1 (a data chain, type 3, of key 1) is
renamed under parent slot 0 with its own bref carrying key 42 and keybits 3,
slot 1 causes no call, chain 11 is renamed under parent slot 2; without a
bref the two calls hand on no bref. -/
theorem cluster_rename_example :
    (hammer2_cluster_rename sample_chain_rename (some sample_bref)
        (sample_cluster 1 4 (some 100) [some 100, none, some 200])
        (sample_cluster 1 4 (some 1) [some 1, none, some 11]) 0 sample_world).world.trace =
      [ChainCall.rename 0 (some
          { type := 3, key := 42, keybits := 3, data_off := 0, methods := 0, flags := 0 }) (some 100) 1,
        ChainCall.rename 2 (some
          { type := 3, key := 42, keybits := 3, data_off := 0, methods := 0, flags := 0 }) (some 200) 11] ∧
    (hammer2_cluster_rename sample_chain_rename none
        (sample_cluster 1 4 (some 100) [some 100, none, some 200])
        (sample_cluster 1 4 (some 1) [some 1, none, some 11]) 0 sample_world).world.trace =
      [ChainCall.rename 0 none (some 100) 1, ChainCall.rename 2 none (some 200) 11] := by
  refine ⟨by rfl, by rfl⟩

theorem chain_ref_counts (w : World) (c x : ChainId) :
    ((hammer2_chain_ref w c).chain x).refs = (w.chain x).refs + (if x = c then 1 else 0) ∧
    ((hammer2_chain_ref w c).chain x).lockcnt = (w.chain x).lockcnt ∧
    ((hammer2_chain_ref w c).chain x).parent = (w.chain x).parent := by
  unfold hammer2_chain_ref
  by_cases h : x = c
  · subst h; simp
  · simp [Function.update_noteq h, h]

theorem chain_drop_counts (w : World) (c x : ChainId) :
    ((hammer2_chain_drop w c).chain x).refs = (w.chain x).refs - (if x = c then 1 else 0) ∧
    ((hammer2_chain_drop w c).chain x).lockcnt = (w.chain x).lockcnt ∧
    ((hammer2_chain_drop w c).chain x).parent = (w.chain x).parent := by
  unfold hammer2_chain_drop
  by_cases h : x = c
  · subst h; simp
  · simp [Function.update_noteq h, h]

theorem chain_unlock_counts (w : World) (c x : ChainId) :
    ((hammer2_chain_unlock w c).chain x).refs = (w.chain x).refs ∧
    ((hammer2_chain_unlock w c).chain x).lockcnt =
      (w.chain x).lockcnt - (if x = c then 1 else 0) ∧
    ((hammer2_chain_unlock w c).chain x).parent = (w.chain x).parent := by
  unfold hammer2_chain_unlock
  by_cases h : x = c
  · subst h; simp
  · simp [Function.update_noteq h, h]

theorem chain_lock_counts (lockerr : World → ChainId → Nat → Nat)
    (hlock : ∀ w c how, lockerr w c how = 0) (w : World) (c : ChainId) (how : Nat)
    (x : ChainId) :
    ((hammer2_chain_lock lockerr w c how).2.chain x).refs = (w.chain x).refs ∧
    ((hammer2_chain_lock lockerr w c how).2.chain x).lockcnt =
      (w.chain x).lockcnt + (if x = c then 1 else 0) ∧
    ((hammer2_chain_lock lockerr w c how).2.chain x).parent = (w.chain x).parent := by
  unfold hammer2_chain_lock
  simp only [hlock, if_true]
  by_cases h : x = c
  · subst h; simp
  · simp [Function.update_noteq h, h]

theorem copy_loop_effect (ocluster : hammer2_cluster) :
    ∀ (n i : Nat) (nc : hammer2_cluster) (w : World),
      (∀ k, i ≤ k → k < i + n →
        (hammer2_cluster_copy_loop ocluster n i nc w).1.array k = ocluster.array k) ∧
      (∀ k, k < i → (hammer2_cluster_copy_loop ocluster n i nc w).1.array k = nc.array k) ∧
      (hammer2_cluster_copy_loop ocluster n i nc w).1.refs = nc.refs ∧
      (hammer2_cluster_copy_loop ocluster n i nc w).1.flags = nc.flags ∧
      (hammer2_cluster_copy_loop ocluster n i nc w).1.nchains = nc.nchains ∧
      (hammer2_cluster_copy_loop ocluster n i nc w).1.focus = nc.focus ∧
      (∀ x, ((hammer2_cluster_copy_loop ocluster n i nc w).2.chain x).refs =
          (w.chain x).refs + slotcount ocluster.array x n i ∧
        ((hammer2_cluster_copy_loop ocluster n i nc w).2.chain x).lockcnt =
          (w.chain x).lockcnt ∧
        ((hammer2_cluster_copy_loop ocluster n i nc w).2.chain x).parent =
          (w.chain x).parent) := by
  intro n
  induction n with
  | zero =>
    intro i nc w
    exact ⟨fun k h1 h2 => (by omega), fun _ _ => rfl, rfl, rfl, rfl, rfl,
      fun x => ⟨(by simp [hammer2_cluster_copy_loop, slotcount]), rfl, rfl⟩⟩
  | succ n ih =>
    intro i nc w
    rw [hammer2_cluster_copy_loop]
    cases hs : ocluster.array i with
    | none =>
      dsimp only
      obtain ⟨h1, h2, h3, h4, h5, h6, h7⟩ := ih (i + 1)
        { nc with array := Function.update nc.array i none } w
      refine ⟨?_, ?_, h3, h4, h5, h6, ?_⟩
      · intro k a1 a2
        by_cases hk : k = i
        · subst hk
          rw [h2 k (by omega)]
          simp [hs]
        · exact h1 k (by omega) (by omega)
      · intro k hk
        rw [h2 k (by omega)]
        exact Function.update_noteq (by omega) _ _
      · intro x
        obtain ⟨a, b, c⟩ := h7 x
        refine ⟨?_, b, c⟩
        rw [a]
        simp [slotcount, hs]
    | some d =>
      dsimp only
      obtain ⟨h1, h2, h3, h4, h5, h6, h7⟩ := ih (i + 1)
        { nc with array := Function.update nc.array i (some d) } (hammer2_chain_ref w d)
      refine ⟨?_, ?_, h3, h4, h5, h6, ?_⟩
      · intro k a1 a2
        by_cases hk : k = i
        · subst hk
          rw [h2 k (by omega)]
          simp [hs]
        · exact h1 k (by omega) (by omega)
      · intro k hk
        rw [h2 k (by omega)]
        exact Function.update_noteq (by omega) _ _
      · intro x
        obtain ⟨a, b, c⟩ := h7 x
        obtain ⟨a', b', c'⟩ := chain_ref_counts w d x
        refine ⟨?_, b.trans b', c.trans c'⟩
        rw [a, a']
        simp only [slotcount, hs, Option.some.injEq]
        by_cases hx : x = d
        · subst hx; simp; ring
        · have hx' : ¬ d = x := fun e => hx e.symm
          simp [hx, hx']

theorem parent_retry_effect (lockerr : World → ChainId → Nat → Nat)
    (hlock : ∀ w c how, lockerr w c how = 0) (how : Nat) (chain : ChainId) (fuel : Nat)
    (w : World) :
    ∃ w', hammer2_cluster_parent_retry lockerr how chain (fuel + 1) w =
        some ((w.chain chain).parent, w') ∧
      ∀ x, (w'.chain x).refs = (w.chain x).refs ∧
        (w'.chain x).lockcnt =
          (w.chain x).lockcnt + (if (w.chain chain).parent = some x then 1 else 0) ∧
        (w'.chain x).parent = (w.chain x).parent := by
  rw [hammer2_cluster_parent_retry]
  cases hp : (w.chain chain).parent with
  | none =>
    dsimp only
    exact ⟨w, rfl, fun x => ⟨rfl, by simp, rfl⟩⟩
  | some p =>
    dsimp only
    have key : ∀ x,
        ((hammer2_chain_drop (hammer2_chain_lock lockerr (hammer2_chain_lock lockerr
          (hammer2_chain_unlock (hammer2_chain_ref w p) chain) p how).2 chain how).2 p).chain
            x).refs = (w.chain x).refs ∧
        ((hammer2_chain_drop (hammer2_chain_lock lockerr (hammer2_chain_lock lockerr
          (hammer2_chain_unlock (hammer2_chain_ref w p) chain) p how).2 chain how).2 p).chain
            x).lockcnt = (w.chain x).lockcnt + (if x = p then 1 else 0) ∧
        ((hammer2_chain_drop (hammer2_chain_lock lockerr (hammer2_chain_lock lockerr
          (hammer2_chain_unlock (hammer2_chain_ref w p) chain) p how).2 chain how).2 p).chain
            x).parent = (w.chain x).parent := by
      intro x
      obtain ⟨a1, b1, c1⟩ := chain_ref_counts w p x
      obtain ⟨a2, b2, c2⟩ := chain_unlock_counts (hammer2_chain_ref w p) chain x
      obtain ⟨a3, b3, c3⟩ := chain_lock_counts lockerr hlock
        (hammer2_chain_unlock (hammer2_chain_ref w p) chain) p how x
      obtain ⟨a4, b4, c4⟩ := chain_lock_counts lockerr hlock
        (hammer2_chain_lock lockerr (hammer2_chain_unlock (hammer2_chain_ref w p) chain)
          p how).2 chain how x
      obtain ⟨a5, b5, c5⟩ := chain_drop_counts
        (hammer2_chain_lock lockerr (hammer2_chain_lock lockerr
          (hammer2_chain_unlock (hammer2_chain_ref w p) chain) p how).2 chain how).2 p x
      refine ⟨?_, ?_, ?_⟩
      · rw [a5, a4, a3, a2, a1]; ring
      · rw [b5, b4, b3, b2, b1]; ring
      · rw [c5, c4, c3, c2, c1]
    have hpar := (key chain).2.2
    rw [hp] at hpar
    rw [if_pos hpar]
    refine ⟨_, rfl, ?_⟩
    intro x
    obtain ⟨a, b, c⟩ := key x
    refine ⟨a, ?_, c⟩
    rw [b]
    by_cases hx : x = p
    · subst hx; simp
    · have hx' : ¬ p = x := fun e => hx e.symm
      simp [hx, hx']

theorem parent_body_effect (lockerr : World → ChainId → Nat → Nat)
    (hlock : ∀ w c how, lockerr w c how = 0) (how fuel : Nat) (cluster : hammer2_cluster)
    (i : Nat) (P : hammer2_cluster) (w : World) :
    ∃ P' w', hammer2_cluster_parent_body lockerr how (fuel + 1) cluster i P w = some (P', w') ∧
      P'.array i = (P.array i).bind (fun c => (w.chain c).parent) ∧
      (∀ k, k ≠ i → P'.array k = P.array k) ∧
      P'.refs = P.refs ∧ P'.flags = P.flags ∧ P'.nchains = P.nchains ∧
      P'.focus = (match P.array i with
        | some c => if cluster.focus = some c then (w.chain c).parent else P.focus
        | none => P.focus) ∧
      ∀ x, (w'.chain x).refs = (w.chain x).refs - (if P.array i = some x then 1 else 0) ∧
        (w'.chain x).lockcnt = (w.chain x).lockcnt + (match P.array i with
          | some c => if (w.chain c).parent = some x then 1 else 0
          | none => 0) ∧
        (w'.chain x).parent = (w.chain x).parent := by
  unfold hammer2_cluster_parent_body
  cases hs : P.array i with
  | none =>
    dsimp only
    exact ⟨P, w, rfl, by simp [hs], fun _ _ => rfl, rfl, rfl, rfl, rfl,
      fun x => ⟨by simp, by simp, rfl⟩⟩
  | some c =>
    dsimp only
    obtain ⟨w1, hr, hw1⟩ := parent_retry_effect lockerr hlock how c fuel w
    rw [hr]
    dsimp only
    refine ⟨_, _, rfl, ?_, ?_, ?_, ?_, ?_, ?_, ?_⟩
    · simp
    · intro k hk
      dsimp only
      rw [Function.update_noteq hk]
      split <;> rfl
    · dsimp only; split <;> rfl
    · dsimp only; split <;> rfl
    · dsimp only; split <;> rfl
    · dsimp only
      split <;> rfl
    · intro x
      obtain ⟨a, b, c'⟩ := hw1 x
      obtain ⟨a2, b2, c2⟩ := chain_drop_counts w1 c x
      refine ⟨?_, b2.trans b, c2.trans c'⟩
      rw [a2, a]
      by_cases hx : x = c
      · subst hx; simp
      · have hx' : ¬ c = x := fun e => hx e.symm
        simp [hx, hx']

theorem parent_loop_effect (lockerr : World → ChainId → Nat → Nat)
    (hlock : ∀ w c how, lockerr w c how = 0) (how fuel : Nat) (cluster : hammer2_cluster)
    (w0 : World) :
    ∀ (n i : Nat) (P : hammer2_cluster) (w : World),
      (∀ k, i ≤ k → k < i + n → P.array k = cluster.array k) →
      (∀ x, (w.chain x).parent = (w0.chain x).parent) →
      ∃ P' w', hammer2_cluster_parent_loop lockerr how (fuel + 1) cluster n i P w =
          some (P', w') ∧
        (∀ k, i ≤ k → k < i + n →
          P'.array k = (cluster.array k).bind (fun c => (w0.chain c).parent)) ∧
        (∀ k, k < i → P'.array k = P.array k) ∧
        P'.refs = P.refs ∧ P'.flags = P.flags ∧ P'.nchains = P.nchains ∧
        (∀ f, cluster.focus = some f → (∃ k, i ≤ k ∧ k < i + n ∧ cluster.array k = some f) →
          P'.focus = (w0.chain f).parent) ∧
        ((∀ k c, i ≤ k → k < i + n → cluster.array k = some c → cluster.focus ≠ some c) →
          P'.focus = P.focus) ∧
        ∀ x, (w'.chain x).refs = (w.chain x).refs - slotcount cluster.array x n i ∧
          (w'.chain x).lockcnt =
            (w.chain x).lockcnt + parentcount w0.chain cluster.array x n i ∧
          (w'.chain x).parent = (w.chain x).parent := by
  intro n
  induction n with
  | zero =>
    intro i P w _ _
    refine ⟨P, w, rfl, fun k h1 h2 => (by omega), fun _ _ => rfl, rfl, rfl, rfl, ?_,
      fun _ => rfl, fun x => ⟨(by simp [slotcount]), (by simp [parentcount]), rfl⟩⟩
    rintro f - ⟨k, h1, h2, -⟩
    omega
  | succ n ih =>
    intro i P w hP hpar
    obtain ⟨P1, w1, hb, b1, b2, b3, b4, b5, b6, b7⟩ :=
      parent_body_effect lockerr hlock how fuel cluster i P w
    have hPi : P.array i = cluster.array i := hP i (le_refl _) (by omega)
    rw [hPi] at b1 b6 b7
    obtain ⟨P2, w2, hl, l1, l2, l3, l4, l5, l6, l7, l8⟩ := ih (i + 1) P1 w1
      (fun k h1 h2 => (b2 k (by omega)).trans (hP k (by omega) (by omega)))
      (fun x => ((b7 x).2.2).trans (hpar x))
    refine ⟨P2, w2, ?_, ?_, ?_, l3.trans b3, l4.trans b4, l5.trans b5, ?_, ?_, ?_⟩
    · rw [hammer2_cluster_parent_loop, hb]
      exact hl
    · intro k h1 h2
      by_cases hk : k = i
      · subst hk
        rw [l2 k (by omega), b1]
        cases cluster.array k with
        | none => rfl
        | some c => simp only [Option.bind]; exact hpar c
      · exact l1 k (by omega) (by omega)
    · intro k hk
      rw [l2 k (by omega)]
      exact b2 k (by omega)
    · intro f hf hex
      by_cases hrest : ∃ k, i + 1 ≤ k ∧ k < i + 1 + n ∧ cluster.array k = some f
      · exact l6 f hf hrest
      · have hi : cluster.array i = some f := by
          obtain ⟨k, h1, h2, h3⟩ := hex
          by_cases hk : k = i
          · subst hk; exact h3
          · exact absurd ⟨k, by omega, by omega, h3⟩ hrest
        have hno : ∀ k c, i + 1 ≤ k → k < i + 1 + n → cluster.array k = some c →
            cluster.focus ≠ some c := by
          intro k c h1 h2 h3 h4
          rw [hf] at h4
          cases h4
          exact hrest ⟨k, h1, h2, h3⟩
        rw [l7 hno, b6, hi]
        dsimp only
        rw [if_pos hf]
        exact hpar f
    · intro hno
      rw [l7 (fun k c h1 h2 => hno k c (by omega) (by omega)), b6]
      cases hi : cluster.array i with
      | none => rfl
      | some c =>
        dsimp only
        rw [if_neg (hno i c (le_refl _) (by omega) hi)]
    · intro x
      obtain ⟨a, b, c⟩ := l8 x
      obtain ⟨a', b', c'⟩ := b7 x
      refine ⟨?_, ?_, c.trans c'⟩
      · rw [a, a']
        simp only [slotcount]
        ring
      · rw [b, b']
        simp only [parentcount]
        cases hi : cluster.array i with
        | none => simp
        | some c =>
          dsimp only
          rw [hpar c]
          ring

theorem parentcount_zero (heap : Heap) (array : Nat → Option ChainId) (x : ChainId) :
    ∀ (n i : Nat),
      (∀ k c, i ≤ k → k < i + n → array k = some c → (heap c).parent ≠ some x) →
      parentcount heap array x n i = 0 := by
  intro n
  induction n with
  | zero => intro i _; rfl
  | succ n ih =>
    intro i h
    simp only [parentcount]
    rw [ih (i + 1) (fun k c h1 h2 => h k c (by omega) (by omega))]
    cases hi : array i with
    | none => simp
    | some c => simp [h i c (le_refl _) (by omega) hi]

/-- The effect of `hammer2_cluster_parent` when no lock fails: in a chain
layer where every lock succeeds and nothing else changes parent links, for a
cluster whose focus is NULL or the chain of one of its slots,
`hammer2_cluster_parent` returns (each retry loop ends at its first
test) a cluster with `refs = 1`, flags LOCKED, the child's `nchains`, in each
slot the parent link of the child's chain in that slot (NULL for an absent
slot or a chain without parent) and as focus the parent link of the child's
focus.  Every chain has its reference count and parent link as before; the
lock count of a chain has grown by one for each slot whose chain has it as
parent, and is as before for every chain that is no such parent.  The child
cluster is only read. -/
theorem cluster_parent_effect (K : hammer2_h) (lockerr : World → ChainId → Nat → Nat)
    (fuel : Nat) (cluster : hammer2_cluster) (w : World)
    (hlock : ∀ w c how, lockerr w c how = 0)
    (hfocus : cluster.focus = none ∨
      ∃ i, i < cluster.nchains ∧ cluster.array i = cluster.focus) :
    ∃ P w', hammer2_cluster_parent K lockerr (fuel + 1) cluster w = some (P, w') ∧
      P.refs = 1 ∧ P.flags = K.HAMMER2_CLUSTER_LOCKED ∧ P.nchains = cluster.nchains ∧
      (∀ i, i < cluster.nchains →
        P.array i = (cluster.array i).bind (fun c => (w.chain c).parent)) ∧
      P.focus = cluster.focus.bind (fun c => (w.chain c).parent) ∧
      (∀ x, (w'.chain x).refs = (w.chain x).refs ∧
        (w'.chain x).parent = (w.chain x).parent ∧
        (w'.chain x).lockcnt =
          (w.chain x).lockcnt + parentcount w.chain cluster.array x cluster.nchains 0 ∧
        ((∀ i c, i < cluster.nchains → cluster.array i = some c →
            (w.chain c).parent ≠ some x) →
          (w'.chain x).lockcnt = (w.chain x).lockcnt)) := by
  obtain ⟨c1, c2, c3, c4, c5, c6, c7⟩ := copy_loop_effect cluster cluster.nchains 0
    { refs := 1, ddflag := 0, flags := 0, nchains := cluster.nchains, focus := none,
      array := fun _ => none, pmp := cluster.pmp } w
  have hcopy : hammer2_cluster_copy cluster w = hammer2_cluster_copy_loop cluster
      cluster.nchains 0
      { refs := 1, ddflag := 0, flags := 0, nchains := cluster.nchains, focus := none,
        array := fun _ => none, pmp := cluster.pmp } w := rfl
  obtain ⟨P, w', hl, l1, l2, l3, l4, l5, l6, l7, l8⟩ :=
    parent_loop_effect lockerr hlock K.HAMMER2_RESOLVE_ALWAYS fuel cluster w
      cluster.nchains 0 (hammer2_cluster_copy cluster w).1 (hammer2_cluster_copy cluster w).2
      (by rw [hcopy]; exact fun k h1 h2 => c1 k h1 h2)
      (by rw [hcopy]; exact fun x => (c7 x).2.2)
  have hn : (hammer2_cluster_copy cluster w).1.nchains = cluster.nchains := by
    rw [hcopy]; exact c5
  refine ⟨{ P with flags := P.flags ||| K.HAMMER2_CLUSTER_LOCKED }, w', ?_, ?_, ?_, ?_, ?_, ?_,
    ?_⟩
  · unfold hammer2_cluster_parent
    dsimp only
    rw [hn, hl]
  · show P.refs = 1
    rw [l3, hcopy, c3]
  · show P.flags ||| K.HAMMER2_CLUSTER_LOCKED = K.HAMMER2_CLUSTER_LOCKED
    rw [l4, hcopy, c4]
    exact Nat.zero_or _
  · show P.nchains = cluster.nchains
    rw [l5, hn]
  · intro i hi
    exact l1 i (Nat.zero_le _) (by omega)
  · show P.focus = _
    rcases hfocus with hnone | ⟨i, hi, hfi⟩
    · rw [l7 (fun k c _ _ _ h => by rw [hnone] at h; cases h), hcopy, c6, hnone]
      rfl
    · cases hf : cluster.focus with
      | none =>
        rw [l7 (fun k c _ _ _ h => by rw [hf] at h; cases h), hcopy, c6]
        rfl
      | some f =>
        rw [l6 f hf ⟨i, Nat.zero_le _, by omega, hfi.trans hf⟩]
        rfl
  · intro x
    obtain ⟨a, b, c⟩ := l8 x
    have hrefs : (w'.chain x).refs = (w.chain x).refs := by
      rw [a, hcopy, (c7 x).1]; ring
    have hlk : (w'.chain x).lockcnt =
        (w.chain x).lockcnt + parentcount w.chain cluster.array x cluster.nchains 0 := by
      rw [b, hcopy, (c7 x).2.1]
    refine ⟨hrefs, ?_, hlk, ?_⟩
    · rw [c, hcopy, (c7 x).2.2]
    · intro hno
      rw [hlk, parentcount_zero _ _ _ _ _ (fun k c _ h2 h3 => hno k c (by omega) h3)]
      simp

/-- An instance of `cluster_parent_effect`: the locked cluster of chain 1
(under chain 100), a hole and chain 11 (under chain 200), focused on
chain 11, every chain locked once. -/
theorem cluster_parent_effect_witness :
    (∀ w c how, sample_lock_ok w c how = 0) ∧
    ((sample_cluster 1 4 (some 11) [some 1, none, some 11]).focus = none ∨
      ∃ i, i < (sample_cluster 1 4 (some 11) [some 1, none, some 11]).nchains ∧
        (sample_cluster 1 4 (some 11) [some 1, none, some 11]).array i =
          (sample_cluster 1 4 (some 11) [some 1, none, some 11]).focus) ∧
    ∃ P w', hammer2_cluster_parent sample_h sample_lock_ok 1
        (sample_cluster 1 4 (some 11) [some 1, none, some 11]) linked_world = some (P, w') ∧
      P.refs = 1 ∧ P.flags = sample_h.HAMMER2_CLUSTER_LOCKED ∧
      P.nchains = (sample_cluster 1 4 (some 11) [some 1, none, some 11]).nchains ∧
      (∀ i, i < (sample_cluster 1 4 (some 11) [some 1, none, some 11]).nchains →
        P.array i = ((sample_cluster 1 4 (some 11) [some 1, none, some 11]).array i).bind
          (fun c => (linked_world.chain c).parent)) ∧
      P.focus = (sample_cluster 1 4 (some 11) [some 1, none, some 11]).focus.bind
        (fun c => (linked_world.chain c).parent) ∧
      (∀ x, (w'.chain x).refs = (linked_world.chain x).refs ∧
        (w'.chain x).parent = (linked_world.chain x).parent ∧
        (w'.chain x).lockcnt = (linked_world.chain x).lockcnt +
          parentcount linked_world.chain
            (sample_cluster 1 4 (some 11) [some 1, none, some 11]).array x
            (sample_cluster 1 4 (some 11) [some 1, none, some 11]).nchains 0 ∧
        ((∀ i c, i < (sample_cluster 1 4 (some 11) [some 1, none, some 11]).nchains →
            (sample_cluster 1 4 (some 11) [some 1, none, some 11]).array i = some c →
            (linked_world.chain c).parent ≠ some x) →
          (w'.chain x).lockcnt = (linked_world.chain x).lockcnt)) :=
  ⟨fun _ _ _ => rfl, Or.inr ⟨2, by decide, rfl⟩,
    cluster_parent_effect sample_h sample_lock_ok 0
      (sample_cluster 1 4 (some 11) [some 1, none, some 11]) linked_world (fun _ _ _ => rfl)
      (Or.inr ⟨2, by decide, rfl⟩)⟩

/-- The example of `cluster_parent_effect` evaluated: the parent cluster
holds chain 100, a hole and chain 200 and is focused on chain 200; chains 100
and 200 are locked a second time, chains 1 and 11 keep their lock and
reference counts; the calls
for slot 0 are ref 100, unlock 1, lock 100, lock 1, drop 100, drop 1 after
the copy's ref 1 and ref 11. -/
theorem cluster_parent_example :
    (hammer2_cluster_parent sample_h sample_lock_ok 1
        (sample_cluster 1 4 (some 11) [some 1, none, some 11]) linked_world).map
      (fun r => (r.1.refs, r.1.flags, r.1.nchains, r.1.focus, r.1.array 0, r.1.array 1,
        r.1.array 2, (r.2.chain 100).lockcnt, (r.2.chain 200).lockcnt,
        (r.2.chain 1).lockcnt, (r.2.chain 1).refs, (r.2.chain 11).lockcnt,
        (r.2.chain 11).refs, r.2.trace.take 8)) =
      some (1, 4, 3, some 200, some 100, none, some 200, 2, 2, 1, 1, 1, 1,
        [ChainCall.ref 1, ChainCall.ref 11, ChainCall.ref 100, ChainCall.unlock 1,
          ChainCall.lock 100 3 0, ChainCall.lock 1 3 0, ChainCall.drop 100,
          ChainCall.drop 1]) := by
  rfl

/-- C22 (failing input): the locked cluster of chain 1, whose parent link is
chain 100, both locked once.  When the lock of chain 100 fails with error 35,
`hammer2_cluster_parent` does not look at the result: it returns a cluster
with the LOCKED flag (4) holding chain 100 in slot 0 and as focus, while the
lock count of chain 100 is 1 as before the call.  When the lock of chain 1
fails, the re-lock of the child after its unlock is lost in the same way and
the child's lock count comes back as 0 instead of 1. -/
theorem cluster_parent_ignores_lock_failure :
    (hammer2_cluster_parent sample_h sample_lockerr_parent 1
        (sample_cluster 1 4 (some 1) [some 1]) linked_world).map
      (fun r => (r.1.flags, r.1.array 0, r.1.focus, (linked_world.chain 100).lockcnt,
        (r.2.chain 100).lockcnt, (r.2.chain 1).lockcnt, r.2.trace)) =
      some (4, some 100, some 100, 1, 1, 1,
        [ChainCall.ref 1, ChainCall.ref 100, ChainCall.unlock 1, ChainCall.lock 100 3 35,
          ChainCall.lock 1 3 0, ChainCall.drop 100, ChainCall.drop 1]) ∧
    (hammer2_cluster_parent sample_h sample_lockerr 1
        (sample_cluster 1 4 (some 1) [some 1]) linked_world).map
      (fun r => (r.1.flags, r.1.array 0, (r.2.chain 100).lockcnt,
        (linked_world.chain 1).lockcnt, (r.2.chain 1).lockcnt, r.2.trace)) =
      some (4, some 100, 2, 1, 0,
        [ChainCall.ref 1, ChainCall.ref 100, ChainCall.unlock 1, ChainCall.lock 100 3 0,
          ChainCall.lock 1 3 35, ChainCall.drop 100, ChainCall.drop 1]) := by
  refine ⟨by rfl, by rfl⟩

end Hammer2
